import Mathlib

/-!
# slime_blob.c — soft-body ring and metaball renderer

A shallow embedding of `src/slime_blob.c`.

Conventions of the embedding:
* `float` values are real numbers and the arithmetic is exact (rounding, infinities and NaN are
  not modelled); `sqrtf`, `sinf`, `cosf` are `Real.sqrt`, `Real.sin`, `Real.cos`, and `M_PI` is
  `Real.pi`;
* `int` values are integers; the `int` flag `pinned` is a `Bool`;
* the global arrays and scalars of the C file are the fields of one record `Sim`, and every
  `void` function that mutates them is a function `Sim → Sim`;
* `rand()` is a function of the C library: its successive results are a sequence
  `rand : ℕ → ℕ`, and the record counts the calls made so far.
-/

noncomputable section

namespace SlimeBlob

/-! ## Constants (`#define`s, lines 10-24) -/

abbrev NUM_POINTS : ℕ := 24
def RADIUS : ℝ := 12
def POINT_MASS : ℝ := 0.5
def VISCOSITY : ℝ := 0.3
def FRICTION : ℝ := 0.92
def K_SPRING : ℝ := 0.02
def K_PRESSURE : ℝ := 0.15
def K_BOUNDARY : ℝ := 0.7
def METABALL_THRESHOLD : ℝ := 1.8
def MAX_VELOCITY : ℝ := 6
def CONSTRAINT_ITERATIONS : ℕ := 2
def WOBBLE_STRENGTH : ℝ := 0.3
def IRREGULARITY : ℝ := 3
def GRAVITY_STRENGTH : ℝ := 0.08
def WIND_STRENGTH : ℝ := 0.15

/-! ## Data model (lines 25-58) -/

@[ext]
structure Vec2 where
  x : ℝ
  y : ℝ

@[ext]
structure Point where
  pos : Vec2
  old_pos : Vec2
  acc : Vec2
  vel : Vec2
  mass : ℝ
  rest_angle : ℝ
  noise_phase : ℝ
  pinned : Bool

structure Environment where
  gravity : ℝ
  wind_x : ℝ
  wind_y : ℝ
  turbulence : ℝ
  enabled : Bool

inductive ForceMode where
  | MODE_GENTLE
  | MODE_NORMAL
  | MODE_STRONG
  | MODE_EXTREME
  deriving DecidableEq

/-! ## Vector kernel (lines 86-104) -/

def vec_new (x y : ℝ) : Vec2 := ⟨x, y⟩
def vec_sub (a b : Vec2) : Vec2 := ⟨a.x - b.x, a.y - b.y⟩
def vec_add (a b : Vec2) : Vec2 := ⟨a.x + b.x, a.y + b.y⟩
def vec_scale (v : Vec2) (s : ℝ) : Vec2 := ⟨v.x * s, v.y * s⟩
def vec_len (v : Vec2) : ℝ := Real.sqrt (v.x * v.x + v.y * v.y)
def vec_len_sq (v : Vec2) : ℝ := v.x * v.x + v.y * v.y

def vec_normalize (v : Vec2) : Vec2 :=
  let len := vec_len v
  if len > 0.01 then vec_scale v (1 / len) else vec_new 0 0

def clamp (v min max : ℝ) : ℝ :=
  if v < min then min else (if v > max then max else v)

/-! ## Ring indices (lines 240-241 and 289-290)

`%` on C `int`s truncates toward zero, which is `Int.tmod`. -/

/-- The index expression `(i - 1 + NUM_POINTS) % NUM_POINTS`. -/
def prev (i : ℤ) : ℤ := Int.tmod (i - 1 + NUM_POINTS) NUM_POINTS

/-- The index expression `(i + 1) % NUM_POINTS`. -/
def next (i : ℤ) : ℤ := Int.tmod (i + 1) NUM_POINTS

/-! ## Boundary collision and the integration sub-step (lines 265-284, 326-350) -/

/-- Function `apply_boundary_constraints`: four independent `if`s, in source order. -/
def apply_boundary_constraints (width height : ℤ) (p : Point) : Point :=
  let margin : ℝ := 2
  let p1 : Point :=
    if p.pos.x < margin then
      { p with pos := ⟨margin, p.pos.y⟩, vel := ⟨p.vel.x * -K_BOUNDARY, p.vel.y⟩ }
    else p
  let p2 : Point :=
    if p1.pos.x ≥ (width : ℝ) - margin then
      { p1 with pos := ⟨(width : ℝ) - margin, p1.pos.y⟩, vel := ⟨p1.vel.x * -K_BOUNDARY, p1.vel.y⟩ }
    else p1
  let p3 : Point :=
    if p2.pos.y < margin then
      { p2 with pos := ⟨p2.pos.x, margin⟩, vel := ⟨p2.vel.x, p2.vel.y * -K_BOUNDARY⟩ }
    else p2
  if p3.pos.y ≥ (height : ℝ) - margin then
    { p3 with pos := ⟨p3.pos.x, (height : ℝ) - margin⟩, vel := ⟨p3.vel.x, p3.vel.y * -K_BOUNDARY⟩ }
  else p3

/-- The per-point integration sub-step of `update_physics`: the body of the loop of lines
325-339, which lines 340-351 repeat verbatim for `center`. A pinned point is skipped. -/
def integrate_point (width height : ℤ) (dt : ℝ) (p : Point) : Point :=
  if p.pinned then p
  else
    let v1 := vec_add p.vel (vec_scale p.acc dt)
    let vel_mag := vec_len v1
    let v2 := if vel_mag > MAX_VELOCITY then vec_scale v1 (MAX_VELOCITY / vel_mag) else v1
    let v3 := vec_scale v2 FRICTION
    apply_boundary_constraints width height
      { p with vel := v3, old_pos := p.pos, pos := vec_add p.pos (vec_scale v3 dt),
               acc := vec_new 0 0 }

/-! ## Simulation state (the globals of lines 46-58) -/

structure Sim where
  points : Fin NUM_POINTS → Point
  center : Point
  width : ℤ
  height : ℤ
  env : Environment
  force_mode : ForceMode
  use_color : Bool
  show_glow : Bool
  show_highlights : Bool
  pulse_phase : ℝ
  global_wobble : ℝ
  slime_viscosity_visual : ℝ
  color_theme : ℤ
  rand_calls : ℕ

/-- The array index `prev` of ring position `i`; it is in bounds for every `i` of the loop. -/
def prevIdx (i : Fin NUM_POINTS) : Fin NUM_POINTS :=
  ⟨(prev ((i : ℕ) : ℤ)).toNat, by revert i; decide⟩

/-- The array index `next` of ring position `i`; it is in bounds for every `i` of the loop. -/
def nextIdx (i : Fin NUM_POINTS) : Fin NUM_POINTS :=
  ⟨(next ((i : ℕ) : ℤ)).toNat, by revert i; decide⟩

/-- Function `randf` at the `k`-th call of `rand()`: `((float)rand() / RAND_MAX) * 2 - 1`. -/
def randf (rand : ℕ → ℕ) (RAND_MAX : ℕ) (k : ℕ) : ℝ :=
  ((rand k : ℝ) / (RAND_MAX : ℝ)) * 2 - 1

/-! ## Force application (lines 127-143, 192-197) -/

def apply_force_to_point (p : Point) (force : Vec2) : Point :=
  if !p.pinned then { p with acc := vec_add p.acc (vec_scale force (1 / p.mass)) } else p

/-- The multiplier selected by the force mode (lines 133-136). -/
def force_mult (m : ForceMode) : ℝ :=
  if m = ForceMode.MODE_GENTLE then 0.2
  else if m = ForceMode.MODE_STRONG then 2.5
  else if m = ForceMode.MODE_EXTREME then 5.0
  else 1.0

/-- Body of the loop of `apply_force_global` (lines 139-140); `force` is already scaled. The two
`randf()` calls of the argument list are taken left to right. -/
def apply_force_global_step (rand : ℕ → ℕ) (RAND_MAX : ℕ) (force : Vec2) (s : Sim)
    (i : Fin NUM_POINTS) : Sim :=
  let varied_force :=
    vec_add force (vec_new (randf rand RAND_MAX s.rand_calls * 0.5)
      (randf rand RAND_MAX (s.rand_calls + 1) * 0.5))
  { s with points := Function.update s.points i (apply_force_to_point (s.points i) varied_force),
           rand_calls := s.rand_calls + 2 }

def apply_force_global (rand : ℕ → ℕ) (RAND_MAX : ℕ) (s : Sim) (force : Vec2) : Sim :=
  let force := vec_scale force (force_mult s.force_mode)
  let s1 := (List.finRange NUM_POINTS).foldl (apply_force_global_step rand RAND_MAX force) s
  { s1 with center := apply_force_to_point s1.center force }

/-- Lines 194-196 of `poke_random`, for the index `idx` that line 193 drew. -/
def poke_point (s : Sim) (idx : Fin NUM_POINTS) : Sim :=
  let dir := vec_sub s.center.pos (s.points idx).pos
  let force := vec_scale (vec_normalize dir) 8
  { s with points := Function.update s.points idx (apply_force_to_point (s.points idx) force) }

def poke_random (rand : ℕ → ℕ) (s : Sim) : Sim :=
  poke_point { s with rand_calls := s.rand_calls + 1 }
    ⟨rand s.rand_calls % NUM_POINTS, Nat.mod_lt _ (by decide)⟩

/-! ## Ambient forces (lines 214-236) -/

/-- Body of the loop of `apply_slime_wobble`. -/
def apply_slime_wobble_step (dt : ℝ) (pts : Fin NUM_POINTS → Point) (i : Fin NUM_POINTS) :
    Fin NUM_POINTS → Point :=
  let p : Point := { pts i with noise_phase := (pts i).noise_phase + dt * 2 }
  let wobble_x := Real.sin p.noise_phase * WOBBLE_STRENGTH
  let wobble_y := Real.cos (p.noise_phase * 1.3) * WOBBLE_STRENGTH
  Function.update pts i (apply_force_to_point p (vec_new wobble_x wobble_y))

def apply_slime_wobble (s : Sim) (dt : ℝ) : Sim :=
  { s with points := (List.finRange NUM_POINTS).foldl (apply_slime_wobble_step dt) s.points }

/-- Body of the loop of `apply_environmental_forces` (lines 228-233); the two `randf()` calls of
the argument list are taken left to right. -/
def apply_environmental_forces_step (rand : ℕ → ℕ) (RAND_MAX : ℕ) (env_force : Vec2) (s : Sim)
    (i : Fin NUM_POINTS) : Sim :=
  if s.env.turbulence > 0 then
    let force :=
      vec_add env_force (vec_new (randf rand RAND_MAX s.rand_calls * s.env.turbulence)
        (randf rand RAND_MAX (s.rand_calls + 1) * s.env.turbulence))
    { s with points := Function.update s.points i (apply_force_to_point (s.points i) force),
             rand_calls := s.rand_calls + 2 }
  else
    { s with points := Function.update s.points i (apply_force_to_point (s.points i) env_force) }

def apply_environmental_forces (rand : ℕ → ℕ) (RAND_MAX : ℕ) (s : Sim) : Sim :=
  if !s.env.enabled then s
  else
    let env_force := vec_new s.env.wind_x (s.env.gravity + s.env.wind_y)
    let s1 :=
      (List.finRange NUM_POINTS).foldl (apply_environmental_forces_step rand RAND_MAX env_force) s
    { s1 with center := apply_force_to_point s1.center env_force }

/-! ## Constraint relaxation (lines 237-264) -/

/-- The rest length `(RADIUS * 2.5f * M_PI) / NUM_POINTS` of lines 242 and 293. -/
def rest_len : ℝ := (RADIUS * 2.5 * Real.pi) / (NUM_POINTS : ℝ)

/-- The guarded store `if (!points[k].pinned) points[k].pos = v;` of lines 248-251, 259-260. -/
def set_pos_unless_pinned (pts : Fin NUM_POINTS → Point) (k : Fin NUM_POINTS) (v : Vec2) :
    Fin NUM_POINTS → Point :=
  if !(pts k).pinned then Function.update pts k { pts k with pos := v } else pts

/-- Lines 243-252: the neighbour-spacing correction between point `i` and point `prev`. -/
def neighbour_correction (pts : Fin NUM_POINTS → Point) (i : Fin NUM_POINTS) :
    Fin NUM_POINTS → Point :=
  let pv := prevIdx i
  let delta := vec_sub (pts pv).pos (pts i).pos
  let dist := vec_len delta
  if dist > 0.01 then
    let diff := (dist - rest_len) / dist
    let correction := vec_scale delta (diff * 0.2)
    let ptsA := set_pos_unless_pinned pts i (vec_add (pts i).pos correction)
    set_pos_unless_pinned ptsA pv (vec_sub (ptsA pv).pos correction)
  else pts

/-- Lines 253-261: the soft tether of point `i` to the anchor. -/
def tether_correction (center : Point) (pts : Fin NUM_POINTS → Point) (i : Fin NUM_POINTS) :
    Fin NUM_POINTS → Point :=
  let to_center := vec_sub center.pos (pts i).pos
  let dist := vec_len to_center
  let target_dist : ℝ := RADIUS * 1.2
  if dist > target_dist * 1.5 ∧ dist > 0.01 then
    let diff := (dist - target_dist) / dist
    let correction := vec_scale to_center (diff * 0.15)
    set_pos_unless_pinned pts i (vec_add (pts i).pos correction)
  else pts

/-- Body of the inner loop of `solve_constraints` (lines 240-261) for index `i`. -/
def solve_constraints_step (center : Point) (pts : Fin NUM_POINTS → Point)
    (i : Fin NUM_POINTS) : Fin NUM_POINTS → Point :=
  tether_correction center (neighbour_correction pts i) i

/-- One pass of the outer loop of `solve_constraints`: the inner loop over `i = 0 .. 23`. -/
def solve_constraints_pass (center : Point) (pts : Fin NUM_POINTS → Point) :
    Fin NUM_POINTS → Point :=
  (List.finRange NUM_POINTS).foldl (solve_constraints_step center) pts

def solve_constraints (s : Sim) : Sim :=
  let pts :=
    (List.range CONSTRAINT_ITERATIONS).foldl (fun pts _ => solve_constraints_pass s.center pts)
      s.points
  { s with points := pts }

/-! ## The physics step (lines 285-355) -/

/-- Lines 291-315 of the first loop of `update_physics` for the point `p0 = points[i]`, given
the positions of its two ring neighbours: springs to both neighbours and to the anchor, pressure,
viscosity. Only `acc` of the point is written. -/
def internal_forces_point (center : Point) (pos_prev pos_next : Vec2) (p0 : Point) : Point :=
  let rest : ℝ := (RADIUS * 2.5 * Real.pi) / (NUM_POINTS : ℝ)
  let d_prev := vec_sub pos_prev p0.pos
  let dist1 := vec_len d_prev
  let p1 :=
    if dist1 > 0.01 then
      apply_force_to_point p0 (vec_scale d_prev (K_SPRING * (dist1 - rest) / dist1))
    else p0
  let d_next := vec_sub pos_next p1.pos
  let dist2 := vec_len d_next
  let p2 :=
    if dist2 > 0.01 then
      apply_force_to_point p1 (vec_scale d_next (K_SPRING * (dist2 - rest) / dist2))
    else p1
  let to_center := vec_sub center.pos p2.pos
  let dist3 := vec_len to_center
  let p3 :=
    if dist3 > 0.01 then
      apply_force_to_point p2 (vec_scale to_center (K_SPRING * 0.15 * (dist3 - RADIUS) / dist3))
    else p2
  let p4 :=
    if dist3 < RADIUS * 0.5 ∧ dist3 > 0.01 then
      apply_force_to_point p3 (vec_scale to_center (-K_PRESSURE / dist3))
    else p3
  { p4 with acc := vec_add p4.acc (vec_scale p4.vel (-VISCOSITY)) }

/-- Body of the first loop of `update_physics` (lines 288-315) for index `i`. -/
def internal_forces_step (center : Point) (pts : Fin NUM_POINTS → Point)
    (i : Fin NUM_POINTS) : Fin NUM_POINTS → Point :=
  Function.update pts i
    (internal_forces_point center (pts (prevIdx i)).pos (pts (nextIdx i)).pos (pts i))

/-- Body of the integration loop of `update_physics` (lines 326-338). -/
def integrate_step (width height : ℤ) (dt : ℝ) (pts : Fin NUM_POINTS → Point)
    (i : Fin NUM_POINTS) : Fin NUM_POINTS → Point :=
  Function.update pts i (integrate_point width height dt (pts i))

def update_physics (rand : ℕ → ℕ) (RAND_MAX : ℕ) (s : Sim) (dt : ℝ) : Sim :=
  let s1 := apply_slime_wobble s dt
  let pts2 := (List.finRange NUM_POINTS).foldl (internal_forces_step s1.center) s1.points
  let avg_pos0 := (List.finRange NUM_POINTS).foldl (fun a i => vec_add a (pts2 i).pos) (vec_new 0 0)
  let avg_pos := vec_scale avg_pos0 (1 / (NUM_POINTS : ℝ))
  let center_force := vec_scale (vec_sub avg_pos s1.center.pos) 0.1
  let s3 : Sim := { s1 with points := pts2, center := apply_force_to_point s1.center center_force }
  let s4 := apply_environmental_forces rand RAND_MAX s3
  let pts5 := (List.finRange NUM_POINTS).foldl (integrate_step s4.width s4.height dt) s4.points
  let s6 : Sim :=
    { s4 with points := pts5, center := integrate_point s4.width s4.height dt s4.center }
  let s7 := solve_constraints s6
  { s7 with global_wobble := s7.global_wobble + dt, pulse_phase := s7.pulse_phase + dt * 3 }

/-! ## Density field of the renderer (lines 442-457) -/

/-- The density accumulated for grid cell `(x, y)` by lines 442-456, before the shimmer factor. -/
def density_sum (s : Sim) (x y : ℤ) : ℝ :=
  let dx := (x : ℝ) - s.center.pos.x
  let dy := ((y : ℝ) - s.center.pos.y) * 2
  let dist_sq := dx * dx + dy * dy
  let dist_sq := if dist_sq < 1 then 1 else dist_sq
  (List.finRange NUM_POINTS).foldl
    (fun density i =>
      let dx := (x : ℝ) - (s.points i).pos.x
      let dy := ((y : ℝ) - (s.points i).pos.y) * 2
      let dist_sq := dx * dx + dy * dy
      let dist_sq := if dist_sq < 0.1 then 0.1 else dist_sq
      density + 22 / dist_sq)
    (0 + 30 / dist_sq)

/-- The value of `density` for grid cell `(x, y)` after line 457. -/
def cell_density (s : Sim) (x y : ℤ) : ℝ :=
  density_sum s x y * (1 + Real.sin (s.pulse_phase + (x : ℝ) * 0.1) * 0.15)

/-! ## Interactive radial and rotational forces (lines 144-161) -/

/-- The force `vec_scale(dir, strength / dist)` of lines 146-149 for the point `p`. -/
def radial_force (strength : ℝ) (center p : Point) : Vec2 :=
  let dir := vec_sub p.pos center.pos
  let dist := vec_len dir
  vec_scale dir (strength / dist)

/-- Body of the loop of `apply_radial_force` (lines 146-151) for the point `p`. -/
def radial_force_point (strength : ℝ) (center p : Point) : Point :=
  let dir := vec_sub p.pos center.pos
  let dist := vec_len dir
  if dist > 0.1 then apply_force_to_point p (radial_force strength center p) else p

def apply_radial_force (s : Sim) (strength : ℝ) : Sim :=
  let pts :=
    (List.finRange NUM_POINTS).foldl
      (fun pts i => Function.update pts i (radial_force_point strength s.center (pts i))) s.points
  { s with points := pts }

/-- The force of lines 156-158 for the point `p`. -/
def rotation_force (angular_vel : ℝ) (center p : Point) : Vec2 :=
  let r := vec_sub p.pos center.pos
  let tangent := vec_new (-r.y) r.x
  vec_scale (vec_normalize tangent) angular_vel

def apply_rotation_force (s : Sim) (angular_vel : ℝ) : Sim :=
  let pts :=
    (List.finRange NUM_POINTS).foldl
      (fun pts i =>
        Function.update pts i (apply_force_to_point (pts i) (rotation_force angular_vel s.center (pts i))))
      s.points
  { s with points := pts }

/-! ## The renderer: colours, sampling window and glyphs (lines 356-474) -/

/-- The conversion `(int)x` of a `float` to `int` (32 bits): the value is truncated toward zero;
the behaviour is undefined, here `none`, when the truncated value is not representable. -/
def float_to_int (x : ℝ) : Option ℤ :=
  if -2147483649 < x ∧ x < 2147483648 then some (if 0 ≤ x then ⌊x⌋ else ⌈x⌉) else none

/-- The result of an `int` operation whose exact value is `z`: undefined, here `none`, on signed
overflow. -/
def int_of (z : ℤ) : Option ℤ :=
  if -2147483648 ≤ z ∧ z ≤ 2147483647 then some z else none

/-- The table `colors` of lines 403-404. -/
def rainbow_colors : List String :=
  ["\x1b[31m", "\x1b[33m", "\x1b[32m", "\x1b[36m", "\x1b[34m", "\x1b[35m"]

/-- The index `hue` of line 402 for the given pulse phase and density. -/
def rainbow_hue (pulse_phase density : ℝ) : Option ℤ :=
  (float_to_int (pulse_phase * 50 + density * 20)).map fun k => Int.tmod k 6

/-- Function `get_slime_color`; `none` is undefined behaviour (an undefined conversion or a read
outside the table `colors`). -/
def get_slime_color (s : Sim) (density highlight _glow : ℝ) : Option String :=
  if s.use_color = false then some ""
  else if highlight > 0.8 ∧ s.show_highlights = true then some "\x1b[97;1m"
  else if s.show_glow = true ∧ density < 3.5 ∧ density > METABALL_THRESHOLD ∧ s.color_theme = 0 then
    some "\x1b[92m"
  else if s.show_glow = true ∧ density < 3.5 ∧ density > METABALL_THRESHOLD ∧ s.color_theme = 1 then
    some "\x1b[95m"
  else if s.show_glow = true ∧ density < 3.5 ∧ density > METABALL_THRESHOLD ∧ s.color_theme = 2 then
    some "\x1b[96m"
  else if s.color_theme = 0 then
    (if density > 8 then some "\x1b[32;1m"
     else if density > 6 then some "\x1b[32m"
     else if density > 4 then some "\x1b[92m"
     else if density > 2.5 then some "\x1b[36m"
     else some "\x1b[32m")
  else if s.color_theme = 1 then
    (if density > 8 then some "\x1b[35;1m"
     else if density > 6 then some "\x1b[35m"
     else if density > 4 then some "\x1b[95m"
     else if density > 2.5 then some "\x1b[94m"
     else some "\x1b[35m")
  else if s.color_theme = 2 then
    (if density > 8 then some "\x1b[36;1m"
     else if density > 6 then some "\x1b[36m"
     else if density > 4 then some "\x1b[96m"
     else if density > 2.5 then some "\x1b[34m"
     else some "\x1b[36m")
  else if s.color_theme = 3 then
    (rainbow_hue s.pulse_phase density).bind fun hue =>
      if 0 ≤ hue then rainbow_colors.get? hue.toNat else none
  else some "\x1b[32m"

/-- The bounding box `min_x, max_x, min_y, max_y` of `render`. -/
structure Window where
  min_x : ℤ
  max_x : ℤ
  min_y : ℤ
  max_y : ℤ

/-- Body of the loop of lines 420-429 for the boundary point `p`. -/
def window_step (pts : Fin NUM_POINTS → Point) (w : Option Window) (i : Fin NUM_POINTS) :
    Option Window := do
  let w ← w
  let min_x ← if (pts i).pos.x < (w.min_x : ℝ) then float_to_int (pts i).pos.x else some w.min_x
  let max_x ← if (pts i).pos.x > (w.max_x : ℝ) then float_to_int (pts i).pos.x else some w.max_x
  let min_y ← if (pts i).pos.y < (w.min_y : ℝ) then float_to_int (pts i).pos.y else some w.min_y
  let max_y ← if (pts i).pos.y > (w.max_y : ℝ) then float_to_int (pts i).pos.y else some w.max_y
  some ⟨min_x, max_x, min_y, max_y⟩

/-- Lines 419-437 of `render`: the sampling window, the bounding box of the boundary points
widened by 10 columns and 5 rows and clamped to the stage. -/
def render_window (s : Sim) : Option Window := do
  let w ← (List.finRange NUM_POINTS).foldl (window_step s.points) (some ⟨s.width, 0, s.height, 0⟩)
  let min_x ← int_of (w.min_x - 10)
  let max_x ← int_of (w.max_x + 10)
  let min_y ← int_of (w.min_y - 5)
  let max_y ← int_of (w.max_y + 5)
  let wm ← int_of (s.width - 1)
  let hm ← int_of (s.height - 1)
  let min_x ← float_to_int (clamp (min_x : ℝ) 0 (wm : ℝ))
  let max_x ← float_to_int (clamp (max_x : ℝ) 0 (wm : ℝ))
  let min_y ← float_to_int (clamp (min_y : ℝ) 0 (hm : ℝ))
  let max_y ← float_to_int (clamp (max_y : ℝ) 0 (hm : ℝ))
  some ⟨min_x, max_x, min_y, max_y⟩

/-- The grid cell `(x, y)` is one of the cells the loops of lines 440-441 visit. -/
def in_window (s : Sim) (x y : ℤ) : Prop :=
  ∃ w, render_window s = some w ∧ w.min_x ≤ x ∧ x ≤ w.max_x ∧ w.min_y ≤ y ∧ y ≤ w.max_y

/-- The ramp `slime_chars` of line 438. -/
def slime_chars : List Char := " .':~=+*#%@".toList

/-- The value `num_chars = strlen(slime_chars)` of line 439. -/
def num_chars : ℤ := slime_chars.length

/-- The index `char_idx` of line 466 for the given density. -/
def char_idx (density : ℝ) : Option ℤ := do
  let k ← float_to_int (density * 0.55)
  let top ← int_of (num_chars - 1)
  float_to_int (clamp (k : ℝ) 0 (top : ℝ))

/-- Lines 442-468 of `render` for the grid cell `(x, y)`: the content of `buffer[y][x]` after the
body of the loop, when it holds `old` before. -/
def render_cell (s : Sim) (x y : ℤ) (old : Char) : Option Char :=
  let density := cell_density s x y
  if density > METABALL_THRESHOLD then do
    let idx ← char_idx density
    if y < 200 ∧ x < 300 then
      (if 0 ≤ idx then slime_chars.get? idx.toNat else none)
    else some old
  else some old

/-- The initial value of the global `pulse_phase` (line 55). -/
def pulse_phase_init : ℝ := 0

/-- The loop of `main` (lines 654-662) run for the frames `fs`: in each frame the pending key, if
any, is handled, which transforms the state by `cmd`, and then `update_physics(dt)` runs. -/
def run_frames (rand : ℕ → ℕ) (RAND_MAX : ℕ) (s : Sim) (fs : List ((Sim → Sim) × ℝ)) : Sim :=
  fs.foldl (fun s f => update_physics rand RAND_MAX (f.1 s) f.2) s

/-! ## Initialisation (lines 105-126) -/

/-- Body of the loop of `init_blob` (lines 113-124) for index `i`; the four `randf()` calls are
taken in source order. Every field of `points[i]` is written. -/
def init_blob_step (rand : ℕ → ℕ) (RAND_MAX : ℕ) (s : Sim) (i : Fin NUM_POINTS) : Sim :=
  let angle0 : ℝ := ((i : ℕ) : ℝ) / (NUM_POINTS : ℝ) * 2 * Real.pi
  let r : ℝ := RADIUS + randf rand RAND_MAX s.rand_calls * IRREGULARITY
  let angle : ℝ := angle0 + randf rand RAND_MAX (s.rand_calls + 1) * 0.3
  let pos : Vec2 := ⟨s.center.pos.x + Real.cos angle * r * 2, s.center.pos.y + Real.sin angle * r⟩
  let mass : ℝ := POINT_MASS + randf rand RAND_MAX (s.rand_calls + 2) * 0.2
  let noise_phase : ℝ := randf rand RAND_MAX (s.rand_calls + 3) * Real.pi * 2
  let p : Point := ⟨pos, pos, vec_new 0 0, vec_new 0 0, mass, angle, noise_phase, false⟩
  { s with points := Function.update s.points i p, rand_calls := s.rand_calls + 4 }

def init_blob (rand : ℕ → ℕ) (RAND_MAX : ℕ) (s : Sim) : Sim :=
  let pos := vec_new ((s.width : ℝ) / 2) ((s.height : ℝ) / 2)
  let c : Point :=
    { s.center with pos := pos, old_pos := pos, vel := vec_new 0 0, acc := vec_new 0 0,
                    mass := POINT_MASS, pinned := false }
  (List.finRange NUM_POINTS).foldl (init_blob_step rand RAND_MAX) { s with center := c }

/-! ## The other force generators (lines 162-213) -/

/-- The force of lines 164-170 for the point `p`. -/
def squeeze_force (axis : ℤ) (center p : Point) : Vec2 :=
  let offset := vec_sub p.pos center.pos
  if axis = 0 then vec_new (-offset.x * 0.3) (offset.y * 0.1)
  else vec_new (offset.x * 0.1) (-offset.y * 0.3)

def apply_squeeze (s : Sim) (axis : ℤ) : Sim :=
  let pts :=
    (List.finRange NUM_POINTS).foldl
      (fun pts i =>
        Function.update pts i (apply_force_to_point (pts i) (squeeze_force axis s.center (pts i))))
      s.points
  { s with points := pts }

/-- The force of lines 176-182 for the point `p`. -/
def stretch_force (axis : ℤ) (center p : Point) : Vec2 :=
  let offset := vec_sub p.pos center.pos
  if axis = 0 then vec_new (offset.x * 0.3) (-offset.y * 0.1)
  else vec_new (-offset.x * 0.1) (offset.y * 0.3)

def apply_stretch (s : Sim) (axis : ℤ) : Sim :=
  let pts :=
    (List.finRange NUM_POINTS).foldl
      (fun pts i =>
        Function.update pts i (apply_force_to_point (pts i) (stretch_force axis s.center (pts i))))
      s.points
  { s with points := pts }

/-- Body of the loop of `apply_vibration` (lines 188-189); the two `randf()` calls of the argument
list are taken left to right. -/
def apply_vibration_step (rand : ℕ → ℕ) (RAND_MAX : ℕ) (intensity : ℝ) (s : Sim)
    (i : Fin NUM_POINTS) : Sim :=
  let random_force :=
    vec_new (randf rand RAND_MAX s.rand_calls * intensity)
      (randf rand RAND_MAX (s.rand_calls + 1) * intensity)
  { s with points := Function.update s.points i (apply_force_to_point (s.points i) random_force),
           rand_calls := s.rand_calls + 2 }

def apply_vibration (rand : ℕ → ℕ) (RAND_MAX : ℕ) (s : Sim) (intensity : ℝ) : Sim :=
  (List.finRange NUM_POINTS).foldl (apply_vibration_step rand RAND_MAX intensity) s

/-- The force of lines 199-203 for the point `p`. -/
def directional_stretch_force (angle strength : ℝ) (center p : Point) : Vec2 :=
  let dir := vec_new (Real.cos angle) (Real.sin angle)
  let offset := vec_sub p.pos center.pos
  let alignment := offset.x * dir.x + offset.y * dir.y
  vec_scale dir (alignment * strength * 0.1)

def apply_directional_stretch (s : Sim) (angle strength : ℝ) : Sim :=
  let pts :=
    (List.finRange NUM_POINTS).foldl
      (fun pts i =>
        Function.update pts i
          (apply_force_to_point (pts i) (directional_stretch_force angle strength s.center (pts i))))
      s.points
  { s with points := pts }

/-- The force of lines 209-210 for index `i`. -/
def wave_force (phase : ℝ) (i : Fin NUM_POINTS) : Vec2 :=
  let wave := Real.sin (((i : ℕ) : ℝ) / (NUM_POINTS : ℝ) * Real.pi * 4 + phase)
  vec_new (wave * 0.5) 0

def apply_wave (s : Sim) (phase : ℝ) : Sim :=
  let pts :=
    (List.finRange NUM_POINTS).foldl
      (fun pts i => Function.update pts i (apply_force_to_point (pts i) (wave_force phase i)))
      s.points
  { s with points := pts }

/-! ## Keyboard commands and the main loop (lines 503-634, 654-662) -/

/-- Function `handle_input`; `none` is the `exit(0)` of the key `q`. A key that is no `case` of
the `switch` leaves the state unchanged. -/
def handle_input (rand : ℕ → ℕ) (RAND_MAX : ℕ) (s : Sim) (c : Char) : Option Sim :=
  if c = 'q' then none
  else if c = 'w' then some (apply_force_global rand RAND_MAX s (vec_new 0 (-2)))
  else if c = 's' then some (apply_force_global rand RAND_MAX s (vec_new 0 2))
  else if c = 'a' then some (apply_force_global rand RAND_MAX s (vec_new (-4) 0))
  else if c = 'd' then some (apply_force_global rand RAND_MAX s (vec_new 4 0))
  else if c = 'W' then some (apply_force_global rand RAND_MAX s (vec_new (-2) (-2)))
  else if c = 'E' then some (apply_force_global rand RAND_MAX s (vec_new 2 (-2)))
  else if c = 'X' then some (apply_force_global rand RAND_MAX s (vec_new (-2) 2))
  else if c = 'C' then some (apply_force_global rand RAND_MAX s (vec_new 2 2))
  else if c = 'p' then some (apply_radial_force s 4)
  else if c = 'i' then some (apply_radial_force s (-4))
  else if c = 'o' then some (apply_radial_force s (Real.sin s.pulse_phase * 5))
  else if c = 'l' then some (apply_rotation_force s 0.8)
  else if c = 'j' then some (apply_rotation_force s (-0.8))
  else if c = 'k' then some (apply_rotation_force s (Real.sin (s.global_wobble * 2) * 1.5))
  else if c = 'h' then some (apply_squeeze s 0)
  else if c = 'v' then some (apply_squeeze s 1)
  else if c = 'H' then some (apply_stretch s 0)
  else if c = 'V' then some (apply_stretch s 1)
  else if c = 'b' then some (apply_vibration rand RAND_MAX s 3)
  else if c = 'B' then some (apply_vibration rand RAND_MAX s 6)
  else if c = 'n' then some (apply_wave s s.global_wobble)
  else if c = 'u' then some (apply_directional_stretch s 0 2)
  else if c = 'y' then some (apply_directional_stretch s Real.pi 2)
  else if c = 't' then some (apply_directional_stretch s (Real.pi / 2) 2)
  else if c = 'r' then some (apply_directional_stretch s (-Real.pi / 2) 2)
  else if c = ' ' then some (poke_random rand s)
  else if c = 'm' then some ((List.range 5).foldl (fun s _ => poke_random rand s) s)
  else if c = '1' then some { s with force_mode := ForceMode.MODE_GENTLE }
  else if c = '2' then some { s with force_mode := ForceMode.MODE_NORMAL }
  else if c = '3' then some { s with force_mode := ForceMode.MODE_STRONG }
  else if c = '4' then some { s with force_mode := ForceMode.MODE_EXTREME }
  else if c = 'g' then
    some { s with env := { s.env with enabled := !s.env.enabled,
                                      gravity := if !s.env.enabled then GRAVITY_STRENGTH else 0 } }
  else if c = 'f' then
    some { s with env := { s.env with wind_x := if s.env.wind_x > 0 then 0 else WIND_STRENGTH,
                                      enabled := true } }
  else if c = 'F' then
    some { s with env := { s.env with wind_x := if s.env.wind_x < 0 then 0 else -WIND_STRENGTH,
                                      enabled := true } }
  else if c = 'T' then
    some { s with env := { s.env with turbulence := if s.env.turbulence > 0 then 0 else 0.5,
                                      enabled := true } }
  else if c = 'c' then some { s with color_theme := Int.tmod (s.color_theme + 1) 4 }
  else if c = 'z' then some { s with use_color := !s.use_color }
  else if c = 'x' then some { s with show_glow := !s.show_glow }
  else if c = 'Z' then some { s with show_highlights := !s.show_highlights }
  else if c = '0' then some (init_blob rand RAND_MAX s)
  else some s

/-- One iteration of the loop of `main` (lines 654-662): the pending key `key`, if there is one,
is handled, then `update_physics(dt)` runs (`render` writes no global of the simulation). The
result is `none` once the program has left by `exit`. -/
def main_frame (rand : ℕ → ℕ) (RAND_MAX : ℕ) (s : Option Sim) (f : Option Char × ℝ) :
    Option Sim :=
  s.bind fun s =>
    (match f.1 with
      | none => some s
      | some c => handle_input rand RAND_MAX s c).map fun t => update_physics rand RAND_MAX t f.2

/-- Function `main` from `init_blob()` on, for the frames `fs` of the loop. -/
def main_loop (rand : ℕ → ℕ) (RAND_MAX : ℕ) (s : Sim) (fs : List (Option Char × ℝ)) :
    Option Sim :=
  fs.foldl (main_frame rand RAND_MAX) (some (init_blob rand RAND_MAX s))

/-- The state `t` has the masses of the state `s`. -/
def same_mass (s t : Sim) : Prop :=
  t.center.mass = s.center.mass ∧ ∀ j, (t.points j).mass = (s.points j).mass

/-- The masses are those `init_blob` can set: 0.5 for the anchor, between 0.3 and 0.7 for every
boundary point. -/
def masses_ok (s : Sim) : Prop :=
  s.center.mass = 0.5 ∧ ∀ j, 0.3 ≤ (s.points j).mass ∧ (s.points j).mass ≤ 0.7

/-- The three outcomes `o` of `handle_input` on the state `s` and the key `c`: the program exits,
or the key is the reset key `0` and the state is re-initialised, or the masses are those of `s`. -/
def key_outcome (rand : ℕ → ℕ) (RAND_MAX : ℕ) (s : Sim) (c : Char) (o : Option Sim) : Prop :=
  o = none ∨ (c = '0' ∧ o = some (init_blob rand RAND_MAX s)) ∨
    (c ≠ '0' ∧ ∃ t, o = some t ∧ same_mass s t)

/-- A boundary point is as `init_blob` leaves it, for draws in `[-1, 1]`: at rest, free, with a
mass between 0.3 and 0.7. -/
def fresh_point (p : Point) : Prop :=
  0.3 ≤ p.mass ∧ p.mass ≤ 0.7 ∧ p.pinned = false ∧ p.vel = vec_new 0 0 ∧ p.acc = vec_new 0 0

/-- Deviation of the ring pair `(i, prev i)` from the rest length. -/
def pair_deviation (pts : Fin NUM_POINTS → Point) (i : Fin NUM_POINTS) : ℝ :=
  |vec_len (vec_sub (pts i).pos (pts (prevIdx i)).pos) - rest_len|

/-- Maximum over the ring pairs of the deviation from the rest length. -/
def max_deviation (pts : Fin NUM_POINTS → Point) : ℝ :=
  Finset.sup' Finset.univ ⟨0, Finset.mem_univ _⟩ (pair_deviation pts)

/-- Distance between point `j` and its previous ring neighbour, as line 244 computes it. -/
def pair_dist (q : Fin NUM_POINTS → Point) (j : Fin NUM_POINTS) : ℝ :=
  vec_len (vec_sub (q (prevIdx j)).pos (q j).pos)

/-- Distance between point `j` and the anchor, as line 254 computes it. -/
def anchor_dist (c : Point) (q : Fin NUM_POINTS → Point) (j : Fin NUM_POINTS) : ℝ :=
  vec_len (vec_sub c.pos (q j).pos)

/-- Sum of the ordinates of the boundary points. -/
def sum_pos_y (q : Fin NUM_POINTS → Point) : ℝ := ∑ j, (q j).pos.y

/-- The dot product of two vectors. -/
def vec_dot (a b : Vec2) : ℝ := a.x * b.x + a.y * b.y

/-- Point reflection `p ↦ 2c - p` through the point `(kx / 2, ky / 2)`. -/
def reflect_vec (kx ky : ℤ) (v : Vec2) : Vec2 := ⟨(kx : ℝ) - v.x, (ky : ℝ) - v.y⟩

/-- The simulation state with the anchor and every boundary point reflected. -/
def reflect_sim (kx ky : ℤ) (s : Sim) : Sim :=
  { s with center := { s.center with pos := reflect_vec kx ky s.center.pos },
           points := fun i => { s.points i with pos := reflect_vec kx ky (s.points i).pos } }

/-! ## Concrete inputs used by the examples -/

/-- A free point close to the left wall, moving right. -/
def sample_point : Point :=
  { pos := ⟨1, 3⟩, old_pos := ⟨1, 3⟩, acc := ⟨0, 0⟩, vel := ⟨1, 0⟩, mass := 0.5,
    rest_angle := 0, noise_phase := 0, pinned := false }

/-- A state whose boundary points and anchor are all `sample_point`, on an 80 x 40 stage. -/
def sample_sim : Sim :=
  { points := fun _ => sample_point, center := sample_point, width := 80, height := 40,
    env := ⟨0, 0, 0, 0, false⟩, force_mode := ForceMode.MODE_NORMAL, use_color := true,
    show_glow := true, show_highlights := true, pulse_phase := 0, global_wobble := 0,
    slime_viscosity_visual := 1, color_theme := 0, rand_calls := 0 }

/-- A resting free point of mass 0.5 at `(110, 50)`. -/
def poke_target : Point :=
  { pos := ⟨110, 50⟩, old_pos := ⟨110, 50⟩, acc := ⟨0, 0⟩, vel := ⟨0, 0⟩, mass := 0.5,
    rest_angle := 0, noise_phase := 0, pinned := false }

/-- A 200 x 100 stage with the anchor at rest at `(100, 50)` and every boundary point at
`(110, 50)`, 10 units from the anchor. -/
def poke_sim : Sim :=
  { sample_sim with
    points := fun _ => poke_target,
    center := { poke_target with pos := ⟨100, 50⟩, old_pos := ⟨100, 50⟩ },
    width := 200, height := 100 }

/-! ## A ring folded onto a line through the anchor -/

/-- A free point at rest on the horizontal line `y = 20`, at abscissa `x`. -/
def line_point (x : ℝ) : Point :=
  { pos := ⟨x, 20⟩, old_pos := ⟨0, 0⟩, acc := ⟨0, 0⟩, vel := ⟨0, 0⟩, mass := 0.5,
    rest_angle := 0, noise_phase := 0, pinned := false }

/-- The ring whose points all lie on the line `y = 20`, point `i` at abscissa `x i`. -/
def line_cfg (x : Fin NUM_POINTS → ℝ) : Fin NUM_POINTS → Point := fun i => line_point (x i)

/-- The displacement `delta * (diff * 0.2)` of lines 246-247 for the signed separation `d`. -/
def line_correction (d : ℝ) : ℝ := d * ((|d| - rest_len) / |d| * 0.2)

/-- The inner loop body of `solve_constraints` read on the abscissae of a ring on a line through
the anchor, which is at abscissa `c`. -/
def line_step (c : ℝ) (x : Fin NUM_POINTS → ℝ) (i : Fin NUM_POINTS) : Fin NUM_POINTS → ℝ :=
  let d := x (prevIdx i) - x i
  let x1 : Fin NUM_POINTS → ℝ :=
    if |d| > 0.01 then
      Function.update (Function.update x i (x i + line_correction d)) (prevIdx i)
        (x (prevIdx i) - line_correction d)
    else x
  let e := c - x1 i
  if |e| > 21.6 ∧ |e| > 0.01 then
    Function.update x1 i (x1 i + e * ((|e| - 14.4) / |e| * 0.15))
  else x1

/-- Position of point `i` of the folded ring, in rest lengths to the right of abscissa 22. -/
def zigzag_code (i : Fin NUM_POINTS) : ℤ :=
  if i = 23 then -1 else if (i : ℕ) % 2 = 0 then 0 else 1

/-- Abscissae of a ring folded onto a line: even points at 22, odd points one rest length to the
right, except point 23, one rest length to the left. Every ring pair is exactly at rest length. -/
def zigzag_x (i : Fin NUM_POINTS) : ℝ := 22 + (zigzag_code i : ℝ) * rest_len

/-- The folded ring with the anchor at `(40, 20)`: only point 23 is beyond the tether. -/
def zigzag_sim : Sim :=
  { sample_sim with points := line_cfg zigzag_x, center := line_point 40 }

/-! ## The ring at rest around the anchor -/

/-- The angle `(float)i / NUM_POINTS * 2.0f * M_PI` of ring position `i`. -/
def ring_angle (i : Fin NUM_POINTS) : ℝ := ((i : ℕ) : ℝ) / 24 * 2 * Real.pi

/-- Boundary point `i` of the scenario: at rest on the circle of radius 12 around `(40, 20)`. -/
def ring_point (i : Fin NUM_POINTS) : Point :=
  { pos := ⟨40 + 12 * Real.cos (ring_angle i), 20 + 12 * Real.sin (ring_angle i)⟩,
    old_pos := ⟨40 + 12 * Real.cos (ring_angle i), 20 + 12 * Real.sin (ring_angle i)⟩,
    acc := ⟨0, 0⟩, vel := ⟨0, 0⟩, mass := 0.5, rest_angle := ring_angle i,
    noise_phase := -1, pinned := false }

/-- The scenario: anchor at rest at `(40, 20)`, the 24 boundary points at rest at equal angles on
the circle of radius 12, environment disabled, on the 80 x 40 stage. -/
def ring_sim : Sim :=
  { sample_sim with
    points := ring_point,
    center := { pos := ⟨40, 20⟩, old_pos := ⟨40, 20⟩, acc := ⟨0, 0⟩, vel := ⟨0, 0⟩,
                mass := 0.5, rest_angle := 0, noise_phase := 0, pinned := false } }

/-- The force of lines 294-297 (and 300-303) on a point at `a` from a ring neighbour at `b`. -/
def spring_force (a b : Vec2) : Vec2 :=
  if vec_len (vec_sub b a) > 0.01 then
    vec_scale (vec_sub b a) (K_SPRING * (vec_len (vec_sub b a) - rest_len) / vec_len (vec_sub b a))
  else ⟨0, 0⟩

/-- Acceleration of boundary point `j` of `ring_sim` after the force phase of a step with
`dt = 1/2`: the wobble `(0, 0.3)` and the two neighbour springs, divided by the mass 0.5. -/
def ring_acc (j : Fin NUM_POINTS) : Vec2 :=
  vec_add ⟨0, 0.6⟩
    (vec_scale (vec_add (spring_force (ring_point j).pos (ring_point (prevIdx j)).pos)
      (spring_force (ring_point j).pos (ring_point (nextIdx j)).pos)) (1 / 0.5))

/-! ## Inputs for the pinned point, the neighbour correction and the renderer -/

/-- Every boundary point pinned, with velocity `(1, 0)` and no accumulated acceleration. -/
def pinned_sim : Sim :=
  { sample_sim with points := fun _ => { sample_point with pinned := true } }

/-- Ring on the line `y = 20`, point `i` at abscissa `i`. -/
def ladder_cfg : Fin NUM_POINTS → Point := line_cfg fun i => ((i : ℕ) : ℝ)

/-- A 100 x 100 stage with the anchor at `(4.17, 50)`, boundary point 0 at `(10, 90)` and the
other boundary points at `(10, 10)`, at pulse phase 0. -/
def gap_sim : Sim :=
  { sample_sim with
    points := fun i =>
      if i = 0 then { poke_target with pos := ⟨10, 90⟩ } else { poke_target with pos := ⟨10, 10⟩ },
    center := { poke_target with pos := ⟨4.17, 50⟩ },
    width := 100, height := 100 }

/-! # Theorems -/

/-! ## Vector kernel -/

theorem vec_len_nonneg (v : Vec2) : 0 ≤ vec_len v := Real.sqrt_nonneg _

theorem vec_len_scale (v : Vec2) (s : ℝ) : vec_len (vec_scale v s) = |s| * vec_len v := by
  unfold vec_len vec_scale
  have h : v.x * s * (v.x * s) + v.y * s * (v.y * s) = s ^ 2 * (v.x * v.x + v.y * v.y) := by ring
  rw [h, Real.sqrt_mul (sq_nonneg s), Real.sqrt_sq_eq_abs]

theorem vec_len_eq_zero (v : Vec2) : vec_len v = 0 ↔ v = ⟨0, 0⟩ := by
  unfold vec_len
  rw [Real.sqrt_eq_zero (by nlinarith [mul_self_nonneg v.x, mul_self_nonneg v.y])]
  constructor
  · intro h
    have hx : v.x = 0 := by nlinarith [mul_self_nonneg v.x, mul_self_nonneg v.y]
    have hy : v.y = 0 := by nlinarith [mul_self_nonneg v.x, mul_self_nonneg v.y]
    exact Vec2.ext hx hy
  · intro h
    rw [h]; simp

theorem vec_len_mono (u v : Vec2) (hx : |u.x| ≤ |v.x|) (hy : |u.y| ≤ |v.y|) :
    vec_len u ≤ vec_len v := by
  unfold vec_len
  apply Real.sqrt_le_sqrt
  have h1 : u.x * u.x ≤ v.x * v.x := by
    have := mul_self_le_mul_self (abs_nonneg _) hx
    simpa [abs_mul_abs_self] using this
  have h2 : u.y * u.y ≤ v.y * v.y := by
    have := mul_self_le_mul_self (abs_nonneg _) hy
    simpa [abs_mul_abs_self] using this
  linarith

/-- Boundary collision keeps the remaining fields and scales each velocity component by a factor
of absolute value at most one. -/
theorem boundary_vel_abs (w h : ℤ) (p : Point) :
    |(apply_boundary_constraints w h p).vel.x| ≤ |p.vel.x| ∧
    |(apply_boundary_constraints w h p).vel.y| ≤ |p.vel.y| := by
  have k : ∀ a : ℝ, |a * -K_BOUNDARY| ≤ |a| := by
    intro a
    rw [abs_mul]
    have : |(-K_BOUNDARY)| ≤ 1 := by unfold K_BOUNDARY; rw [abs_neg, abs_of_nonneg] <;> norm_num
    nlinarith [abs_nonneg a]
  have k2 : ∀ a : ℝ, |a * -K_BOUNDARY * -K_BOUNDARY| ≤ |a| := fun a =>
    le_trans (k _) (k a)
  simp only [apply_boundary_constraints]
  constructor
  · split_ifs <;> first | exact le_refl _ | exact k _ | exact k2 _
  · split_ifs <;> first | exact le_refl _ | exact k _ | exact k2 _

theorem boundary_vel_len (w h : ℤ) (p : Point) :
    vec_len (apply_boundary_constraints w h p).vel ≤ vec_len p.vel :=
  vec_len_mono _ _ (boundary_vel_abs w h p).1 (boundary_vel_abs w h p).2

theorem integrate_point_vel_le (w h : ℤ) (dt : ℝ) (p : Point) (hp : p.pinned = false) :
    vec_len (integrate_point w h dt p).vel
      ≤ FRICTION * min MAX_VELOCITY (vec_len (vec_add p.vel (vec_scale p.acc dt))) := by
  simp only [integrate_point, hp]
  refine le_trans (boundary_vel_len _ _ _) ?_
  simp only [Bool.false_eq_true, if_false]
  rw [vec_len_scale, abs_of_nonneg (by unfold FRICTION; norm_num : (0:ℝ) ≤ FRICTION), mul_comm]
  rw [mul_comm FRICTION]
  apply mul_le_mul_of_nonneg_right _ (by unfold FRICTION; norm_num)
  split_ifs with hc
  · have hpos : 0 < vec_len (vec_add p.vel (vec_scale p.acc dt)) :=
      lt_trans (by unfold MAX_VELOCITY; norm_num) hc
    rw [vec_len_scale, abs_of_nonneg (div_nonneg (by unfold MAX_VELOCITY; norm_num) hpos.le),
      div_mul_cancel₀ _ hpos.ne', min_eq_left hc.le]
  · rw [min_eq_right (not_lt.mp hc)]

theorem foldl_inv {α β : Type} (P : α → Prop) (f : α → β → α)
    (hf : ∀ a b, P a → P (f a b)) (l : List β) (a : α) (ha : P a) : P (l.foldl f a) := by
  induction l generalizing a with
  | nil => exact ha
  | cons b t ih => exact ih _ (hf a b ha)

theorem foldl_update_map (g : Fin NUM_POINTS → Point → Point) (l : List (Fin NUM_POINTS))
    (hl : l.Nodup) (pts : Fin NUM_POINTS → Point) (j : Fin NUM_POINTS) :
    (l.foldl (fun pts i => Function.update pts i (g i (pts i))) pts) j
      = if j ∈ l then g j (pts j) else pts j := by
  induction l generalizing pts with
  | nil => simp
  | cons i t ih =>
    rw [List.foldl_cons, ih (List.nodup_cons.mp hl).2]
    have hi : i ∉ t := (List.nodup_cons.mp hl).1
    by_cases hj : j ∈ t
    · have hne : j ≠ i := fun h => hi (h ▸ hj)
      simp [hj, Function.update_noteq hne]
    · by_cases hji : j = i
      · subst hji
        simp [hj]
      · simp [hj, hji, Function.update_noteq hji]

theorem set_pos_unless_pinned_frame {α : Type} (f : Point → α)
    (hf : ∀ (p : Point) (v : Vec2), f { p with pos := v } = f p)
    (pts : Fin NUM_POINTS → Point) (k : Fin NUM_POINTS) (v : Vec2) (j : Fin NUM_POINTS) :
    f (set_pos_unless_pinned pts k v j) = f (pts j) := by
  unfold set_pos_unless_pinned
  split_ifs
  · by_cases h : j = k
    · subst h; simp [hf]
    · simp [Function.update_noteq h]
  · rfl

theorem solve_constraints_step_frame {α : Type} (f : Point → α)
    (hf : ∀ (p : Point) (v : Vec2), f { p with pos := v } = f p)
    (c : Point) (pts : Fin NUM_POINTS → Point) (i j : Fin NUM_POINTS) :
    f (solve_constraints_step c pts i j) = f (pts j) := by
  have h1 : f (neighbour_correction pts i j) = f (pts j) := by
    simp only [neighbour_correction]
    split_ifs
    · rw [set_pos_unless_pinned_frame f hf, set_pos_unless_pinned_frame f hf]
    · rfl
  have h2 : ∀ q : Fin NUM_POINTS → Point, f (tether_correction c q i j) = f (q j) := by
    intro q
    simp only [tether_correction]
    split_ifs
    · rw [set_pos_unless_pinned_frame f hf]
    · rfl
  unfold solve_constraints_step
  rw [h2, h1]

theorem solve_constraints_frame {α : Type} (f : Point → α)
    (hf : ∀ (p : Point) (v : Vec2), f { p with pos := v } = f p)
    (s : Sim) (j : Fin NUM_POINTS) :
    f ((solve_constraints s).points j) = f (s.points j) := by
  unfold solve_constraints
  simp only
  refine foldl_inv (fun pts : Fin NUM_POINTS → Point => f (pts j) = f (s.points j)) _ ?_ _ _ rfl
  intro pts _ hp
  unfold solve_constraints_pass
  refine foldl_inv (fun q : Fin NUM_POINTS → Point => f (q j) = f (s.points j)) _ ?_ _ _ hp
  intro q i hq
  rw [solve_constraints_step_frame f hf]
  exact hq

theorem apply_force_to_point_pinned (p : Point) (F : Vec2) :
    (apply_force_to_point p F).pinned = p.pinned := by
  unfold apply_force_to_point; split_ifs <;> rfl

theorem apply_slime_wobble_pinned (s : Sim) (dt : ℝ) (j : Fin NUM_POINTS) :
    ((apply_slime_wobble s dt).points j).pinned = (s.points j).pinned ∧
    (apply_slime_wobble s dt).center = s.center := by
  refine ⟨?_, rfl⟩
  unfold apply_slime_wobble
  simp only
  refine foldl_inv (fun q : Fin NUM_POINTS → Point => (q j).pinned = (s.points j).pinned)
    _ ?_ _ _ rfl
  intro q i hq
  unfold apply_slime_wobble_step
  by_cases h : j = i
  · subst h; simp [apply_force_to_point_pinned, hq]
  · simp [Function.update_noteq h, hq]

theorem internal_forces_point_pinned (c : Point) (a b : Vec2) (p : Point) :
    (internal_forces_point c a b p).pinned = p.pinned := by
  simp only [internal_forces_point]
  split_ifs <;> simp [apply_force_to_point_pinned]

theorem internal_forces_step_pinned (c : Point) (pts : Fin NUM_POINTS → Point)
    (i j : Fin NUM_POINTS) :
    (internal_forces_step c pts i j).pinned = (pts j).pinned := by
  unfold internal_forces_step
  by_cases h : j = i
  · subst h
    rw [Function.update_same, internal_forces_point_pinned]
  · simp [Function.update_noteq h]

theorem apply_environmental_forces_pinned (rand : ℕ → ℕ) (RAND_MAX : ℕ) (s : Sim)
    (j : Fin NUM_POINTS) :
    ((apply_environmental_forces rand RAND_MAX s).points j).pinned = (s.points j).pinned ∧
    (apply_environmental_forces rand RAND_MAX s).center.pinned = s.center.pinned ∧
    (apply_environmental_forces rand RAND_MAX s).width = s.width ∧
    (apply_environmental_forces rand RAND_MAX s).height = s.height := by
  unfold apply_environmental_forces
  split_ifs
  · exact ⟨rfl, rfl, rfl, rfl⟩
  · simp only [apply_force_to_point_pinned]
    refine foldl_inv (fun q : Sim => (q.points j).pinned = (s.points j).pinned ∧
      q.center.pinned = s.center.pinned ∧ q.width = s.width ∧ q.height = s.height)
      _ ?_ _ _ ⟨rfl, rfl, rfl, rfl⟩
    intro q i hq
    unfold apply_environmental_forces_step
    refine ⟨?_, ?_, ?_, ?_⟩
    · by_cases h : j = i
      · subst h; split_ifs <;> simp [apply_force_to_point_pinned, hq.1]
      · split_ifs <;> simp [Function.update_noteq h, hq.1]
    · split_ifs <;> exact hq.2.1
    · split_ifs <;> exact hq.2.2.1
    · split_ifs <;> exact hq.2.2.2

/-! ## C1: the velocity ceiling -/

/-- Claim C1: after one `update_physics` step, for every state, every `rand` sequence and every
`dt`, each boundary point that is not pinned and the anchor, when not pinned, has a velocity of
magnitude at most `MAX_VELOCITY = 6`. -/
theorem update_physics_velocity_bound (rand : ℕ → ℕ) (RAND_MAX : ℕ) (s : Sim) (dt : ℝ) :
    (∀ i : Fin NUM_POINTS, (s.points i).pinned = false →
      vec_len ((update_physics rand RAND_MAX s dt).points i).vel ≤ MAX_VELOCITY) ∧
    (s.center.pinned = false →
      vec_len (update_physics rand RAND_MAX s dt).center.vel ≤ MAX_VELOCITY) := by
  have key : ∀ (w h : ℤ) (p : Point), p.pinned = false →
      vec_len (integrate_point w h dt p).vel ≤ MAX_VELOCITY := by
    intro w h p hp
    refine le_trans (integrate_point_vel_le w h dt p hp) ?_
    have := min_le_left MAX_VELOCITY (vec_len (vec_add p.vel (vec_scale p.acc dt)))
    unfold FRICTION MAX_VELOCITY at *
    nlinarith
  constructor
  · intro i hi
    unfold update_physics
    simp only
    rw [solve_constraints_frame Point.vel (fun _ _ => rfl)]
    simp only
    unfold integrate_step
    rw [foldl_update_map (fun _ p => integrate_point _ _ dt p) _ (List.nodup_finRange _),
      if_pos (List.mem_finRange i)]
    apply key
    rw [(apply_environmental_forces_pinned rand RAND_MAX _ i).1]
    simp only
    have := foldl_inv (fun q : Fin NUM_POINTS → Point => (q i).pinned = (s.points i).pinned)
      (internal_forces_step (apply_slime_wobble s dt).center)
      (fun q k hq => by show (internal_forces_step _ q k i).pinned = _; rw [internal_forces_step_pinned]; exact hq)
      (List.finRange NUM_POINTS) (apply_slime_wobble s dt).points
      (apply_slime_wobble_pinned s dt i).1
    rw [this, hi]
  · intro hc
    unfold update_physics
    simp only
    have e : ∀ q : Sim, (solve_constraints q).center = q.center := fun q => rfl
    rw [e]
    simp only
    apply key
    rw [(apply_environmental_forces_pinned rand RAND_MAX _ ⟨0, by decide⟩).2.1]
    simp only [apply_force_to_point_pinned]
    rw [(apply_slime_wobble_pinned s dt ⟨0, by decide⟩).2, hc]

/-- Witness of `update_physics_velocity_bound` on `sample_sim` with `dt = 1`. -/
theorem update_physics_velocity_bound_witness :
    vec_len ((update_physics (fun _ => 0) 1 sample_sim 1).points 0).vel ≤ MAX_VELOCITY ∧
    vec_len (update_physics (fun _ => 0) 1 sample_sim 1).center.vel ≤ MAX_VELOCITY :=
  ⟨(update_physics_velocity_bound (fun _ => 0) 1 sample_sim 1).1 0 rfl,
   (update_physics_velocity_bound (fun _ => 0) 1 sample_sim 1).2 rfl⟩

/-! ## C2: boundary collision -/

/-- Claim C2 fails as written: on a stage of width 4 (twice the margin) a point left of the margin
is clamped to `x = 2`, which also passes the test `x >= width - margin`, so both branches fire and
the velocity component becomes `0.49` times its previous value, not `-0.7` times. -/
theorem boundary_double_bounce :
    (4 : ℤ) ≥ 4 ∧ (8 : ℤ) ≥ 4 ∧ sample_point.pos.x < 2 ∧
    (apply_boundary_constraints 4 8 sample_point).pos.x = 2 ∧
    (apply_boundary_constraints 4 8 sample_point).vel.x = 0.49 * sample_point.vel.x ∧
    (apply_boundary_constraints 4 8 sample_point).vel.x ≠ -0.7 * sample_point.vel.x := by
  simp only [apply_boundary_constraints, sample_point, K_BOUNDARY]
  norm_num

/-- The x components after `apply_boundary_constraints`: they depend on the two x tests only. -/
theorem boundary_x (w h : ℤ) (p : Point) :
    (apply_boundary_constraints w h p).pos.x =
      (if (if p.pos.x < 2 then (2 : ℝ) else p.pos.x) ≥ (w : ℝ) - 2 then (w : ℝ) - 2
       else (if p.pos.x < 2 then (2 : ℝ) else p.pos.x)) ∧
    (apply_boundary_constraints w h p).vel.x =
      (if (if p.pos.x < 2 then (2 : ℝ) else p.pos.x) ≥ (w : ℝ) - 2 then
         (if p.pos.x < 2 then p.vel.x * -K_BOUNDARY else p.vel.x) * -K_BOUNDARY
       else (if p.pos.x < 2 then p.vel.x * -K_BOUNDARY else p.vel.x)) := by
  simp only [apply_boundary_constraints]
  constructor <;> split_ifs <;> rfl

/-- The y components after `apply_boundary_constraints`: they depend on the two y tests only. -/
theorem boundary_y (w h : ℤ) (p : Point) :
    (apply_boundary_constraints w h p).pos.y =
      (if (if p.pos.y < 2 then (2 : ℝ) else p.pos.y) ≥ (h : ℝ) - 2 then (h : ℝ) - 2
       else (if p.pos.y < 2 then (2 : ℝ) else p.pos.y)) ∧
    (apply_boundary_constraints w h p).vel.y =
      (if (if p.pos.y < 2 then (2 : ℝ) else p.pos.y) ≥ (h : ℝ) - 2 then
         (if p.pos.y < 2 then p.vel.y * -K_BOUNDARY else p.vel.y) * -K_BOUNDARY
       else (if p.pos.y < 2 then p.vel.y * -K_BOUNDARY else p.vel.y)) := by
  simp only [apply_boundary_constraints]
  constructor <;> split_ifs <;> rfl

/-- Claim C2, amended: for a stage with `width >= 4` and `height >= 4` the position after
`apply_boundary_constraints` lies in `[2, width - 2] x [2, height - 2]`; a coordinate in
`[2, dimension - 2)` keeps its value and its velocity component; and on an axis whose dimension
is strictly larger than 4, a coordinate that takes a clamping branch has its velocity component
multiplied by `-0.7`. -/
theorem boundary_constraints_spec (w h : ℤ) (hw : 4 ≤ w) (hh : 4 ≤ h) (p : Point) :
    (2 ≤ (apply_boundary_constraints w h p).pos.x ∧
      (apply_boundary_constraints w h p).pos.x ≤ (w : ℝ) - 2 ∧
      2 ≤ (apply_boundary_constraints w h p).pos.y ∧
      (apply_boundary_constraints w h p).pos.y ≤ (h : ℝ) - 2) ∧
    (2 ≤ p.pos.x → p.pos.x < (w : ℝ) - 2 →
      (apply_boundary_constraints w h p).pos.x = p.pos.x ∧
      (apply_boundary_constraints w h p).vel.x = p.vel.x) ∧
    (2 ≤ p.pos.y → p.pos.y < (h : ℝ) - 2 →
      (apply_boundary_constraints w h p).pos.y = p.pos.y ∧
      (apply_boundary_constraints w h p).vel.y = p.vel.y) ∧
    (4 < w → (p.pos.x < 2 ∨ (w : ℝ) - 2 ≤ p.pos.x) →
      (apply_boundary_constraints w h p).vel.x = -0.7 * p.vel.x) ∧
    (4 < h → (p.pos.y < 2 ∨ (h : ℝ) - 2 ≤ p.pos.y) →
      (apply_boundary_constraints w h p).vel.y = -0.7 * p.vel.y) := by
  have hw' : (4 : ℝ) ≤ (w : ℝ) := by exact_mod_cast hw
  have hh' : (4 : ℝ) ≤ (h : ℝ) := by exact_mod_cast hh
  obtain ⟨ex, evx⟩ := boundary_x w h p
  obtain ⟨ey, evy⟩ := boundary_y w h p
  rw [ex, evx, ey, evy]
  unfold K_BOUNDARY
  refine ⟨⟨?_, ?_, ?_, ?_⟩, ?_, ?_, ?_, ?_⟩
  · split_ifs <;> linarith
  · split_ifs <;> linarith
  · split_ifs <;> linarith
  · split_ifs <;> linarith
  · intro h1 h2
    constructor <;> split_ifs <;> first | rfl | (exfalso; linarith)
  · intro h1 h2
    constructor <;> split_ifs <;> first | rfl | (exfalso; linarith)
  · intro h4 hc
    have h4' : (4 : ℝ) < (w : ℝ) := by exact_mod_cast h4
    rcases hc with hc | hc <;> split_ifs <;> first | (exfalso; linarith) | ring
  · intro h4 hc
    have h4' : (4 : ℝ) < (h : ℝ) := by exact_mod_cast h4
    rcases hc with hc | hc <;> split_ifs <;> first | (exfalso; linarith) | ring

/-- Witness of `boundary_constraints_spec` on a 10 x 10 stage, at a point left of the margin. -/
theorem boundary_constraints_spec_witness :
    (apply_boundary_constraints 10 10 sample_point).vel.x = -0.7 * sample_point.vel.x :=
  (boundary_constraints_spec 10 10 (by norm_num) (by norm_num) sample_point).2.2.2.1
    (by norm_num) (Or.inl (by norm_num [sample_point]))

/-! ## C3: friction -/

/-- Claim C3: for a point that is not pinned, has zero accumulated acceleration and a non-zero
velocity, the integration sub-step yields, for every `dt` and every stage, a velocity of
magnitude at most `0.92` times the previous magnitude, hence strictly smaller. -/
theorem integrate_point_zero_force_slows (w h : ℤ) (dt : ℝ) (p : Point)
    (hp : p.pinned = false) (ha : p.acc = ⟨0, 0⟩) (hv : p.vel ≠ ⟨0, 0⟩) :
    vec_len (integrate_point w h dt p).vel ≤ 0.92 * vec_len p.vel ∧
    vec_len (integrate_point w h dt p).vel < vec_len p.vel := by
  have h1 := integrate_point_vel_le w h dt p hp
  have h2 : vec_add p.vel (vec_scale p.acc dt) = p.vel := by
    rw [ha]; simp [vec_add, vec_scale]
  rw [h2] at h1
  have hpos : 0 < vec_len p.vel :=
    lt_of_le_of_ne (vec_len_nonneg _) (fun h => hv ((vec_len_eq_zero _).mp h.symm))
  have h3 : vec_len (integrate_point w h dt p).vel ≤ 0.92 * vec_len p.vel := by
    refine le_trans h1 ?_
    unfold FRICTION
    nlinarith [min_le_right MAX_VELOCITY (vec_len p.vel)]
  exact ⟨h3, by linarith⟩

/-- Witness of `integrate_point_zero_force_slows` on the 80 x 40 stage with `dt = 1`. -/
theorem integrate_point_zero_force_slows_witness :
    vec_len (integrate_point 80 40 1 sample_point).vel < vec_len sample_point.vel :=
  (integrate_point_zero_force_slows 80 40 1 sample_point rfl rfl
    (by simp [sample_point])).2

/-! ## C5: ring indices -/

/-- The array indices used by both loops are the values of the two index expressions. -/
theorem ring_neighbours_idx (j : Fin NUM_POINTS) :
    (((prevIdx j : ℕ) : ℤ) = prev ((j : ℕ) : ℤ)) ∧ (((nextIdx j : ℕ) : ℤ) = next ((j : ℕ) : ℤ)) := by
  revert j; decide

/-- Claim C5: for `0 <= i < 24` the indices `prev = (i - 1 + 24) % 24` and `next = (i + 1) % 24`
lie in `0..23`, `prev` of 0 is 23, `next` of 23 is 0, and the two are inverse to each other; the
array indices read by `solve_constraints` and by `update_physics` are these same expressions. -/
theorem ring_neighbours (i : ℤ) (h0 : 0 ≤ i) (h1 : i < 24) :
    (0 ≤ prev i ∧ prev i < 24) ∧ (0 ≤ next i ∧ next i < 24) ∧
    prev 0 = 23 ∧ next 23 = 0 ∧ next (prev i) = i ∧ prev (next i) = i ∧
    (∀ j : Fin NUM_POINTS, (((prevIdx j : ℕ) : ℤ) = prev ((j : ℕ) : ℤ)) ∧
      (((nextIdx j : ℕ) : ℤ) = next ((j : ℕ) : ℤ))) := by
  refine ⟨?_, ?_, ?_, ?_, ?_, ?_, ring_neighbours_idx⟩ <;> interval_cases i <;> decide

/-- Witness of `ring_neighbours` at the wrap-around index 0. -/
theorem ring_neighbours_witness : prev 0 = 23 ∧ next (prev 0) = 0 ∧ prev (next 0) = 0 :=
  ⟨(ring_neighbours 0 (by norm_num) (by norm_num)).2.2.1,
   (ring_neighbours 0 (by norm_num) (by norm_num)).2.2.2.2.1,
   (ring_neighbours 0 (by norm_num) (by norm_num)).2.2.2.2.2.1⟩

/-! ## C6 and C10: the density field -/

theorem foldl_add_ge (t : Fin NUM_POINTS → ℝ) (ht : ∀ i, 0 ≤ t i) (l : List (Fin NUM_POINTS))
    (d : ℝ) : d ≤ l.foldl (fun density i => density + t i) d := by
  induction l generalizing d with
  | nil => exact le_refl _
  | cons i r ih =>
    rw [List.foldl_cons]
    exact le_trans (by linarith [ht i]) (ih _)

/-- The density sum is at least the anchor's own contribution. -/
theorem density_sum_ge_anchor (s : Sim) (x y : ℤ) :
    30 / (if ((x : ℝ) - s.center.pos.x) * ((x : ℝ) - s.center.pos.x)
              + (((y : ℝ) - s.center.pos.y) * 2) * (((y : ℝ) - s.center.pos.y) * 2) < 1 then 1
          else ((x : ℝ) - s.center.pos.x) * ((x : ℝ) - s.center.pos.x)
              + (((y : ℝ) - s.center.pos.y) * 2) * (((y : ℝ) - s.center.pos.y) * 2))
      ≤ density_sum s x y := by
  simp only [density_sum, zero_add]
  refine foldl_add_ge (fun i => 22 / (if ((x : ℝ) - (s.points i).pos.x) * ((x : ℝ) - (s.points i).pos.x)
              + (((y : ℝ) - (s.points i).pos.y) * 2) * (((y : ℝ) - (s.points i).pos.y) * 2) < 0.1 then 0.1
          else ((x : ℝ) - (s.points i).pos.x) * ((x : ℝ) - (s.points i).pos.x)
              + (((y : ℝ) - (s.points i).pos.y) * 2) * (((y : ℝ) - (s.points i).pos.y) * 2)))
    ?_ _ _
  intro i
  apply div_nonneg (by norm_num)
  split_ifs with h
  · norm_num
  · have := not_lt.mp h
    linarith

theorem shimmer_ge (a : ℝ) : (0.85 : ℝ) ≤ 1 + Real.sin a * 0.15 := by
  have := Real.neg_one_le_sin a
  linarith

/-- Claim C6: at every grid cell that coincides with the anchor position the density computed by
the renderer is strictly greater than `METABALL_THRESHOLD = 1.8`, for every placement of the
boundary points and every pulse phase (the anchor term alone is 30 and the shimmer factor is at
least 0.85). -/
theorem density_at_anchor_above_threshold (s : Sim) (x y : ℤ)
    (hx : (x : ℝ) = s.center.pos.x) (hy : (y : ℝ) = s.center.pos.y) :
    cell_density s x y > METABALL_THRESHOLD := by
  have h1 := density_sum_ge_anchor s x y
  rw [hx, hy] at h1
  norm_num at h1
  have h2 := shimmer_ge (s.pulse_phase + (x : ℝ) * 0.1)
  unfold cell_density METABALL_THRESHOLD
  nlinarith

/-- Witness of `density_at_anchor_above_threshold`: the anchor of `sample_sim` is at cell (1, 3). -/
theorem density_at_anchor_above_threshold_witness :
    cell_density sample_sim 1 3 > METABALL_THRESHOLD :=
  density_at_anchor_above_threshold sample_sim 1 3 (by norm_num [sample_sim, sample_point])
    (by norm_num [sample_sim, sample_point])

/-- The density before the shimmer factor is invariant under a point reflection. -/
theorem density_sum_reflect (s : Sim) (kx ky x y : ℤ) :
    density_sum (reflect_sim kx ky s) (kx - x) (ky - y) = density_sum s x y := by
  have e1 : ∀ a : ℝ, ((kx : ℝ) - (x : ℝ) - ((kx : ℝ) - a)) * ((kx : ℝ) - (x : ℝ) - ((kx : ℝ) - a))
      = ((x : ℝ) - a) * ((x : ℝ) - a) := fun a => by ring
  have e2 : ∀ a : ℝ, (((ky : ℝ) - (y : ℝ) - ((ky : ℝ) - a)) * 2) * (((ky : ℝ) - (y : ℝ) - ((ky : ℝ) - a)) * 2)
      = (((y : ℝ) - a) * 2) * (((y : ℝ) - a) * 2) := fun a => by ring
  simp only [density_sum, reflect_sim, reflect_vec, Int.cast_sub, e1, e2]

/-- Claim C10, amended: reflecting the anchor, all boundary points and the sample cell through a
common point `(kx / 2, ky / 2)` leaves the density accumulated before the shimmer factor
identical; the final density is identical whenever the shimmer term `sin (pulse + 0.1 x)` takes the
same value at the reflected column as at the original one. -/
theorem cell_density_reflect (s : Sim) (kx ky x y : ℤ) :
    density_sum (reflect_sim kx ky s) (kx - x) (ky - y) = density_sum s x y ∧
    (Real.sin (s.pulse_phase + ((kx - x : ℤ) : ℝ) * 0.1) = Real.sin (s.pulse_phase + (x : ℝ) * 0.1) →
      cell_density (reflect_sim kx ky s) (kx - x) (ky - y) = cell_density s x y) := by
  refine ⟨density_sum_reflect s kx ky x y, fun h => ?_⟩
  unfold cell_density
  rw [density_sum_reflect]
  have : (reflect_sim kx ky s).pulse_phase = s.pulse_phase := rfl
  rw [this, h]

/-- Witness of `cell_density_reflect`: a reflection that keeps the column. -/
theorem cell_density_reflect_witness :
    cell_density (reflect_sim 0 0 sample_sim) (0 - 0) (0 - 0) = cell_density sample_sim 0 0 :=
  (cell_density_reflect sample_sim 0 0 0 0).2 (by norm_num)

/-- Claim C10 fails as written: with pulse phase 0, reflecting `sample_sim` and the cell `(0, 0)`
through `(5, 0)` gives the cell `(10, 0)`, where the shimmer factor is `1 + 0.15 sin 1` instead of
`1`, so the two densities differ. -/
theorem cell_density_reflect_differs :
    cell_density (reflect_sim 10 0 sample_sim) (10 - 0) (0 - 0) ≠ cell_density sample_sim 0 0 := by
  have hD : 0 < density_sum sample_sim 0 0 := by
    refine lt_of_lt_of_le ?_ (density_sum_ge_anchor sample_sim 0 0)
    apply div_pos (by norm_num)
    split_ifs with h
    · norm_num
    · linarith [not_lt.mp h]
  have hs : 0 < Real.sin 1 :=
    Real.sin_pos_of_pos_of_lt_pi (by norm_num) (by linarith [Real.pi_gt_three])
  unfold cell_density
  rw [density_sum_reflect]
  have hp : (reflect_sim 10 0 sample_sim).pulse_phase = 0 := rfl
  have hq : sample_sim.pulse_phase = 0 := rfl
  rw [hp, hq]
  generalize density_sum sample_sim 0 0 = D at hD ⊢
  have e1 : (0 : ℝ) + (((10 - 0 : ℤ)) : ℝ) * 0.1 = 1 := by norm_num
  have e2 : (0 : ℝ) + (((0 : ℤ)) : ℝ) * 0.1 = 0 := by norm_num
  rw [e1, e2, Real.sin_zero]
  intro h
  nlinarith

/-! ## C7: global force -/

/-- The force that `apply_force_global` applies to boundary point `j`, when the loop starts after
`k0` calls of `rand()`: the scaled force plus the jitter of the draws `k0 + 2 j`, `k0 + 2 j + 1`. -/
theorem apply_force_global_loop (rand : ℕ → ℕ) (RAND_MAX : ℕ) (force : Vec2)
    (l : List (Fin NUM_POINTS)) (s : Sim)
    (hl : l.map (fun i : Fin NUM_POINTS => (i : ℕ)) = List.range l.length) :
    (l.foldl (apply_force_global_step rand RAND_MAX force) s).rand_calls
        = s.rand_calls + 2 * l.length ∧
    (l.foldl (apply_force_global_step rand RAND_MAX force) s).center = s.center ∧
    (∀ j : Fin NUM_POINTS,
      (l.foldl (apply_force_global_step rand RAND_MAX force) s).points j =
        if (j : ℕ) < l.length then
          apply_force_to_point (s.points j)
            (vec_add force (vec_new (randf rand RAND_MAX (s.rand_calls + 2 * j) * 0.5)
              (randf rand RAND_MAX (s.rand_calls + 2 * j + 1) * 0.5)))
        else s.points j) := by
  induction l using List.reverseRecOn with
  | nil => simp
  | append_singleton l i ih =>
    have hl' : l.map (fun i : Fin NUM_POINTS => (i : ℕ)) = List.range l.length ∧
        [(i : ℕ)] = [l.length] := by
      rw [List.map_append, List.length_append, List.length_singleton, List.range_succ] at hl
      exact List.append_inj hl (by simp)
    have hi : (i : ℕ) = l.length := by simpa using hl'.2
    obtain ⟨h1, h2, h3⟩ := ih hl'.1
    rw [List.foldl_append, List.foldl_cons, List.foldl_nil]
    refine ⟨?_, ?_, ?_⟩
    · simp only [apply_force_global_step, h1, List.length_append, List.length_singleton]
      ring
    · simp only [apply_force_global_step, h2]
    · intro j
      simp only [apply_force_global_step, List.length_append, List.length_singleton]
      by_cases hj : j = i
      · subst hj
        rw [Function.update_same, h3, if_neg (by omega), if_pos (by omega), h1, hi]
      · rw [Function.update_noteq hj, h3]
        have : (j : ℕ) ≠ (i : ℕ) := fun h => hj (Fin.ext h)
        by_cases hlt : (j : ℕ) < l.length
        · rw [if_pos hlt, if_pos (by omega)]
        · rw [if_neg hlt, if_neg (by omega)]

/-- Function `randf` returns a value in `[-1, 1]`. -/
theorem randf_range (rand : ℕ → ℕ) (RAND_MAX : ℕ) (hR : 0 < RAND_MAX)
    (hr : ∀ k, rand k ≤ RAND_MAX) (k : ℕ) : |randf rand RAND_MAX k| ≤ 1 := by
  have hR' : (0 : ℝ) < (RAND_MAX : ℝ) := by exact_mod_cast hR
  have h1 : (0 : ℝ) ≤ (rand k : ℝ) / (RAND_MAX : ℝ) := div_nonneg (Nat.cast_nonneg _) hR'.le
  have h2 : (rand k : ℝ) / (RAND_MAX : ℝ) ≤ 1 := by
    rw [div_le_one hR']
    exact_mod_cast hr k
  unfold randf
  rw [abs_le]
  constructor <;> linarith

theorem apply_force_to_point_acc (p : Point) (F : Vec2) (hp : p.pinned = false) :
    (apply_force_to_point p F).acc.x = p.acc.x + F.x / p.mass ∧
    (apply_force_to_point p F).acc.y = p.acc.y + F.y / p.mass := by
  simp only [apply_force_to_point, hp, vec_add, vec_scale]
  constructor <;> simp <;> ring

theorem force_mult_values :
    force_mult ForceMode.MODE_GENTLE = 0.2 ∧ force_mult ForceMode.MODE_NORMAL = 1 ∧
    force_mult ForceMode.MODE_STRONG = 2.5 ∧ force_mult ForceMode.MODE_EXTREME = 5 := by
  refine ⟨?_, ?_, ?_, ?_⟩ <;> simp [force_mult] <;> norm_num

/-- Claim C7: the multipliers are 0.2, 1, 2.5 and 5; `apply_force_global` adds `mult * f / mass`
to the acceleration of the anchor when it is not pinned, and `(mult * f + j) / mass` to every
boundary point that is not pinned, with both components of the jitter `j` in `[-0.5, 0.5]`
(`rand()` returns values in `0 .. RAND_MAX`); and for `f = (4, 0)` in extreme mode the jitter-free
acceleration of a point of mass `m > 0` has magnitude `|f| * 5 / m`. -/
theorem apply_force_global_spec (rand : ℕ → ℕ) (RAND_MAX : ℕ) (hR : 0 < RAND_MAX)
    (hr : ∀ k, rand k ≤ RAND_MAX) (s : Sim) (f : Vec2) :
    (force_mult ForceMode.MODE_GENTLE = 0.2 ∧ force_mult ForceMode.MODE_NORMAL = 1 ∧
      force_mult ForceMode.MODE_STRONG = 2.5 ∧ force_mult ForceMode.MODE_EXTREME = 5) ∧
    (s.center.pinned = false →
      (apply_force_global rand RAND_MAX s f).center.acc.x
          = s.center.acc.x + force_mult s.force_mode * f.x / s.center.mass ∧
      (apply_force_global rand RAND_MAX s f).center.acc.y
          = s.center.acc.y + force_mult s.force_mode * f.y / s.center.mass) ∧
    (∀ i : Fin NUM_POINTS, (s.points i).pinned = false →
      ∃ j : Vec2, -0.5 ≤ j.x ∧ j.x ≤ 0.5 ∧ -0.5 ≤ j.y ∧ j.y ≤ 0.5 ∧
        ((apply_force_global rand RAND_MAX s f).points i).acc.x
            = (s.points i).acc.x + (force_mult s.force_mode * f.x + j.x) / (s.points i).mass ∧
        ((apply_force_global rand RAND_MAX s f).points i).acc.y
            = (s.points i).acc.y + (force_mult s.force_mode * f.y + j.y) / (s.points i).mass) ∧
    (∀ m : ℝ, 0 < m →
      vec_len (vec_scale (vec_scale (vec_new 4 0) (force_mult ForceMode.MODE_EXTREME)) (1 / m))
        = vec_len (vec_new 4 0) * 5 / m) := by
  obtain ⟨h1, h2, h3⟩ := apply_force_global_loop rand RAND_MAX
    (vec_scale f (force_mult s.force_mode)) (List.finRange NUM_POINTS) s
    (by rw [List.length_finRange]; exact List.map_coe_finRange _)
  refine ⟨force_mult_values, ?_, ?_, ?_⟩
  · intro hc
    have e : (apply_force_global rand RAND_MAX s f).center
        = apply_force_to_point s.center (vec_scale f (force_mult s.force_mode)) := by
      simp only [apply_force_global, h2]
    rw [e]
    obtain ⟨a1, a2⟩ := apply_force_to_point_acc s.center (vec_scale f (force_mult s.force_mode)) hc
    rw [a1, a2]
    simp only [vec_scale]
    constructor <;> ring
  · intro i hi
    refine ⟨vec_new (randf rand RAND_MAX (s.rand_calls + 2 * i) * 0.5)
      (randf rand RAND_MAX (s.rand_calls + 2 * i + 1) * 0.5), ?_⟩
    have r1 := abs_le.mp (randf_range rand RAND_MAX hR hr (s.rand_calls + 2 * i))
    have r2 := abs_le.mp (randf_range rand RAND_MAX hR hr (s.rand_calls + 2 * i + 1))
    refine ⟨?_, ?_, ?_, ?_, ?_, ?_⟩
    · simp only [vec_new]; linarith [r1.1]
    · simp only [vec_new]; linarith [r1.2]
    · simp only [vec_new]; linarith [r2.1]
    · simp only [vec_new]; linarith [r2.2]
    · have e : (apply_force_global rand RAND_MAX s f).points i = _ := h3 i
      rw [e, if_pos (by rw [List.length_finRange]; exact i.isLt),
        (apply_force_to_point_acc _ _ hi).1]
      simp only [vec_scale, vec_add, vec_new]
      ring
    · have e : (apply_force_global rand RAND_MAX s f).points i = _ := h3 i
      rw [e, if_pos (by rw [List.length_finRange]; exact i.isLt),
        (apply_force_to_point_acc _ _ hi).2]
      simp only [vec_scale, vec_add, vec_new]
      ring
  · intro m hm
    rw [vec_len_scale, vec_len_scale, force_mult_values.2.2.2]
    have : vec_len (vec_new 4 0) = 4 := by
      unfold vec_len vec_new
      rw [show (4 : ℝ) * 4 + 0 * 0 = 4 ^ 2 by norm_num, Real.sqrt_sq (by norm_num)]
    rw [this, abs_of_pos (by positivity : (0 : ℝ) < 1 / m), abs_of_pos (by norm_num : (0 : ℝ) < 5)]
    ring

/-- Witness of `apply_force_global_spec` on `sample_sim` with the force `(4, 0)`. -/
theorem apply_force_global_spec_witness :
    (apply_force_global (fun _ => 0) 1 sample_sim (vec_new 4 0)).center.acc.x
      = sample_sim.center.acc.x + force_mult sample_sim.force_mode * (vec_new 4 0).x
          / sample_sim.center.mass :=
  ((apply_force_global_spec (fun _ => 0) 1 (by norm_num) (fun _ => by norm_num) sample_sim
    (vec_new 4 0)).2.1 rfl).1

/-! ## C8: poke -/

/-- Inside the margins `apply_boundary_constraints` changes nothing. -/
theorem boundary_inside (w h : ℤ) (q : Point) (hx1 : 2 ≤ q.pos.x) (hx2 : q.pos.x < (w : ℝ) - 2)
    (hy1 : 2 ≤ q.pos.y) (hy2 : q.pos.y < (h : ℝ) - 2) :
    apply_boundary_constraints w h q = q := by
  simp only [apply_boundary_constraints, if_neg (not_lt.mpr hx1), ge_iff_le,
    if_neg (not_le.mpr hx2), if_neg (not_lt.mpr hy1), if_neg (not_le.mpr hy2)]

/-- The position that the integration sub-step computes before the boundary collision, for a
resting point at distance 10 from the anchor that has just been poked: the point has moved
toward the anchor by the fraction `FRICTION * min (0.8 * dt / mass) 0.6 * dt` of the offset. -/
theorem poke_integrate_dist (s : Sim) (idx : Fin NUM_POINTS) (dt : ℝ)
    (hpin : (s.points idx).pinned = false) (hm : 0 < (s.points idx).mass)
    (hv : (s.points idx).vel = ⟨0, 0⟩) (ha : (s.points idx).acc = ⟨0, 0⟩)
    (hd : vec_len (vec_sub s.center.pos (s.points idx).pos) = 10) (hdt : 0 < dt)
    (hx1 : 2 ≤ (s.points idx).pos.x + (s.center.pos.x - (s.points idx).pos.x) *
      (FRICTION * min (0.8 * dt / (s.points idx).mass) 0.6 * dt))
    (hx2 : (s.points idx).pos.x + (s.center.pos.x - (s.points idx).pos.x) *
      (FRICTION * min (0.8 * dt / (s.points idx).mass) 0.6 * dt) < (s.width : ℝ) - 2)
    (hy1 : 2 ≤ (s.points idx).pos.y + (s.center.pos.y - (s.points idx).pos.y) *
      (FRICTION * min (0.8 * dt / (s.points idx).mass) 0.6 * dt))
    (hy2 : (s.points idx).pos.y + (s.center.pos.y - (s.points idx).pos.y) *
      (FRICTION * min (0.8 * dt / (s.points idx).mass) 0.6 * dt) < (s.height : ℝ) - 2) :
    (integrate_point s.width s.height dt ((poke_point s idx).points idx)).pos
      = vec_add (s.points idx).pos (vec_scale (vec_sub s.center.pos (s.points idx).pos)
          (FRICTION * min (0.8 * dt / (s.points idx).mass) 0.6 * dt)) ∧
    vec_len (vec_sub s.center.pos
        (integrate_point s.width s.height dt ((poke_point s idx).points idx)).pos)
      = 10 * |1 - FRICTION * min (0.8 * dt / (s.points idx).mass) 0.6 * dt| := by
  set p := s.points idx with hp
  set u := vec_sub s.center.pos p.pos with hu
  set m := p.mass with hmdef
  set k := 0.8 * dt / m with hk
  have hkpos : 0 < k := by rw [hk]; positivity
  -- the poke
  have hn : vec_normalize u = vec_scale u (1 / 10) := by
    unfold vec_normalize
    simp only [hd]
    norm_num
  have hq : (poke_point s idx).points idx
      = { p with acc := vec_scale u (0.8 / m) } := by
    simp only [poke_point, Function.update_same, apply_force_to_point, ← hp, ← hu, hn, hpin]
    simp only [Bool.not_false, if_true, ha]
    congr 1
    simp only [vec_add, vec_scale]
    ext <;> simp <;> field_simp <;> ring
  -- the velocity update, the clamp and the friction
  have hv1 : vec_add p.vel (vec_scale (vec_scale u (0.8 / m)) dt) = vec_scale u k := by
    rw [hv, hk]; simp only [vec_add, vec_scale]; ext <;> simp <;> ring
  have hlen : vec_len (vec_scale u k) = 10 * k := by
    rw [vec_len_scale, hd, abs_of_pos hkpos]; ring
  have hv2 : (if vec_len (vec_scale u k) > MAX_VELOCITY then
        vec_scale (vec_scale u k) (MAX_VELOCITY / vec_len (vec_scale u k)) else vec_scale u k)
      = vec_scale u (min k 0.6) := by
    rw [hlen]
    unfold MAX_VELOCITY
    split_ifs with hc
    · have hk6 : (0.6 : ℝ) ≤ k := by linarith
      rw [min_eq_right hk6]
      simp only [vec_scale]
      ext <;> simp <;> field_simp <;> ring
    · have hk6 : k ≤ 0.6 := by linarith [not_lt.mp hc]
      rw [min_eq_left hk6]
  -- the position update and the boundary collision
  have hres : integrate_point s.width s.height dt ((poke_point s idx).points idx)
      = { p with vel := vec_scale (vec_scale u (min k 0.6)) FRICTION, old_pos := p.pos,
                 pos := vec_add p.pos (vec_scale (vec_scale (vec_scale u (min k 0.6)) FRICTION) dt),
                 acc := vec_new 0 0 } := by
    rw [hq]
    simp only [integrate_point, hpin, Bool.false_eq_true, if_false, hv1, hv2]
    apply boundary_inside
    · simp only [vec_add, vec_scale, hu, vec_sub]; linarith
    · simp only [vec_add, vec_scale, hu, vec_sub]; linarith
    · simp only [vec_add, vec_scale, hu, vec_sub]; linarith
    · simp only [vec_add, vec_scale, hu, vec_sub]; linarith
  rw [hres]
  have hfin : vec_sub s.center.pos
      (vec_add p.pos (vec_scale (vec_scale (vec_scale u (min k 0.6)) FRICTION) dt))
      = vec_scale u (1 - FRICTION * min k 0.6 * dt) := by
    simp only [vec_add, vec_scale, hu, vec_sub]
    ext <;> simp <;> ring
  simp only [hfin]
  refine ⟨?_, ?_⟩
  · simp only [vec_add, vec_scale]
    ext <;> simp <;> ring
  · rw [vec_len_scale, hd]
    ring

theorem disc_bounds (a b t : ℝ) (h : a * a + b * b = 100) (ht : |1 - t| < 1) :
    |a * (1 - t)| ≤ 10 ∧ |b * (1 - t)| ≤ 10 := by
  have ha : |a| ≤ 10 := by
    rw [abs_le]; constructor <;> nlinarith [mul_self_nonneg b]
  have hb : |b| ≤ 10 := by
    rw [abs_le]; constructor <;> nlinarith [mul_self_nonneg a]
  have hprod : ∀ c : ℝ, |c| ≤ 10 → |c * (1 - t)| ≤ 10 := by
    intro c h1
    rw [abs_mul]
    have := mul_le_mul h1 ht.le (abs_nonneg (1 - t)) (by norm_num : (0 : ℝ) ≤ 10)
    linarith
  exact ⟨hprod a ha, hprod b hb⟩

theorem vec_len_sq_eq (v : Vec2) (r : ℝ) (h : vec_len v = r) : v.x * v.x + v.y * v.y = r ^ 2 := by
  unfold vec_len at h
  rw [← h, Real.sq_sqrt (add_nonneg (mul_self_nonneg _) (mul_self_nonneg _))]

/-- Claim C8, amended: for a point that is not pinned, has positive mass, zero velocity and zero
acceleration and lies exactly 10 units from the anchor, with the disc of radius 10 around the
anchor strictly inside the margins of the stage, and for every `dt > 0` so small that the capped
and damped speed covers less than 20 units (`FRICTION * MAX_VELOCITY * dt < 20`), the poke followed
by the integration sub-step leaves the point strictly closer to the anchor than 10 units. -/
theorem poke_moves_closer (s : Sim) (idx : Fin NUM_POINTS) (dt : ℝ)
    (hpin : (s.points idx).pinned = false) (hm : 0 < (s.points idx).mass)
    (hv : (s.points idx).vel = ⟨0, 0⟩) (ha : (s.points idx).acc = ⟨0, 0⟩)
    (hd : vec_len (vec_sub s.center.pos (s.points idx).pos) = 10)
    (hwx1 : 2 + 10 ≤ s.center.pos.x) (hwx2 : s.center.pos.x + 10 < (s.width : ℝ) - 2)
    (hwy1 : 2 + 10 ≤ s.center.pos.y) (hwy2 : s.center.pos.y + 10 < (s.height : ℝ) - 2)
    (hdt : 0 < dt) (hsmall : FRICTION * MAX_VELOCITY * dt < 2 * 10) :
    vec_len (vec_sub s.center.pos
        (integrate_point s.width s.height dt ((poke_point s idx).points idx)).pos) < 10 := by
  have hF : (0 : ℝ) < FRICTION := by unfold FRICTION; norm_num
  have hkpos : 0 < 0.8 * dt / (s.points idx).mass := by positivity
  have hmin : 0 < min (0.8 * dt / (s.points idx).mass) 0.6 := lt_min hkpos (by norm_num)
  have hmin' : min (0.8 * dt / (s.points idx).mass) 0.6 ≤ 0.6 := min_le_right _ _
  have key := poke_integrate_dist s idx dt hpin hm hv ha hd hdt
  have hsq := vec_len_sq_eq _ _ hd
  simp only [vec_sub] at hsq
  generalize min (0.8 * dt / (s.points idx).mass) 0.6 = μ at hmin hmin' key
  have ht0 : 0 < FRICTION * μ * dt := by positivity
  have ht2 : FRICTION * μ * dt < 2 := by
    have : FRICTION * μ * dt ≤ FRICTION * 0.6 * dt :=
      mul_le_mul_of_nonneg_right (mul_le_mul_of_nonneg_left hmin' hF.le) hdt.le
    unfold MAX_VELOCITY at hsmall
    linarith
  generalize FRICTION * μ * dt = T at ht0 ht2 key
  have habs : |1 - T| < 1 := by
    rw [abs_lt]; constructor <;> linarith
  obtain ⟨hbx, hby⟩ := disc_bounds _ _ T (by rw [hsq]; norm_num) habs
  rw [abs_le] at hbx hby
  rw [(key (by linarith [hbx.1, hbx.2]) (by linarith [hbx.1, hbx.2]) (by linarith [hby.1, hby.2])
    (by linarith [hby.1, hby.2])).2]
  linarith

theorem poke_sim_dist : vec_len (vec_sub poke_sim.center.pos (poke_sim.points 0).pos) = 10 := by
  simp only [poke_sim, poke_target, vec_sub, vec_len]
  rw [show ((100 : ℝ) - 110) * (100 - 110) + (50 - 50) * (50 - 50) = 10 ^ 2 by norm_num,
    Real.sqrt_sq (by norm_num)]

/-- Witness of `poke_moves_closer` on `poke_sim` with `dt = 1`. -/
theorem poke_moves_closer_witness :
    vec_len (vec_sub poke_sim.center.pos
      (integrate_point poke_sim.width poke_sim.height 1
        ((poke_point poke_sim 0).points 0)).pos) < 10 :=
  poke_moves_closer poke_sim 0 1 rfl (by norm_num [poke_sim, poke_target]) rfl rfl poke_sim_dist
    (by norm_num [poke_sim]) (by norm_num [poke_sim]) (by norm_num [poke_sim])
    (by norm_num [poke_sim]) (by norm_num) (by norm_num [FRICTION, MAX_VELOCITY])

/-- Claim C8 fails as written: on `poke_sim` with `dt = 4` the poked point gets the velocity
`(-64, 0)`, capped to 6 and damped to 5.52, and moves 22.08 units: it passes the anchor and ends
at `(87.92, 50)`, at distance 12.08 from the anchor. -/
theorem poke_overshoots :
    (poke_sim.points 0).pinned = false ∧ 0 < (poke_sim.points 0).mass ∧
    (poke_sim.points 0).vel = ⟨0, 0⟩ ∧ (poke_sim.points 0).acc = ⟨0, 0⟩ ∧
    poke_sim.center.vel = ⟨0, 0⟩ ∧
    vec_len (vec_sub poke_sim.center.pos (poke_sim.points 0).pos) = 10 ∧
    (2 + 10 ≤ poke_sim.center.pos.x ∧ poke_sim.center.pos.x + 10 < (poke_sim.width : ℝ) - 2 ∧
      2 + 10 ≤ poke_sim.center.pos.y ∧ poke_sim.center.pos.y + 10 < (poke_sim.height : ℝ) - 2) ∧
    (0 : ℝ) < 4 ∧
    (integrate_point poke_sim.width poke_sim.height 4 ((poke_point poke_sim 0).points 0)).pos.x
      = 87.92 ∧
    vec_len (vec_sub poke_sim.center.pos
      (integrate_point poke_sim.width poke_sim.height 4
        ((poke_point poke_sim 0).points 0)).pos) = 12.08 ∧
    ¬ vec_len (vec_sub poke_sim.center.pos
      (integrate_point poke_sim.width poke_sim.height 4
        ((poke_point poke_sim 0).points 0)).pos) < 10 := by
  have hmin : min ((0.8 : ℝ) * 4 / (poke_sim.points 0).mass) 0.6 = 0.6 := by
    apply min_eq_right
    norm_num [poke_sim, poke_target]
  have key := poke_integrate_dist poke_sim 0 4 rfl (by norm_num [poke_sim, poke_target]) rfl rfl
    poke_sim_dist (by norm_num)
  rw [hmin] at key
  have key2 := key (by norm_num [poke_sim, poke_target, FRICTION])
    (by norm_num [poke_sim, poke_target, FRICTION])
    (by norm_num [poke_sim, poke_target, FRICTION])
    (by norm_num [poke_sim, poke_target, FRICTION])
  have e : (10 : ℝ) * |1 - FRICTION * 0.6 * 4| = 12.08 := by
    unfold FRICTION
    rw [abs_of_neg (by norm_num)]
    norm_num
  rw [e] at key2
  refine ⟨rfl, by norm_num [poke_sim, poke_target], rfl, rfl, rfl, poke_sim_dist,
    by norm_num [poke_sim, poke_target], by norm_num, ?_, key2.2, by rw [key2.2]; norm_num⟩
  rw [key2.1]
  norm_num [poke_sim, poke_target, vec_add, vec_scale, vec_sub, FRICTION]

/-! ## C4: constraint relaxation and the maximum deviation -/

theorem prevIdx_ne (i : Fin NUM_POINTS) : prevIdx i ≠ i := by revert i; decide

theorem vec_len_line (a b : ℝ) :
    vec_len (vec_sub (line_point a).pos (line_point b).pos) = |a - b| := by
  simp only [vec_len, vec_sub, line_point, sub_self, mul_zero, add_zero]
  rw [← sq, Real.sqrt_sq_eq_abs]

theorem set_pos_line (x : Fin NUM_POINTS → ℝ) (k : Fin NUM_POINTS) (a : ℝ) :
    set_pos_unless_pinned (line_cfg x) k ⟨a, 20⟩ = line_cfg (Function.update x k a) := by
  funext j
  simp only [set_pos_unless_pinned, line_cfg, line_point, Bool.not_false, if_true]
  by_cases h : j = k
  · subst h; simp
  · simp [Function.update_noteq h, line_cfg, line_point]

theorem neighbour_correction_line (x : Fin NUM_POINTS → ℝ) (i : Fin NUM_POINTS) :
    neighbour_correction (line_cfg x) i =
      line_cfg (if |x (prevIdx i) - x i| > 0.01 then
        Function.update (Function.update x i (x i + line_correction (x (prevIdx i) - x i)))
          (prevIdx i) (x (prevIdx i) - line_correction (x (prevIdx i) - x i))
        else x) := by
  simp only [neighbour_correction]
  have hl : vec_len (vec_sub (line_cfg x (prevIdx i)).pos (line_cfg x i).pos)
      = |x (prevIdx i) - x i| := vec_len_line _ _
  rw [hl]
  split_ifs with h
  · have e1 : vec_add (line_cfg x i).pos
        (vec_scale (vec_sub (line_cfg x (prevIdx i)).pos (line_cfg x i).pos)
          ((|x (prevIdx i) - x i| - rest_len) / |x (prevIdx i) - x i| * 0.2))
        = ⟨x i + line_correction (x (prevIdx i) - x i), 20⟩ := by
      simp only [vec_add, vec_scale, vec_sub, line_cfg, line_point, line_correction]
      ext <;> simp
    rw [e1, set_pos_line]
    have e2 : vec_sub (line_cfg (Function.update x i
          (x i + line_correction (x (prevIdx i) - x i))) (prevIdx i)).pos
        (vec_scale (vec_sub (line_cfg x (prevIdx i)).pos (line_cfg x i).pos)
          ((|x (prevIdx i) - x i| - rest_len) / |x (prevIdx i) - x i| * 0.2))
        = ⟨x (prevIdx i) - line_correction (x (prevIdx i) - x i), 20⟩ := by
      simp only [vec_scale, vec_sub, line_cfg, line_point, line_correction,
        Function.update_noteq (prevIdx_ne i)]
      ext <;> simp
    rw [e2, set_pos_line]
  · rfl

theorem tether_correction_line (c : ℝ) (x : Fin NUM_POINTS → ℝ) (i : Fin NUM_POINTS) :
    tether_correction (line_point c) (line_cfg x) i =
      line_cfg (if |c - x i| > 21.6 ∧ |c - x i| > 0.01 then
        Function.update x i (x i + (c - x i) * ((|c - x i| - 14.4) / |c - x i| * 0.15))
        else x) := by
  simp only [tether_correction]
  have hl : vec_len (vec_sub (line_point c).pos (line_cfg x i).pos) = |c - x i| :=
    vec_len_line _ _
  rw [hl]
  have h1 : RADIUS * 1.2 * 1.5 = (21.6 : ℝ) := by unfold RADIUS; norm_num
  have h2 : RADIUS * 1.2 = (14.4 : ℝ) := by unfold RADIUS; norm_num
  rw [h1, h2]
  split_ifs with h
  · have e1 : vec_add (line_cfg x i).pos
        (vec_scale (vec_sub (line_point c).pos (line_cfg x i).pos)
          ((|c - x i| - 14.4) / |c - x i| * 0.15))
        = ⟨x i + (c - x i) * ((|c - x i| - 14.4) / |c - x i| * 0.15), 20⟩ := by
      simp only [vec_add, vec_scale, vec_sub, line_cfg, line_point]
      ext <;> simp
    rw [e1, set_pos_line]
  · rfl

theorem solve_constraints_step_line (c : ℝ) (x : Fin NUM_POINTS → ℝ) (i : Fin NUM_POINTS) :
    solve_constraints_step (line_point c) (line_cfg x) i = line_cfg (line_step c x i) := by
  unfold solve_constraints_step
  rw [neighbour_correction_line, tether_correction_line]
  rfl

theorem solve_constraints_fold_line (c : ℝ) (l : List (Fin NUM_POINTS))
    (x : Fin NUM_POINTS → ℝ) :
    l.foldl (solve_constraints_step (line_point c)) (line_cfg x)
      = line_cfg (l.foldl (line_step c) x) := by
  induction l generalizing x with
  | nil => rfl
  | cons i t ih => rw [List.foldl_cons, List.foldl_cons, solve_constraints_step_line, ih]

theorem rest_len_bounds : 3.75 < rest_len ∧ rest_len < 4 := by
  unfold rest_len RADIUS
  have h1 := Real.pi_gt_three
  have h2 := Real.pi_lt_d2
  constructor <;> norm_num <;> linarith

theorem line_correction_neg (d : ℝ) (h : d < 0) : line_correction d = 0.2 * (d + rest_len) := by
  have hd : d ≠ 0 := ne_of_lt h
  unfold line_correction
  rw [abs_of_neg h, show -d - rest_len = -(d + rest_len) by ring, neg_div_neg_eq]
  field_simp
  ring

theorem line_correction_pos (d : ℝ) (h : 0 < d) : line_correction d = 0.2 * (d - rest_len) := by
  have hd : d ≠ 0 := ne_of_gt h
  unfold line_correction
  rw [abs_of_pos h]
  field_simp
  ring

theorem line_step_frame (c : ℝ) (x : Fin NUM_POINTS → ℝ) (i j : Fin NUM_POINTS)
    (h1 : j ≠ i) (h2 : j ≠ prevIdx i) : line_step c x i j = x j := by
  simp only [line_step]
  split_ifs <;> simp [Function.update_noteq h1, Function.update_noteq h2]

theorem line_fold_frame (c : ℝ) (l : List (Fin NUM_POINTS)) (j : Fin NUM_POINTS)
    (h : ∀ i ∈ l, j ≠ i ∧ j ≠ prevIdx i) (x : Fin NUM_POINTS → ℝ) :
    l.foldl (line_step c) x j = x j := by
  induction l generalizing x with
  | nil => rfl
  | cons i t ih =>
    rw [List.foldl_cons, ih (fun k hk => h k (List.mem_cons_of_mem _ hk)),
      line_step_frame c x i j (h i (List.mem_cons_self _ _)).1 (h i (List.mem_cons_self _ _)).2]

theorem line_step_val (c : ℝ) (x : Fin NUM_POINTS → ℝ) (i : Fin NUM_POINTS)
    (hd : |x (prevIdx i) - x i| > 0.01)
    (ht : |c - (x i + line_correction (x (prevIdx i) - x i))| ≤ 21.6) :
    line_step c x i i = x i + line_correction (x (prevIdx i) - x i) ∧
    line_step c x i (prevIdx i) = x (prevIdx i) - line_correction (x (prevIdx i) - x i) := by
  have hne := prevIdx_ne i
  simp only [line_step, if_pos hd, Function.update_noteq hne.symm, Function.update_same]
  rw [if_neg (fun h => absurd h.1 (not_lt.mpr ht))]
  simp [Function.update_noteq hne.symm]

theorem line_step_fixed (c : ℝ) (x : Fin NUM_POINTS → ℝ) (i : Fin NUM_POINTS)
    (hd : |x (prevIdx i) - x i| = rest_len) (ht : |c - x i| ≤ 21.6) :
    line_step c x i = x := by
  have hr := rest_len_bounds
  have hc : line_correction (x (prevIdx i) - x i) = 0 := by
    unfold line_correction; rw [hd]; simp
  simp only [line_step, hc, add_zero, sub_zero, Function.update_eq_self]
  rw [if_neg (fun h => absurd h.1 (not_lt.mpr (by split_ifs <;> exact ht)))]
  split_ifs <;> rfl

theorem zigzag_code_step (i : Fin NUM_POINTS) :
    zigzag_code (prevIdx i) - zigzag_code i = 1 ∨ zigzag_code (prevIdx i) - zigzag_code i = -1 := by
  revert i; decide

theorem zigzag_code_range (i : Fin NUM_POINTS) (h : i ≠ 23) :
    zigzag_code i = 0 ∨ zigzag_code i = 1 := by
  revert i; decide

theorem zigzag_exact (i : Fin NUM_POINTS) :
    |zigzag_x (prevIdx i) - zigzag_x i| = rest_len := by
  have hr := rest_len_bounds
  have e : zigzag_x (prevIdx i) - zigzag_x i
      = ((zigzag_code (prevIdx i) - zigzag_code i : ℤ) : ℝ) * rest_len := by
    unfold zigzag_x; push_cast; ring
  rw [e]
  rcases zigzag_code_step i with h | h <;> rw [h] <;> norm_num <;> linarith

theorem zigzag_tether (i : Fin NUM_POINTS) (h : i ≠ 23) : |40 - zigzag_x i| ≤ 21.6 := by
  have hr := rest_len_bounds
  unfold zigzag_x
  rcases zigzag_code_range i h with h | h
  · rw [h]; norm_num
  · rw [h, abs_le]; constructor <;> norm_num <;> linarith

theorem line_fold_fixed (c : ℝ) (x : Fin NUM_POINTS → ℝ) (l : List (Fin NUM_POINTS))
    (h : ∀ i ∈ l, line_step c x i = x) : l.foldl (line_step c) x = x := by
  induction l with
  | nil => rfl
  | cons i t ih =>
    rw [List.foldl_cons, h i (List.mem_cons_self _ _)]
    exact ih (fun k hk => h k (List.mem_cons_of_mem _ hk))

/-- The first pass over the folded ring moves point 23 only, by the tether. -/
theorem zigzag_pass_one :
    (List.finRange NUM_POINTS).foldl (line_step 40) zigzag_x
      = Function.update zigzag_x 23 (22 - rest_len + 0.15 * (3.6 + rest_len)) := by
  have hr := rest_len_bounds
  have hl : List.finRange NUM_POINTS
      = [0, 1, 2, 3, 4, 5, 6, 7, 8, 9, 10, 11, 12, 13, 14, 15, 16, 17, 18, 19, 20, 21, 22] ++ [23] :=
    by rfl
  rw [hl, List.foldl_append, line_fold_fixed 40 zigzag_x _ (fun i hi =>
    line_step_fixed 40 zigzag_x i (zigzag_exact i)
      (zigzag_tether i (by revert i; decide)))]
  simp only [List.foldl_cons, List.foldl_nil]
  have hc : line_correction (zigzag_x (prevIdx 23) - zigzag_x 23) = 0 := by
    unfold line_correction; rw [zigzag_exact]; simp
  have h23 : zigzag_x 23 = 22 - rest_len := by
    have : zigzag_code 23 = -1 := by decide
    unfold zigzag_x; rw [this]; push_cast; ring
  have hd : |zigzag_x (prevIdx 23) - zigzag_x 23| > 0.01 := by
    rw [zigzag_exact]; linarith
  simp only [line_step, hc, add_zero, sub_zero, Function.update_eq_self, if_pos hd]
  have he : |40 - zigzag_x 23| = 18 + rest_len := by
    rw [h23, abs_of_pos (by linarith)]; ring
  rw [he, if_pos ⟨by linarith, by linarith⟩, h23]
  have hne : (18 : ℝ) + rest_len ≠ 0 := by linarith
  have hval : 22 - rest_len + (40 - (22 - rest_len)) * ((18 + rest_len - 14.4) / (18 + rest_len) * 0.15)
      = 22 - rest_len + 0.15 * (3.6 + rest_len) := by
    field_simp
    ring
  rw [hval]

/-- The second pass: the abscissae of points 0 and 1 after the call. -/
theorem zigzag_pass_two :
    (List.finRange NUM_POINTS).foldl (line_step 40)
        (Function.update zigzag_x 23 (22 - rest_len + 0.15 * (3.6 + rest_len))) 0
      = 22 + 0.16 * (0.15 * (3.6 + rest_len)) ∧
    (List.finRange NUM_POINTS).foldl (line_step 40)
        (Function.update zigzag_x 23 (22 - rest_len + 0.15 * (3.6 + rest_len))) 1
      = 22 + rest_len + 0.032 * (0.15 * (3.6 + rest_len)) := by
  have hr := rest_len_bounds
  have hl : List.finRange NUM_POINTS = 0 :: 1 :: 2 ::
      [3, 4, 5, 6, 7, 8, 9, 10, 11, 12, 13, 14, 15, 16, 17, 18, 19, 20, 21, 22, 23] := by rfl
  have p0 : prevIdx 0 = 23 := by decide
  have p1 : prevIdx 1 = 0 := by decide
  have p2 : prevIdx 2 = 1 := by decide
  have z0 : zigzag_x 0 = 22 := by
    have : zigzag_code 0 = 0 := by decide
    unfold zigzag_x; rw [this]; push_cast; ring
  have z1 : zigzag_x 1 = 22 + rest_len := by
    have : zigzag_code 1 = 1 := by decide
    unfold zigzag_x; rw [this]; push_cast; ring
  have z2 : zigzag_x 2 = 22 := by
    have : zigzag_code 2 = 0 := by decide
    unfold zigzag_x; rw [this]; push_cast; ring
  have hm1 : 1.1 < 0.15 * (3.6 + rest_len) ∧ 0.15 * (3.6 + rest_len) < 1.2 := by
    constructor <;> linarith
  rw [hl, List.foldl_cons, List.foldl_cons, List.foldl_cons]
  generalize 0.15 * (3.6 + rest_len) = m at hm1 ⊢
  have a0 : Function.update zigzag_x 23 (22 - rest_len + m) 0 = 22 := by
    rw [Function.update_noteq (by decide), z0]
  have a1 : Function.update zigzag_x 23 (22 - rest_len + m) 1 = 22 + rest_len := by
    rw [Function.update_noteq (by decide), z1]
  have a2 : Function.update zigzag_x 23 (22 - rest_len + m) 2 = 22 := by
    rw [Function.update_noteq (by decide), z2]
  have a23 : Function.update zigzag_x 23 (22 - rest_len + m) 23 = 22 - rest_len + m := by
    rw [Function.update_same]
  generalize Function.update zigzag_x 23 (22 - rest_len + m) = x1 at a0 a1 a2 a23 ⊢
  -- step 0 corrects the pair (0, 23)
  have c0 : line_correction (x1 (prevIdx 0) - x1 0) = 0.2 * m := by
    rw [p0, a0, a23, line_correction_neg _ (by linarith)]; ring
  have s0 := line_step_val 40 x1 0
    (by rw [p0, a0, a23, abs_of_neg (by linarith)]; linarith)
    (by rw [c0, a0, abs_le]; constructor <;> linarith)
  rw [c0, a0, p0, a23] at s0
  have b1 : line_step 40 x1 0 1 = 22 + rest_len := by
    rw [line_step_frame 40 x1 0 1 (by decide) (by rw [p0]; decide), a1]
  have b2 : line_step 40 x1 0 2 = 22 := by
    rw [line_step_frame 40 x1 0 2 (by decide) (by rw [p0]; decide), a2]
  obtain ⟨s00, -⟩ := s0
  generalize line_step 40 x1 0 = y0 at s00 b1 b2 ⊢
  -- step 1 corrects the pair (1, 0)
  have c1 : line_correction (y0 (prevIdx 1) - y0 1) = 0.04 * m := by
    rw [p1, s00, b1, line_correction_neg _ (by linarith)]; ring
  have s1 := line_step_val 40 y0 1
    (by rw [p1, s00, b1, abs_of_neg (by linarith)]; linarith)
    (by rw [c1, b1, abs_le]; constructor <;> linarith)
  rw [c1, b1, p1, s00] at s1
  have d2 : line_step 40 y0 1 2 = 22 := by
    rw [line_step_frame 40 y0 1 2 (by decide) (by rw [p1]; decide), b2]
  obtain ⟨s11, s10⟩ := s1
  generalize line_step 40 y0 1 = y1 at s11 s10 d2 ⊢
  -- step 2 corrects the pair (2, 1)
  have c2 : line_correction (y1 (prevIdx 2) - y1 2) = 0.008 * m := by
    rw [p2, s11, d2, line_correction_pos _ (by linarith)]; ring
  have s2 := line_step_val 40 y1 2
    (by rw [p2, s11, d2, abs_of_pos (by linarith)]; linarith)
    (by rw [c2, d2, abs_le]; constructor <;> linarith)
  rw [c2, d2, p2, s11] at s2
  have e0 : line_step 40 y1 2 0 = 22 + 0.16 * m := by
    rw [line_step_frame 40 y1 2 0 (by decide) (by rw [p2]; decide), s10]; ring
  obtain ⟨-, s21⟩ := s2
  generalize line_step 40 y1 2 = y2 at s21 e0 ⊢
  -- the remaining steps touch neither point 0 nor point 1
  constructor
  · rw [line_fold_frame 40 _ 0 (by decide), e0]
  · rw [line_fold_frame 40 _ 1 (by decide), s21]; ring

theorem pair_deviation_line (x : Fin NUM_POINTS → ℝ) (i : Fin NUM_POINTS) :
    pair_deviation (line_cfg x) i = |(|x i - x (prevIdx i)|) - rest_len| := by
  unfold pair_deviation
  have h : vec_len (vec_sub (line_cfg x i).pos (line_cfg x (prevIdx i)).pos)
      = |x i - x (prevIdx i)| := vec_len_line _ _
  rw [h]

/-- The call on the folded ring is two passes of the one-dimensional step. -/
theorem solve_constraints_zigzag :
    (solve_constraints zigzag_sim).points
      = line_cfg ((List.finRange NUM_POINTS).foldl (line_step 40)
          ((List.finRange NUM_POINTS).foldl (line_step 40) zigzag_x)) := by
  have h2 : List.range CONSTRAINT_ITERATIONS = [0, 1] := by rfl
  simp only [solve_constraints, h2, List.foldl_cons, List.foldl_nil, solve_constraints_pass]
  have hc : zigzag_sim.center = line_point 40 := rfl
  have hp : zigzag_sim.points = line_cfg zigzag_x := rfl
  rw [hc, hp, solve_constraints_fold_line, solve_constraints_fold_line]

/-- On the folded ring `zigzag_sim` every ring pair is exactly at rest length; after the call of
`solve_constraints` the pair `(1, 0)` deviates by `0.0192 * (3.6 + rest_len)`. -/
theorem zigzag_max_deviation :
    max_deviation zigzag_sim.points = 0 ∧
    pair_deviation (solve_constraints zigzag_sim).points 1 = 0.0192 * (3.6 + rest_len) ∧
    ¬ (max_deviation (solve_constraints zigzag_sim).points ≤ max_deviation zigzag_sim.points) := by
  have hr := rest_len_bounds
  have h0 : max_deviation zigzag_sim.points = 0 := by
    have hp : zigzag_sim.points = line_cfg zigzag_x := rfl
    have hall : ∀ i, pair_deviation (line_cfg zigzag_x) i = 0 := by
      intro i
      rw [pair_deviation_line, abs_sub_comm (zigzag_x i), zigzag_exact, sub_self, abs_zero]
    rw [hp]
    unfold max_deviation
    apply le_antisymm
    · exact Finset.sup'_le _ _ (fun i _ => (hall i).le)
    · rw [← hall 0]
      exact Finset.le_sup' (pair_deviation (line_cfg zigzag_x)) (Finset.mem_univ 0)
  have h1 : pair_deviation (solve_constraints zigzag_sim).points 1
      = 0.0192 * (3.6 + rest_len) := by
    rw [solve_constraints_zigzag, pair_deviation_line, zigzag_pass_one,
      show prevIdx 1 = 0 by decide, zigzag_pass_two.1, zigzag_pass_two.2]
    rw [show (22 + rest_len + 0.032 * (0.15 * (3.6 + rest_len))
        - (22 + 0.16 * (0.15 * (3.6 + rest_len)))) = rest_len - 0.0192 * (3.6 + rest_len) by ring,
      abs_of_pos (by linarith : 0 < rest_len - 0.0192 * (3.6 + rest_len)),
      show rest_len - 0.0192 * (3.6 + rest_len) - rest_len = -(0.0192 * (3.6 + rest_len)) by ring,
      abs_neg, abs_of_pos (by linarith)]
  refine ⟨h0, h1, ?_⟩
  rw [h0, not_le]
  refine lt_of_lt_of_le ?_ (Finset.le_sup' (pair_deviation (solve_constraints zigzag_sim).points)
    (Finset.mem_univ 1))
  rw [h1]
  linarith

/-- Claim C4 fails as written: on the folded ring `zigzag_sim` every ring pair is exactly at rest
length, so the maximum deviation is 0 before the call; the tether pulls point 23 inward in the first
pass and the second pass spreads that displacement, so that after the call the pair `(1, 0)` deviates
by `0.0192 * (3.6 + rest_len) > 0`. -/
theorem solve_constraints_increases_deviation :
    max_deviation zigzag_sim.points = 0 ∧
    pair_deviation (solve_constraints zigzag_sim).points 1 = 0.0192 * (3.6 + rest_len) ∧
    ¬ (max_deviation (solve_constraints zigzag_sim).points ≤ max_deviation zigzag_sim.points) :=
  zigzag_max_deviation

theorem vec_len_sub_comm (a b : Vec2) : vec_len (vec_sub a b) = vec_len (vec_sub b a) := by
  unfold vec_len vec_sub
  congr 1
  ring

/-- The neighbour-spacing correction at a separation above 0.01 multiplies the deviation of the
pair from the rest length by `1 - 0.2 * k`, where `k` is the number of points of the pair that are
not pinned. -/
theorem neighbour_correction_factor (pts : Fin NUM_POINTS → Point) (i : Fin NUM_POINTS)
    (hd : pair_dist pts i > 0.01) :
    pair_deviation (neighbour_correction pts i) i
      = (1 - 0.2 * ((if (pts i).pinned = true then 0 else 1)
            + (if (pts (prevIdx i)).pinned = true then 0 else 1)))
          * pair_deviation pts i := by
  have hne := prevIdx_ne i
  have hr := rest_len_bounds
  unfold pair_dist at hd
  unfold pair_deviation
  simp only [neighbour_correction]
  rw [if_pos hd]
  set δ := vec_sub (pts (prevIdx i)).pos (pts i).pos with hδ
  set d := vec_len δ with hdd
  have hdpos : 0 < d := by linarith
  set t := (d - rest_len) / d * 0.2 with ht
  have hkey : ∀ k : ℝ, (k = 0 ∨ k = 1 ∨ k = 2) →
      vec_sub
        (set_pos_unless_pinned (set_pos_unless_pinned pts i (vec_add (pts i).pos (vec_scale δ t)))
          (prevIdx i)
          (vec_sub (set_pos_unless_pinned pts i (vec_add (pts i).pos (vec_scale δ t))
            (prevIdx i)).pos (vec_scale δ t)) i).pos
        (set_pos_unless_pinned (set_pos_unless_pinned pts i (vec_add (pts i).pos (vec_scale δ t)))
          (prevIdx i)
          (vec_sub (set_pos_unless_pinned pts i (vec_add (pts i).pos (vec_scale δ t))
            (prevIdx i)).pos (vec_scale δ t)) (prevIdx i)).pos
        = vec_scale (vec_sub (pts i).pos (pts (prevIdx i)).pos) (1 - k * t) →
      |vec_len (vec_sub
        (set_pos_unless_pinned (set_pos_unless_pinned pts i (vec_add (pts i).pos (vec_scale δ t)))
          (prevIdx i)
          (vec_sub (set_pos_unless_pinned pts i (vec_add (pts i).pos (vec_scale δ t))
            (prevIdx i)).pos (vec_scale δ t)) i).pos
        (set_pos_unless_pinned (set_pos_unless_pinned pts i (vec_add (pts i).pos (vec_scale δ t)))
          (prevIdx i)
          (vec_sub (set_pos_unless_pinned pts i (vec_add (pts i).pos (vec_scale δ t))
            (prevIdx i)).pos (vec_scale δ t)) (prevIdx i)).pos) - rest_len|
        = (1 - 0.2 * k) * |vec_len (vec_sub (pts i).pos (pts (prevIdx i)).pos) - rest_len| := by
    intro k hk he
    rw [he, vec_len_scale, vec_len_sub_comm (pts i).pos, ← hδ, ← hdd]
    have hfac : (1 - k * t) * d = d - 0.2 * k * (d - rest_len) := by
      rw [ht]; field_simp; ring
    have hpos : 0 < 1 - k * t := by
      have : 0 < (1 - k * t) * d := by
        rw [hfac]
        rcases hk with h | h | h <;> rw [h] <;> nlinarith
      by_contra hcon
      push_neg at hcon
      nlinarith
    rw [abs_of_pos hpos, hfac]
    have hscale : d - 0.2 * k * (d - rest_len) - rest_len = (1 - 0.2 * k) * (d - rest_len) := by
      ring
    rw [hscale, abs_mul]
    have hk2 : 0 ≤ 1 - 0.2 * k := by
      rcases hk with h | h | h <;> rw [h] <;> norm_num
    rw [abs_of_nonneg hk2]
  cases h1 : (pts i).pinned <;> cases h2 : (pts (prevIdx i)).pinned
  · have e := hkey 2 (Or.inr (Or.inr rfl)) (by
      simp only [set_pos_unless_pinned, h1, h2, Bool.not_false, if_true, Function.update_same,
        Function.update_noteq hne, Function.update_noteq hne.symm, vec_sub, vec_scale,
        vec_add, hδ]
      ext <;> simp <;> ring)
    rw [e]
    norm_num
  · have e := hkey 1 (Or.inr (Or.inl rfl)) (by
      simp only [set_pos_unless_pinned, h1, h2, Bool.not_true, Bool.false_eq_true, if_false,
        if_true, Bool.not_false, Function.update_same, Function.update_noteq hne,
        Function.update_noteq hne.symm, vec_sub, vec_scale, vec_add, hδ]
      ext <;> simp <;> ring)
    rw [e]
    norm_num
  · have e := hkey 1 (Or.inr (Or.inl rfl)) (by
      simp only [set_pos_unless_pinned, h1, h2, Bool.not_true, Bool.false_eq_true, if_false,
        if_true, Bool.not_false, Function.update_same, Function.update_noteq hne,
        Function.update_noteq hne.symm, vec_sub, vec_scale, vec_add, hδ]
      ext <;> simp <;> ring)
    rw [e]
    norm_num
  · have e := hkey 0 (Or.inl rfl) (by
      simp only [set_pos_unless_pinned, h1, h2, Bool.not_true, Bool.false_eq_true, if_false,
        vec_sub, vec_scale]
      ext <;> simp)
    rw [e]
    norm_num

/-- The correction writes nothing when the separation is at most 0.01 or both points are
pinned. -/
theorem neighbour_correction_idle (pts : Fin NUM_POINTS → Point) (i : Fin NUM_POINTS)
    (h : pair_dist pts i ≤ 0.01 ∨ ((pts i).pinned = true ∧ (pts (prevIdx i)).pinned = true)) :
    neighbour_correction pts i = pts := by
  unfold pair_dist at h
  simp only [neighbour_correction]
  split_ifs with hd
  · rcases h with h | ⟨h1, h2⟩
    · exact absurd hd (not_lt.mpr h)
    · simp [set_pos_unless_pinned, h1, h2]
  · rfl

/-- Claim C4, amended: for every configuration and every index `i`, the neighbour-spacing
correction of `solve_constraints` between point `i` and point `prev` never increases the deviation
from the rest length of that same pair: at a separation above 0.01 it multiplies the deviation by
0.6 when both points are free and by 0.8 when exactly one of them is pinned; at a separation of at
most 0.01, or when both points are pinned, it writes nothing and the deviation is unchanged. The
maximum over the ring pairs can increase in a call of `solve_constraints`: on the folded ring
`zigzag_sim` it is 0 before the call and positive after it. -/
theorem neighbour_correction_pair_deviation (pts : Fin NUM_POINTS → Point)
    (i : Fin NUM_POINTS) :
    pair_deviation (neighbour_correction pts i) i ≤ pair_deviation pts i ∧
    (pair_dist pts i > 0.01 → (pts i).pinned = false → (pts (prevIdx i)).pinned = false →
      pair_deviation (neighbour_correction pts i) i = 0.6 * pair_deviation pts i) ∧
    (pair_dist pts i > 0.01 → (pts i).pinned ≠ (pts (prevIdx i)).pinned →
      pair_deviation (neighbour_correction pts i) i = 0.8 * pair_deviation pts i) ∧
    (pair_dist pts i ≤ 0.01 ∨ ((pts i).pinned = true ∧ (pts (prevIdx i)).pinned = true) →
      neighbour_correction pts i = pts ∧
      pair_deviation (neighbour_correction pts i) i = pair_deviation pts i) ∧
    (max_deviation zigzag_sim.points = 0 ∧
      0 < max_deviation (solve_constraints zigzag_sim).points) := by
  have hnn : 0 ≤ pair_deviation pts i := abs_nonneg _
  refine ⟨?_, ?_, ?_, ?_, ?_⟩
  · by_cases hd : pair_dist pts i > 0.01
    · rw [neighbour_correction_factor pts i hd]
      cases h1 : (pts i).pinned <;> cases h2 : (pts (prevIdx i)).pinned <;>
        simp only [Bool.false_eq_true, if_false, if_true] <;> nlinarith
    · rw [neighbour_correction_idle pts i (Or.inl (not_lt.mp hd))]
  · intro hd h1 h2
    rw [neighbour_correction_factor pts i hd, h1, h2]
    norm_num
  · intro hd hne
    rw [neighbour_correction_factor pts i hd]
    cases h1 : (pts i).pinned <;> cases h2 : (pts (prevIdx i)).pinned
    · exact absurd (h1.trans h2.symm) hne
    · norm_num
    · norm_num
    · exact absurd (h1.trans h2.symm) hne
  · intro h
    have e := neighbour_correction_idle pts i h
    exact ⟨e, by rw [e]⟩
  · obtain ⟨h0, _, h2⟩ := zigzag_max_deviation
    rw [h0] at h2
    exact ⟨h0, not_le.mp h2⟩

theorem ladder_pair : prevIdx 1 = 0 ∧ pair_dist ladder_cfg 1 = 1 := by
  have h : prevIdx 1 = 0 := by decide
  refine ⟨h, ?_⟩
  unfold pair_dist ladder_cfg
  rw [h]
  have := vec_len_line ((((0 : Fin NUM_POINTS) : ℕ) : ℝ)) ((((1 : Fin NUM_POINTS) : ℕ) : ℝ))
  simp only [line_cfg] at this ⊢
  rw [this]
  norm_num

/-- Witness of `neighbour_correction_pair_deviation` on points 1 and 0 of `ladder_cfg`, both free
and 1 apart. -/
theorem neighbour_correction_pair_deviation_witness :
    pair_deviation (neighbour_correction ladder_cfg 1) 1 = 0.6 * pair_deviation ladder_cfg 1 :=
  (neighbour_correction_pair_deviation ladder_cfg 1).2.1 (by rw [ladder_pair.2]; norm_num)
    rfl rfl

/-! ## C9: the ring at rest is not a steady state -/

theorem vec_len_add_le (a b : Vec2) : vec_len (vec_add a b) ≤ vec_len a + vec_len b := by
  unfold vec_len vec_add
  rw [Real.sqrt_le_iff]
  refine ⟨add_nonneg (Real.sqrt_nonneg _) (Real.sqrt_nonneg _), ?_⟩
  have hA : 0 ≤ a.x * a.x + a.y * a.y := add_nonneg (mul_self_nonneg _) (mul_self_nonneg _)
  have hB : 0 ≤ b.x * b.x + b.y * b.y := add_nonneg (mul_self_nonneg _) (mul_self_nonneg _)
  have hcs : a.x * b.x + a.y * b.y
      ≤ Real.sqrt (a.x * a.x + a.y * a.y) * Real.sqrt (b.x * b.x + b.y * b.y) := by
    rw [← Real.sqrt_mul hA]
    refine le_trans (le_abs_self _) (Real.abs_le_sqrt ?_)
    nlinarith [sq_nonneg (a.x * b.y - a.y * b.x)]
  have h1 := Real.sq_sqrt hA
  have h2 := Real.sq_sqrt hB
  dsimp only
  nlinarith

/-- Moving both end points changes a distance by at most the two displacements. -/
theorem vec_len_sub_perturb (a b a' b' : Vec2) :
    vec_len (vec_sub a' b') ≤ vec_len (vec_sub a b) + vec_len (vec_sub a' a) + vec_len (vec_sub b' b) := by
  have e : vec_sub a' b' = vec_add (vec_add (vec_sub a b) (vec_sub a' a)) (vec_sub b b') := by
    simp only [vec_sub, vec_add]; ext <;> simp
  rw [e]
  refine le_trans (vec_len_add_le _ _) ?_
  rw [vec_len_sub_comm b b']
  linarith [vec_len_add_le (vec_sub a b) (vec_sub a' a)]

theorem vec_len_zero : vec_len ⟨0, 0⟩ = 0 := by
  simp [vec_len]

theorem vec_sub_self_len (a : Vec2) : vec_len (vec_sub a a) = 0 := by
  simp [vec_len, vec_sub]

/-- Writing a point back with its own position changes nothing. -/
theorem update_pos_self (q : Fin NUM_POINTS → Point) (k : Fin NUM_POINTS) :
    Function.update q k { q k with pos := (q k).pos } = q := by
  rw [Function.update_eq_self_iff]

/-- One step of the inner loop of `solve_constraints`, when every point is free, the pair is not
stretched beyond twice the rest length and point `i` is well inside the tether: both points of the
pair are displaced by the same vector `u`, of length at most a fifth of the rest length, in
opposite directions; the pair ends no farther from the rest length; the tether does not fire. -/
theorem solve_constraints_step_free (c : Point) (q : Fin NUM_POINTS → Point) (i : Fin NUM_POINTS)
    (hfree : ∀ j, (q j).pinned = false)
    (hd : vec_len (vec_sub (q (prevIdx i)).pos (q i).pos) ≤ 2 * rest_len)
    (hrad : vec_len (vec_sub c.pos (q i).pos) + 0.2 * rest_len ≤ 21.6) :
    ∃ u : Vec2, vec_len u ≤ 0.2 * rest_len ∧
      vec_len (vec_sub (vec_sub (q (prevIdx i)).pos u) (vec_add (q i).pos u))
        ≤ max (vec_len (vec_sub (q (prevIdx i)).pos (q i).pos)) rest_len ∧
      solve_constraints_step c q i
        = Function.update (Function.update q i { q i with pos := vec_add (q i).pos u })
            (prevIdx i) { q (prevIdx i) with pos := vec_sub (q (prevIdx i)).pos u } := by
  have hr := rest_len_bounds
  have hne := prevIdx_ne i
  set δ := vec_sub (q (prevIdx i)).pos (q i).pos with hδ
  set d := vec_len δ with hdd
  have hd0 : 0 ≤ d := vec_len_nonneg _
  -- the tether does not fire on a point displaced by at most a fifth of the rest length
  have hteth : ∀ (u : Vec2) (q' : Fin NUM_POINTS → Point), vec_len u ≤ 0.2 * rest_len →
      (q' i).pos = vec_add (q i).pos u → tether_correction c q' i = q' := by
    intro u q' hu hq'
    simp only [tether_correction]
    rw [if_neg]
    intro hcon
    have h1 : RADIUS * 1.2 * 1.5 = (21.6 : ℝ) := by unfold RADIUS; norm_num
    rw [h1, hq'] at hcon
    have h2 := vec_len_sub_perturb c.pos (q i).pos c.pos (vec_add (q i).pos u)
    have h3 : vec_sub (vec_add (q i).pos u) (q i).pos = u := by
      simp only [vec_sub, vec_add]; ext <;> simp
    rw [vec_sub_self_len, h3] at h2
    linarith [hcon.1]
  by_cases hc : d > 0.01
  · refine ⟨vec_scale δ ((d - rest_len) / d * 0.2), ?_, ?_, ?_⟩
    · rw [vec_len_scale, ← hdd, abs_mul, abs_div, abs_of_pos (lt_trans (by norm_num) hc),
        abs_of_pos (by norm_num : (0:ℝ) < 0.2)]
      have hdpos : 0 < d := lt_trans (by norm_num) hc
      rw [div_mul_eq_mul_div, div_mul_cancel₀ _ hdpos.ne']
      have : |d - rest_len| ≤ rest_len := by
        rw [abs_le]; constructor <;> linarith
      linarith
    · have hdpos : 0 < d := lt_trans (by norm_num) hc
      have e : vec_sub (vec_sub (q (prevIdx i)).pos (vec_scale δ ((d - rest_len) / d * 0.2)))
          (vec_add (q i).pos (vec_scale δ ((d - rest_len) / d * 0.2)))
          = vec_scale δ (1 - 2 * ((d - rest_len) / d * 0.2)) := by
        simp only [vec_sub, vec_add, vec_scale, hδ]; ext <;> simp <;> ring
      rw [e, vec_len_scale, ← hdd]
      have hfac : (1 - 2 * ((d - rest_len) / d * 0.2)) * d = 0.6 * d + 0.4 * rest_len := by
        field_simp; ring
      have hpos : 0 < 1 - 2 * ((d - rest_len) / d * 0.2) := by
        by_contra hcon
        push_neg at hcon
        nlinarith
      rw [abs_of_pos hpos, hfac]
      rcases le_total d rest_len with h | h
      · exact le_trans (by linarith) (le_max_right _ _)
      · exact le_trans (by linarith) (le_max_left _ _)
    · unfold solve_constraints_step
      have hnc : neighbour_correction q i
          = Function.update (Function.update q i
              { q i with pos := vec_add (q i).pos (vec_scale δ ((d - rest_len) / d * 0.2)) })
              (prevIdx i) { q (prevIdx i) with
                pos := vec_sub (q (prevIdx i)).pos (vec_scale δ ((d - rest_len) / d * 0.2)) } := by
        simp only [neighbour_correction, ← hδ, ← hdd, if_pos hc, set_pos_unless_pinned, hfree,
          Bool.not_false, if_true, Function.update_noteq hne]
      rw [hnc]
      apply hteth (vec_scale δ ((d - rest_len) / d * 0.2))
      · rw [vec_len_scale, ← hdd, abs_mul, abs_div, abs_of_pos (lt_trans (by norm_num) hc),
          abs_of_pos (by norm_num : (0:ℝ) < 0.2)]
        have hdpos : 0 < d := lt_trans (by norm_num) hc
        rw [div_mul_eq_mul_div, div_mul_cancel₀ _ hdpos.ne']
        have : |d - rest_len| ≤ rest_len := by
          rw [abs_le]; constructor <;> linarith
        linarith
      · rw [Function.update_noteq hne.symm, Function.update_same]
  · refine ⟨⟨0, 0⟩, ?_, ?_, ?_⟩
    · rw [vec_len_zero]; linarith
    · have e1 : vec_sub (q (prevIdx i)).pos ⟨0, 0⟩ = (q (prevIdx i)).pos := by
        simp only [vec_sub]; ext <;> simp
      have e2 : vec_add (q i).pos ⟨0, 0⟩ = (q i).pos := by
        simp only [vec_add]; ext <;> simp
      rw [e1, e2]
      exact le_max_left _ _
    · have e1 : vec_sub (q (prevIdx i)).pos ⟨0, 0⟩ = (q (prevIdx i)).pos := by
        simp only [vec_sub]; ext <;> simp
      have e2 : vec_add (q i).pos ⟨0, 0⟩ = (q i).pos := by
        simp only [vec_add]; ext <;> simp
      rw [e1, e2, update_pos_self, update_pos_self]
      unfold solve_constraints_step
      have hnc : neighbour_correction q i = q := by
        simp only [neighbour_correction, ← hδ, ← hdd, if_neg hc]
      rw [hnc]
      apply hteth ⟨0, 0⟩ q
      · rw [vec_len_zero]; linarith
      · exact e2.symm

theorem next_prev (i : Fin NUM_POINTS) : nextIdx (prevIdx i) = i := by revert i; decide
theorem prev_next (i : Fin NUM_POINTS) : prevIdx (nextIdx i) = i := by revert i; decide
theorem prev_ne_next (i : Fin NUM_POINTS) : prevIdx i ≠ nextIdx i := by revert i; decide
theorem nextIdx_ne (i : Fin NUM_POINTS) : nextIdx i ≠ i := by revert i; decide

/-- Bounds that hold while `solve_constraints` sweeps over free points that start close enough
together and to the anchor: after the steps listed in `l`, in which no index occurs more than
twice, every pair distance and every anchor distance has grown by at most a fifth of the rest
length per step that moved one of its end points, no tether has fired, and the sum of the ordinates
is unchanged. -/
theorem relaxation_bounds (c : Point) (ρ : ℝ) (q0 : Fin NUM_POINTS → Point)
    (hfree : ∀ j, (q0 j).pinned = false)
    (hpair : ∀ j, pair_dist q0 j ≤ 1.2 * rest_len)
    (hanch : ∀ j, anchor_dist c q0 j ≤ ρ) (hρ : ρ + 0.8 * rest_len ≤ 21.6)
    (l : List (Fin NUM_POINTS)) (hl : ∀ k, l.count k ≤ 2) :
    (∀ j, ((l.foldl (solve_constraints_step c) q0) j).pinned = false) ∧
    (∀ j, pair_dist (l.foldl (solve_constraints_step c) q0) j
      ≤ 1.2 * rest_len + 0.2 * rest_len * ((l.count (nextIdx j) : ℝ) + (l.count (prevIdx j) : ℝ))) ∧
    (∀ j, anchor_dist c (l.foldl (solve_constraints_step c) q0) j
      ≤ ρ + 0.2 * rest_len * ((l.count j : ℝ) + (l.count (nextIdx j) : ℝ))) ∧
    sum_pos_y (l.foldl (solve_constraints_step c) q0) = sum_pos_y q0 := by
  have hr := rest_len_bounds
  induction l using List.reverseRecOn with
  | nil =>
    refine ⟨hfree, fun j => ?_, fun j => ?_, rfl⟩
    · simpa using hpair j
    · simpa using hanch j
  | append_singleton l i ih =>
    have hcnt : ∀ k, (l ++ [i]).count k = l.count k + (if k = i then 1 else 0) := by
      intro k
      rw [List.count_append, List.count_singleton]
      by_cases h : k = i
      · subst h; simp
      · have h' : ¬ (i = k) := fun e => h e.symm
        simp [h, h']
    have hl' : ∀ k, l.count k ≤ 2 := fun k => by
      have := hl k; rw [hcnt] at this; omega
    have hli : l.count i ≤ 1 := by
      have := hl i; rw [hcnt, if_pos rfl] at this; omega
    obtain ⟨ifree, ipair, ianch, isum⟩ := ih hl'
    rw [List.foldl_append, List.foldl_cons, List.foldl_nil]
    set q := l.foldl (solve_constraints_step c) q0 with hq
    have cR : ∀ k, ((l.count k : ℕ) : ℝ) ≤ 2 := fun k => by exact_mod_cast hl' k
    have cI : ((l.count i : ℕ) : ℝ) ≤ 1 := by exact_mod_cast hli
    have cN : ∀ k, (0 : ℝ) ≤ ((l.count k : ℕ) : ℝ) := fun k => Nat.cast_nonneg _
    have hd : vec_len (vec_sub (q (prevIdx i)).pos (q i).pos) ≤ 2 * rest_len := by
      have := ipair i
      unfold pair_dist at this
      nlinarith [cR (nextIdx i), cR (prevIdx i)]
    have hrad : vec_len (vec_sub c.pos (q i).pos) + 0.2 * rest_len ≤ 21.6 := by
      have := ianch i
      unfold anchor_dist at this
      nlinarith [cR (nextIdx i), cI]
    obtain ⟨u, hu, hown, hstep⟩ := solve_constraints_step_free c q i ifree hd hrad
    rw [hstep]
    have hne := prevIdx_ne i
    set q' := Function.update (Function.update q i { q i with pos := vec_add (q i).pos u })
      (prevIdx i) { q (prevIdx i) with pos := vec_sub (q (prevIdx i)).pos u } with hq'
    have hPi : (q' i).pos = vec_add (q i).pos u := by
      rw [hq', Function.update_noteq hne.symm, Function.update_same]
    have hPp : (q' (prevIdx i)).pos = vec_sub (q (prevIdx i)).pos u := by
      rw [hq', Function.update_same]
    have hPo : ∀ j, j ≠ i → j ≠ prevIdx i → q' j = q j := by
      intro j h1 h2
      rw [hq', Function.update_noteq h2, Function.update_noteq h1]
    have hpin : ∀ j, (q' j).pinned = false := by
      intro j
      by_cases h1 : j = prevIdx i
      · rw [h1, hq', Function.update_same]; exact ifree _
      · by_cases h2 : j = i
        · rw [h2, hq', Function.update_noteq hne.symm, Function.update_same]; exact ifree _
        · rw [hPo j h2 h1]; exact ifree _
    have hu0 : 0 ≤ 0.2 * rest_len := by linarith
    have hmv : ∀ k, vec_len (vec_sub (q' k).pos (q k).pos)
        ≤ (if k = i then 0.2 * rest_len else 0) + (if k = prevIdx i then 0.2 * rest_len else 0) := by
      intro k
      by_cases h1 : k = i
      · subst h1
        rw [hPi, if_pos rfl, if_neg hne.symm]
        have : vec_sub (vec_add (q k).pos u) (q k).pos = u := by
          simp only [vec_sub, vec_add]; ext <;> simp
        rw [this]; linarith
      · by_cases h2 : k = prevIdx i
        · rw [h2, hPp, if_neg hne, if_pos rfl]
          have : vec_sub (vec_sub (q (prevIdx i)).pos u) (q (prevIdx i)).pos = vec_scale u (-1) := by
            simp only [vec_sub, vec_scale]; ext <;> simp
          rw [this, vec_len_scale]; simp; linarith
        · rw [hPo k h1 h2, vec_sub_self_len, if_neg h1, if_neg h2]; simp
    refine ⟨hpin, fun j => ?_, fun j => ?_, ?_⟩
    · -- pair distances
      rw [hcnt, hcnt]
      push_cast
      by_cases hji : j = i
      · subst hji
        have e : pair_dist q' j = vec_len (vec_sub (vec_sub (q (prevIdx j)).pos u)
            (vec_add (q j).pos u)) := by
          unfold pair_dist; rw [hPi, hPp]
        rw [e]
        refine le_trans hown (max_le ?_ ?_)
        · have := ipair j
          unfold pair_dist at this
          have h1 : (0:ℝ) ≤ (if nextIdx j = j then (1:ℝ) else 0) := by split_ifs <;> norm_num
          have h2 : (0:ℝ) ≤ (if prevIdx j = j then (1:ℝ) else 0) := by split_ifs <;> norm_num
          nlinarith
        · have h1 : (0:ℝ) ≤ (if nextIdx j = j then (1:ℝ) else 0) := by split_ifs <;> norm_num
          have h2 : (0:ℝ) ≤ (if prevIdx j = j then (1:ℝ) else 0) := by split_ifs <;> norm_num
          nlinarith [cN (nextIdx j), cN (prevIdx j)]
      · have hp := vec_len_sub_perturb (q (prevIdx j)).pos (q j).pos (q' (prevIdx j)).pos (q' j).pos
        have m1 := hmv (prevIdx j)
        have m2 := hmv j
        have hpp : prevIdx j ≠ prevIdx i := fun h => hji (by
          have := congrArg nextIdx h
          rwa [next_prev, next_prev] at this)
        rw [if_neg hpp] at m1
        rw [if_neg hji] at m2
        have e1 : (if prevIdx j = i then 0.2 * rest_len else 0)
            = 0.2 * rest_len * (if prevIdx j = i then (1:ℝ) else 0) := by split_ifs <;> ring
        have e2 : (if j = prevIdx i then 0.2 * rest_len else 0)
            = 0.2 * rest_len * (if nextIdx j = i then (1:ℝ) else 0) := by
          by_cases h : j = prevIdx i
          · rw [if_pos h, if_pos (by rw [h, next_prev])]; ring
          · rw [if_neg h, if_neg (fun h' => h (by rw [← h', prev_next]))]; ring
        rw [e1] at m1
        rw [e2] at m2
        have := ipair j
        unfold pair_dist at this ⊢
        linarith
    · -- anchor distances
      rw [hcnt, hcnt]
      push_cast
      have hp := vec_len_sub_perturb c.pos (q j).pos c.pos (q' j).pos
      rw [vec_sub_self_len] at hp
      have m2 := hmv j
      have e2 : (if j = prevIdx i then 0.2 * rest_len else 0)
          = 0.2 * rest_len * (if nextIdx j = i then (1:ℝ) else 0) := by
        by_cases h : j = prevIdx i
        · rw [if_pos h, if_pos (by rw [h, next_prev])]; ring
        · rw [if_neg h, if_neg (fun h' => h (by rw [← h', prev_next]))]; ring
      have e1 : (if j = i then 0.2 * rest_len else 0)
          = 0.2 * rest_len * (if j = i then (1:ℝ) else 0) := by split_ifs <;> ring
      rw [e1, e2] at m2
      have := ianch j
      unfold anchor_dist at this ⊢
      linarith
    · -- the sum of the ordinates
      rw [← isum]
      unfold sum_pos_y
      have hpt : ∀ j, (q' j).pos.y
          = (q j).pos.y + ((if j = i then u.y else 0) - (if j = prevIdx i then u.y else 0)) := by
        intro j
        by_cases h1 : j = i
        · subst h1
          rw [hPi, if_pos rfl, if_neg hne.symm]; simp [vec_add]
        · by_cases h2 : j = prevIdx i
          · rw [h2, hPp, if_neg hne, if_pos rfl]; simp [vec_sub]; ring
          · rw [hPo j h1 h2, if_neg h1, if_neg h2]; simp
      simp only [hpt, Finset.sum_add_distrib, Finset.sum_sub_distrib, Finset.sum_ite_eq',
        Finset.mem_univ, if_true]
      ring

theorem apply_force_to_point_pos (p : Point) (F : Vec2) :
    (apply_force_to_point p F).pos = p.pos := by
  unfold apply_force_to_point; split_ifs <;> rfl

theorem internal_forces_point_pos (c : Point) (a b : Vec2) (p : Point) :
    (internal_forces_point c a b p).pos = p.pos := by
  simp only [internal_forces_point]
  split_ifs <;> simp [apply_force_to_point_pos]

/-- The first loop of `update_physics` reads positions only, and writes no position: its result
at every index is the value computed from the state before the loop. -/
theorem internal_forces_fold (c : Point) (l : List (Fin NUM_POINTS)) (hl : l.Nodup)
    (pts : Fin NUM_POINTS → Point) (j : Fin NUM_POINTS) :
    l.foldl (internal_forces_step c) pts j
      = if j ∈ l then
          internal_forces_point c (pts (prevIdx j)).pos (pts (nextIdx j)).pos (pts j)
        else pts j := by
  induction l generalizing pts with
  | nil => simp
  | cons i t ih =>
    have hi : i ∉ t := (List.nodup_cons.mp hl).1
    rw [List.foldl_cons, ih (List.nodup_cons.mp hl).2]
    have hpos : ∀ k, (internal_forces_step c pts i k).pos = (pts k).pos := by
      intro k
      unfold internal_forces_step
      by_cases h : k = i
      · subst h; rw [Function.update_same, internal_forces_point_pos]
      · rw [Function.update_noteq h]
    by_cases hj : j ∈ t
    · have hne : j ≠ i := fun h => hi (h ▸ hj)
      rw [if_pos hj, if_pos (List.mem_cons_of_mem _ hj), hpos, hpos]
      congr 1
      unfold internal_forces_step
      rw [Function.update_noteq hne]
    · by_cases hji : j = i
      · subst hji
        rw [if_neg hj, if_pos (List.mem_cons_self _ _)]
        unfold internal_forces_step
        rw [Function.update_same]
      · rw [if_neg hj, if_neg (by simp [hji, hj])]
        unfold internal_forces_step
        rw [Function.update_noteq hji]

/-- With the environment disabled, the boundary points after `update_physics` are the result of
the wobble loop, the internal force loop, the integration loop and the two relaxation passes, the
latter around the integrated anchor. -/
theorem update_physics_points (rand : ℕ → ℕ) (RAND_MAX : ℕ) (s : Sim) (dt : ℝ)
    (henv : s.env.enabled = false) :
    ∃ F : Vec2, (update_physics rand RAND_MAX s dt).points =
      (List.finRange NUM_POINTS ++ List.finRange NUM_POINTS).foldl
        (solve_constraints_step
          (integrate_point s.width s.height dt (apply_force_to_point s.center F)))
        ((List.finRange NUM_POINTS).foldl (integrate_step s.width s.height dt)
          ((List.finRange NUM_POINTS).foldl (internal_forces_step s.center)
            ((List.finRange NUM_POINTS).foldl (apply_slime_wobble_step dt) s.points))) := by
  have h2 : List.range CONSTRAINT_ITERATIONS = [0, 1] := by rfl
  refine ⟨vec_scale (vec_sub (vec_scale ((List.finRange NUM_POINTS).foldl
      (fun a i => vec_add a (((List.finRange NUM_POINTS).foldl (internal_forces_step s.center)
        ((List.finRange NUM_POINTS).foldl (apply_slime_wobble_step dt) s.points)) i).pos)
      (vec_new 0 0)) (1 / (NUM_POINTS : ℝ))) s.center.pos) 0.1, ?_⟩
  simp only [update_physics, apply_environmental_forces, apply_slime_wobble, henv,
    Bool.not_false, if_true, solve_constraints, h2, List.foldl_cons, List.foldl_nil,
    solve_constraints_pass, List.foldl_append]

theorem ring_anchor_dist (j : Fin NUM_POINTS) :
    vec_len (vec_sub ⟨40, 20⟩ (ring_point j).pos) = 12 := by
  simp only [vec_len, vec_sub, ring_point]
  have h := Real.sin_sq_add_cos_sq (ring_angle j)
  have e : (40 - (40 + 12 * Real.cos (ring_angle j))) * (40 - (40 + 12 * Real.cos (ring_angle j)))
      + (20 - (20 + 12 * Real.sin (ring_angle j))) * (20 - (20 + 12 * Real.sin (ring_angle j)))
      = 12 ^ 2 := by nlinarith
  rw [e, Real.sqrt_sq (by norm_num)]

theorem prevIdx_val (j : Fin NUM_POINTS) :
    ((prevIdx j : ℕ) + 1 = (j : ℕ)) ∨ ((j : ℕ) = 0 ∧ (prevIdx j : ℕ) = 23) := by
  revert j; decide

theorem ring_angle_step (j : Fin NUM_POINTS) :
    Real.cos (ring_angle (prevIdx j) - ring_angle j) = Real.cos (Real.pi / 12) := by
  unfold ring_angle
  rcases prevIdx_val j with h | ⟨h0, h23⟩
  · have : ((j : ℕ) : ℝ) = ((prevIdx j : ℕ) : ℝ) + 1 := by exact_mod_cast h.symm
    rw [this, ← Real.cos_neg]
    congr 1
    ring
  · rw [h0, h23, ← Real.cos_two_pi_sub]
    congr 1
    push_cast
    ring

theorem ring_chord (j : Fin NUM_POINTS) :
    vec_len (vec_sub (ring_point (prevIdx j)).pos (ring_point j).pos) ≤ 3.15 := by
  simp only [vec_len, vec_sub, ring_point]
  have hc := ring_angle_step j
  rw [Real.cos_sub] at hc
  have h1 := Real.sin_sq_add_cos_sq (ring_angle j)
  have h2 := Real.sin_sq_add_cos_sq (ring_angle (prevIdx j))
  have h3 := Real.one_sub_sq_div_two_le_cos (x := Real.pi / 12)
  have hpi := Real.pi_lt_d2
  have hpi0 := Real.pi_pos
  rw [Real.sqrt_le_iff]
  refine ⟨by norm_num, ?_⟩
  have hsq : (Real.pi / 12) ^ 2 ≤ (3.15 / 12) ^ 2 := by
    apply pow_le_pow_left₀ (by positivity)
    linarith
  nlinarith

theorem spring_force_len (a b : Vec2) :
    vec_len (spring_force a b) ≤ K_SPRING * |vec_len (vec_sub b a) - rest_len| := by
  unfold spring_force
  have hK : (0 : ℝ) ≤ K_SPRING := by unfold K_SPRING; norm_num
  split_ifs with h
  · have hd : 0 < vec_len (vec_sub b a) := lt_trans (by norm_num) h
    rw [vec_len_scale, abs_div, abs_mul, abs_of_nonneg hK, abs_of_pos hd,
      div_mul_cancel₀ _ hd.ne']
  · rw [vec_len_zero]
    exact mul_nonneg hK (abs_nonneg _)

theorem spring_force_antisymm (a b : Vec2) :
    spring_force a b = vec_scale (spring_force b a) (-1) := by
  unfold spring_force
  rw [vec_len_sub_comm a b]
  split_ifs
  · simp only [vec_scale, vec_sub]; ext <;> simp <;> ring
  · simp [vec_scale]

theorem spring_apply (q : Point) (hq : q.pinned = false) (b : Vec2) :
    (if vec_len (vec_sub b q.pos) > 0.01 then
        apply_force_to_point q (vec_scale (vec_sub b q.pos)
          (K_SPRING * (vec_len (vec_sub b q.pos) - rest_len) / vec_len (vec_sub b q.pos)))
      else q)
      = { q with acc := (vec_add q.acc (vec_scale (spring_force q.pos b) (1 / q.mass))) } := by
  unfold spring_force
  split_ifs with h
  · simp [apply_force_to_point, hq]
  · apply Point.ext <;> simp [vec_add, vec_scale]

/-- The internal forces on a free point at rest that is exactly `RADIUS` away from the anchor:
the anchor spring and the viscosity vanish, the pressure does not apply, and the two neighbour
springs remain. -/
theorem internal_forces_point_at_radius (c : Point) (a b : Vec2) (p : Point)
    (hp : p.pinned = false) (hv : p.vel = ⟨0, 0⟩)
    (hd : vec_len (vec_sub c.pos p.pos) = RADIUS) :
    internal_forces_point c a b p
      = { p with acc := (vec_add p.acc
            (vec_scale (vec_add (spring_force p.pos a) (spring_force p.pos b)) (1 / p.mass))) } := by
  have hrest : (RADIUS * 2.5 * Real.pi) / (NUM_POINTS : ℝ) = rest_len := rfl
  simp only [internal_forces_point, hrest]
  rw [spring_apply p hp a,
    spring_apply { p with acc := (vec_add p.acc (vec_scale (spring_force p.pos a) (1 / p.mass))) }
      hp b]
  simp only [hd]
  have hR1 : RADIUS > 0.01 := by unfold RADIUS; norm_num
  have hR2 : ¬ (RADIUS < RADIUS * 0.5 ∧ RADIUS > 0.01) := by unfold RADIUS; norm_num
  rw [if_pos hR1, if_neg hR2]
  simp only [apply_force_to_point, hp, Bool.not_false, if_true, hv]
  apply Point.ext <;> simp [vec_add, vec_scale]
  constructor <;> ring

theorem ring_wobble :
    (List.finRange NUM_POINTS).foldl (apply_slime_wobble_step (1 / 2)) ring_sim.points
      = fun j => { ring_point j with noise_phase := 0, acc := ⟨0, 0.6⟩ } := by
  funext j
  unfold apply_slime_wobble_step
  simp only
  rw [foldl_update_map (fun _ p => apply_force_to_point
      { p with noise_phase := p.noise_phase + 1 / 2 * 2 }
      (vec_new (Real.sin (p.noise_phase + 1 / 2 * 2) * WOBBLE_STRENGTH)
        (Real.cos ((p.noise_phase + 1 / 2 * 2) * 1.3) * WOBBLE_STRENGTH)))
    _ (List.nodup_finRange _), if_pos (List.mem_finRange j)]
  have hp : ring_sim.points j = ring_point j := rfl
  rw [hp]
  simp only [apply_force_to_point, ring_point, Bool.not_false, if_true, vec_add, vec_scale,
    vec_new, WOBBLE_STRENGTH]
  norm_num

theorem ring_internal :
    (List.finRange NUM_POINTS).foldl (internal_forces_step ring_sim.center)
        (fun j => { ring_point j with noise_phase := 0, acc := ⟨0, 0.6⟩ })
      = fun j => { ring_point j with noise_phase := 0, acc := ring_acc j } := by
  funext j
  have hc : ring_sim.center.pos = ⟨40, 20⟩ := rfl
  have hd : vec_len (vec_sub ring_sim.center.pos
      ({ ring_point j with noise_phase := 0, acc := ⟨0, 0.6⟩ } : Point).pos) = RADIUS := by
    rw [hc]
    simp only
    rw [ring_anchor_dist]
    unfold RADIUS
    norm_num
  rw [internal_forces_fold _ _ (List.nodup_finRange _), if_pos (List.mem_finRange j),
    internal_forces_point_at_radius _ _ _ _ rfl rfl hd]
  simp only [ring_acc, ring_point]

theorem vec_abs_le_len (v : Vec2) : |v.x| ≤ vec_len v ∧ |v.y| ≤ vec_len v := by
  unfold vec_len
  constructor
  · apply Real.abs_le_sqrt; nlinarith [mul_self_nonneg v.y]
  · apply Real.abs_le_sqrt; nlinarith [mul_self_nonneg v.x]

theorem ring_chord_next (j : Fin NUM_POINTS) :
    vec_len (vec_sub (ring_point (nextIdx j)).pos (ring_point j).pos) ≤ 3.15 := by
  have h := ring_chord (nextIdx j)
  rw [prev_next, vec_len_sub_comm] at h
  exact h

theorem ring_acc_len (j : Fin NUM_POINTS) : vec_len (ring_acc j) ≤ 0.92 := by
  have hr := rest_len_bounds
  have hsp : ∀ k, vec_len (vec_sub (ring_point k).pos (ring_point j).pos) ≤ 3.15 →
      vec_len (spring_force (ring_point j).pos (ring_point k).pos) ≤ 0.08 := by
    intro k hk
    refine le_trans (spring_force_len _ _) ?_
    have h0 := vec_len_nonneg (vec_sub (ring_point k).pos (ring_point j).pos)
    have : |vec_len (vec_sub (ring_point k).pos (ring_point j).pos) - rest_len| ≤ 4 := by
      rw [abs_le]; constructor <;> linarith
    unfold K_SPRING
    linarith
  have h1 := hsp _ (ring_chord j)
  have h2 := hsp _ (ring_chord_next j)
  unfold ring_acc
  refine le_trans (vec_len_add_le _ _) ?_
  rw [vec_len_scale]
  have h3 := vec_len_add_le (spring_force (ring_point j).pos (ring_point (prevIdx j)).pos)
    (spring_force (ring_point j).pos (ring_point (nextIdx j)).pos)
  have h4 : vec_len (⟨0, 0.6⟩ : Vec2) = 0.6 := by
    unfold vec_len
    rw [show (0:ℝ) * 0 + 0.6 * 0.6 = 0.6 ^ 2 by norm_num, Real.sqrt_sq (by norm_num)]
  rw [h4, abs_of_pos (by norm_num)]
  linarith

/-- The integration sub-step when the velocity ceiling is not reached and the new position is
inside the margins. -/
theorem integrate_point_noclamp (w h : ℤ) (dt : ℝ) (p : Point) (hp : p.pinned = false)
    (hv : vec_len (vec_add p.vel (vec_scale p.acc dt)) ≤ MAX_VELOCITY)
    (hx1 : 2 ≤ (vec_add p.pos
      (vec_scale (vec_scale (vec_add p.vel (vec_scale p.acc dt)) FRICTION) dt)).x)
    (hx2 : (vec_add p.pos
      (vec_scale (vec_scale (vec_add p.vel (vec_scale p.acc dt)) FRICTION) dt)).x < (w : ℝ) - 2)
    (hy1 : 2 ≤ (vec_add p.pos
      (vec_scale (vec_scale (vec_add p.vel (vec_scale p.acc dt)) FRICTION) dt)).y)
    (hy2 : (vec_add p.pos
      (vec_scale (vec_scale (vec_add p.vel (vec_scale p.acc dt)) FRICTION) dt)).y < (h : ℝ) - 2) :
    (integrate_point w h dt p).pos
      = vec_add p.pos (vec_scale (vec_scale (vec_add p.vel (vec_scale p.acc dt)) FRICTION) dt) ∧
    (integrate_point w h dt p).pinned = false := by
  simp only [integrate_point, hp, Bool.false_eq_true, if_false, if_neg (not_lt.mpr hv)]
  rw [boundary_inside w h _ hx1 hx2 hy1 hy2]
  exact ⟨rfl, rfl⟩

/-- The integration sub-step moves a free point by at most `FRICTION * MAX_VELOCITY * dt` when
the point is at least that far inside the margins. -/
theorem integrate_point_near (w h : ℤ) (dt : ℝ) (p : Point) (hp : p.pinned = false)
    (hdt : 0 ≤ dt)
    (hx1 : 2 + FRICTION * MAX_VELOCITY * dt ≤ p.pos.x)
    (hx2 : p.pos.x + FRICTION * MAX_VELOCITY * dt < (w : ℝ) - 2)
    (hy1 : 2 + FRICTION * MAX_VELOCITY * dt ≤ p.pos.y)
    (hy2 : p.pos.y + FRICTION * MAX_VELOCITY * dt < (h : ℝ) - 2) :
    vec_len (vec_sub (integrate_point w h dt p).pos p.pos) ≤ FRICTION * MAX_VELOCITY * dt ∧
    (integrate_point w h dt p).pinned = false := by
  have hF : (0 : ℝ) ≤ FRICTION := by unfold FRICTION; norm_num
  have hM : (0 : ℝ) < MAX_VELOCITY := by unfold MAX_VELOCITY; norm_num
  simp only [integrate_point, hp, Bool.false_eq_true, if_false]
  generalize vec_add p.vel (vec_scale p.acc dt) = v1
  have hv2 : vec_len (if vec_len v1 > MAX_VELOCITY then vec_scale v1 (MAX_VELOCITY / vec_len v1)
      else v1) ≤ MAX_VELOCITY := by
    split_ifs with hc
    · have hpos : 0 < vec_len v1 := lt_trans hM hc
      rw [vec_len_scale, abs_of_nonneg (div_nonneg hM.le hpos.le), div_mul_cancel₀ _ hpos.ne']
    · exact not_lt.mp hc
  generalize (if vec_len v1 > MAX_VELOCITY then vec_scale v1 (MAX_VELOCITY / vec_len v1)
      else v1) = v2 at hv2
  have hv3 : vec_len (vec_scale (vec_scale v2 FRICTION) dt) ≤ FRICTION * MAX_VELOCITY * dt := by
    rw [vec_len_scale, vec_len_scale, abs_of_nonneg hdt, abs_of_nonneg hF]
    have := mul_le_mul_of_nonneg_left hv2 hF
    nlinarith
  generalize vec_scale v2 FRICTION = v3 at hv3
  have hc := vec_abs_le_len (vec_scale v3 dt)
  have hcx := abs_le.mp (le_trans hc.1 hv3)
  have hcy := abs_le.mp (le_trans hc.2 hv3)
  rw [boundary_inside w h _ (by simp only [vec_add]; linarith [hcx.1])
    (by simp only [vec_add]; linarith [hcx.2]) (by simp only [vec_add]; linarith [hcy.1])
    (by simp only [vec_add]; linarith [hcy.2])]
  refine ⟨?_, rfl⟩
  have e : vec_sub (vec_add p.pos (vec_scale v3 dt)) p.pos = vec_scale v3 dt := by
    simp only [vec_sub, vec_add]; ext <;> simp
  simp only [e]
  exact hv3

theorem ring_pos_range (j : Fin NUM_POINTS) :
    (28 ≤ (ring_point j).pos.x ∧ (ring_point j).pos.x ≤ 52) ∧
    (8 ≤ (ring_point j).pos.y ∧ (ring_point j).pos.y ≤ 32) := by
  have h1 := Real.neg_one_le_cos (ring_angle j)
  have h2 := Real.cos_le_one (ring_angle j)
  have h3 := Real.neg_one_le_sin (ring_angle j)
  have h4 := Real.sin_le_one (ring_angle j)
  simp only [ring_point]
  refine ⟨⟨?_, ?_⟩, ?_, ?_⟩ <;> linarith

/-- The integration loop on the ring: point `j` moves by `0.23 = 0.92 * (1/2)^2` times its
acceleration, and stays free. -/
theorem ring_integrate (j : Fin NUM_POINTS) :
    ((List.finRange NUM_POINTS).foldl (integrate_step 80 40 (1 / 2))
        (fun j => { ring_point j with noise_phase := 0, acc := ring_acc j }) j).pos
      = vec_add (ring_point j).pos (vec_scale (ring_acc j) 0.23) ∧
    ((List.finRange NUM_POINTS).foldl (integrate_step 80 40 (1 / 2))
        (fun j => { ring_point j with noise_phase := 0, acc := ring_acc j }) j).pinned = false := by
  unfold integrate_step
  rw [foldl_update_map (fun _ p => integrate_point 80 40 (1 / 2) p) _ (List.nodup_finRange _),
    if_pos (List.mem_finRange j)]
  have hlen := ring_acc_len j
  have hc := vec_abs_le_len (ring_acc j)
  have hcx := abs_le.mp (le_trans hc.1 hlen)
  have hcy := abs_le.mp (le_trans hc.2 hlen)
  have hr := ring_pos_range j
  have e0 : vec_add ({ ring_point j with noise_phase := 0, acc := ring_acc j } : Point).vel
      (vec_scale ({ ring_point j with noise_phase := 0, acc := ring_acc j } : Point).acc (1 / 2))
      = vec_scale (ring_acc j) (1 / 2) := by
    simp only [ring_point, vec_add, vec_scale]; ext <;> simp
  have e1 : vec_add ({ ring_point j with noise_phase := 0, acc := ring_acc j } : Point).pos
      (vec_scale (vec_scale (vec_scale (ring_acc j) (1 / 2)) FRICTION) (1 / 2))
      = vec_add (ring_point j).pos (vec_scale (ring_acc j) 0.23) := by
    simp only [vec_add, vec_scale, FRICTION]; ext <;> simp <;> ring
  have key := integrate_point_noclamp 80 40 (1 / 2)
    { ring_point j with noise_phase := 0, acc := ring_acc j } rfl
  rw [e0, e1] at key
  apply key
  · rw [vec_len_scale, abs_of_pos (by norm_num)]
    unfold MAX_VELOCITY
    linarith
  · simp only [vec_add, vec_scale]; linarith [hr.1.1, hcx.1]
  · simp only [vec_add, vec_scale]; push_cast; linarith [hr.1.2, hcx.2]
  · simp only [vec_add, vec_scale]; linarith [hr.2.1, hcy.1]
  · simp only [vec_add, vec_scale]; push_cast; linarith [hr.2.2, hcy.2]

/-- The neighbour springs cancel in the sum over the ring. -/
theorem ring_springs_cancel :
    ∑ j : Fin NUM_POINTS,
      ((spring_force (ring_point j).pos (ring_point (prevIdx j)).pos).y
        + (spring_force (ring_point j).pos (ring_point (nextIdx j)).pos).y) = 0 := by
  rw [Finset.sum_add_distrib]
  have h : ∀ j : Fin NUM_POINTS,
      (spring_force (ring_point j).pos (ring_point (nextIdx j)).pos).y
        = -(spring_force (ring_point (nextIdx j)).pos
            (ring_point (prevIdx (nextIdx j))).pos).y := by
    intro j
    rw [prev_next, spring_force_antisymm (ring_point j).pos]
    simp [vec_scale]
  simp only [h, Finset.sum_neg_distrib]
  have e := Equiv.sum_comp (⟨nextIdx, prevIdx, prev_next, next_prev⟩ : Fin NUM_POINTS ≃ Fin NUM_POINTS)
    (fun k => (spring_force (ring_point k).pos (ring_point (prevIdx k)).pos).y)
  simp only [Equiv.coe_fn_mk] at e
  rw [e]
  ring

theorem finRange_twice_count (k : Fin NUM_POINTS) :
    (List.finRange NUM_POINTS ++ List.finRange NUM_POINTS).count k ≤ 2 := by
  rw [List.count_append,
    List.count_eq_one_of_mem (List.nodup_finRange _) (List.mem_finRange k)]

/-- One step of `update_physics` with `dt = 1/2` on the ring at rest raises the sum of the
ordinates of the 24 boundary points by `24 * 0.138 = 3.312`: the wobble force `(0, 0.3)` acts on
every point, the neighbour springs cancel in the sum, and the relaxation passes leave the sum
unchanged. -/
theorem ring_step_sum :
    sum_pos_y (update_physics (fun _ => 0) 1 ring_sim (1 / 2)).points
      = sum_pos_y ring_sim.points + 3.312 := by
  have hr := rest_len_bounds
  obtain ⟨F, hF⟩ := update_physics_points (fun _ => 0) 1 ring_sim (1 / 2) rfl
  rw [hF, ring_wobble, ring_internal]
  have hw : ring_sim.width = 80 := rfl
  have hh : ring_sim.height = 40 := rfl
  rw [hw, hh]
  -- the integrated anchor is within 2.76 of (40, 20)
  have hcpos : (apply_force_to_point ring_sim.center F).pos = ⟨40, 20⟩ := by
    rw [apply_force_to_point_pos]; rfl
  have hcpin : (apply_force_to_point ring_sim.center F).pinned = false := by
    rw [apply_force_to_point_pinned]; rfl
  have hC := integrate_point_near 80 40 (1 / 2) (apply_force_to_point ring_sim.center F) hcpin
    (by norm_num) (by rw [hcpos]; norm_num [FRICTION, MAX_VELOCITY])
    (by rw [hcpos]; norm_num [FRICTION, MAX_VELOCITY])
    (by rw [hcpos]; norm_num [FRICTION, MAX_VELOCITY])
    (by rw [hcpos]; norm_num [FRICTION, MAX_VELOCITY])
  rw [hcpos] at hC
  have hC1 : vec_len (vec_sub (integrate_point 80 40 (1 / 2)
      (apply_force_to_point ring_sim.center F)).pos ⟨40, 20⟩) ≤ 2.76 := by
    refine le_trans hC.1 ?_
    norm_num [FRICTION, MAX_VELOCITY]
  generalize integrate_point 80 40 (1 / 2) (apply_force_to_point ring_sim.center F) = C at hC1 ⊢
  -- the integrated boundary points are within 0.2116 of their starting positions
  have hQ := ring_integrate
  generalize (List.finRange NUM_POINTS).foldl (integrate_step 80 40 (1 / 2))
    (fun j => { ring_point j with noise_phase := 0, acc := ring_acc j }) = Q at hQ ⊢
  have hmove : ∀ j, vec_len (vec_sub (Q j).pos (ring_point j).pos) ≤ 0.2116 := by
    intro j
    have e : vec_sub (Q j).pos (ring_point j).pos = vec_scale (ring_acc j) 0.23 := by
      rw [(hQ j).1]; simp only [vec_sub, vec_add]; ext <;> simp
    rw [e, vec_len_scale, abs_of_pos (by norm_num)]
    linarith [ring_acc_len j]
  have hpair : ∀ j, pair_dist Q j ≤ 1.2 * rest_len := by
    intro j
    unfold pair_dist
    have := vec_len_sub_perturb (ring_point (prevIdx j)).pos (ring_point j).pos
      (Q (prevIdx j)).pos (Q j).pos
    linarith [ring_chord j, hmove j, hmove (prevIdx j)]
  have hanch : ∀ j, anchor_dist C Q j ≤ 15 := by
    intro j
    unfold anchor_dist
    have := vec_len_sub_perturb ⟨40, 20⟩ (ring_point j).pos C.pos (Q j).pos
    linarith [ring_anchor_dist j, hmove j]
  have key := relaxation_bounds C 15 Q (fun j => (hQ j).2) hpair hanch (by linarith)
    (List.finRange NUM_POINTS ++ List.finRange NUM_POINTS) finRange_twice_count
  rw [key.2.2.2]
  -- the sum after the integration loop
  unfold sum_pos_y
  have hp : ∀ j, ring_sim.points j = ring_point j := fun j => rfl
  have hy : ∀ j, (Q j).pos.y = (ring_point j).pos.y + (0.138
      + 0.46 * ((spring_force (ring_point j).pos (ring_point (prevIdx j)).pos).y
        + (spring_force (ring_point j).pos (ring_point (nextIdx j)).pos).y)) := by
    intro j
    rw [(hQ j).1]
    simp only [vec_add, vec_scale, ring_acc]
    ring
  simp only [hy, hp, Finset.sum_add_distrib, ← Finset.mul_sum]
  have hc := ring_springs_cancel
  rw [Finset.sum_add_distrib] at hc
  rw [hc]
  simp
  norm_num

theorem foldl_vec_add (f : Fin NUM_POINTS → Vec2) (l : List (Fin NUM_POINTS)) (a0 : Vec2) :
    l.foldl (fun a i => vec_add a (f i)) a0
      = ⟨a0.x + (l.map (fun i => (f i).x)).sum, a0.y + (l.map (fun i => (f i).y)).sum⟩ := by
  induction l generalizing a0 with
  | nil => simp
  | cons i t ih =>
    rw [List.foldl_cons, ih]
    simp only [vec_add, List.map_cons, List.sum_cons]
    ext <;> simp <;> ring

theorem ring_cos_sum : ∑ j : Fin NUM_POINTS, Real.cos (ring_angle j) = 0 := by
  unfold ring_angle
  rw [Fin.sum_univ_eq_sum_range (fun k => Real.cos ((k : ℝ) / 24 * 2 * Real.pi)) 24,
    show (24 : ℕ) = 12 + 12 by norm_num, Finset.sum_range_add]
  have h : ∀ x : ℕ, Real.cos (((12 + x : ℕ) : ℝ) / 24 * 2 * Real.pi)
      = - Real.cos ((x : ℝ) / 24 * 2 * Real.pi) := by
    intro x
    rw [← Real.cos_add_pi]
    congr 1
    push_cast
    ring
  simp only [h, Finset.sum_neg_distrib]
  ring

theorem ring_sin_sum : ∑ j : Fin NUM_POINTS, Real.sin (ring_angle j) = 0 := by
  unfold ring_angle
  rw [Fin.sum_univ_eq_sum_range (fun k => Real.sin ((k : ℝ) / 24 * 2 * Real.pi)) 24,
    show (24 : ℕ) = 12 + 12 by norm_num, Finset.sum_range_add]
  have h : ∀ x : ℕ, Real.sin (((12 + x : ℕ) : ℝ) / 24 * 2 * Real.pi)
      = - Real.sin ((x : ℝ) / 24 * 2 * Real.pi) := by
    intro x
    rw [← Real.sin_add_pi]
    congr 1
    push_cast
    ring
  simp only [h, Finset.sum_neg_distrib]
  ring

/-- The wobble loop and the internal force loop write no position. -/
theorem forces_pos (c : Point) (dt : ℝ) (pts : Fin NUM_POINTS → Point) (j : Fin NUM_POINTS) :
    (((List.finRange NUM_POINTS).foldl (internal_forces_step c)
        ((List.finRange NUM_POINTS).foldl (apply_slime_wobble_step dt) pts)) j).pos
      = (pts j).pos := by
  refine foldl_inv (fun q : Fin NUM_POINTS → Point => (q j).pos = (pts j).pos) _ ?_ _ _
    (foldl_inv (fun q : Fin NUM_POINTS → Point => (q j).pos = (pts j).pos) _ ?_ _ _ rfl)
  · intro q i hq
    show (internal_forces_step c q i j).pos = (pts j).pos
    unfold internal_forces_step
    by_cases h : j = i
    · subst h; rw [Function.update_same, internal_forces_point_pos]; exact hq
    · rw [Function.update_noteq h]; exact hq
  · intro q i hq
    show (apply_slime_wobble_step dt q i j).pos = (pts j).pos
    unfold apply_slime_wobble_step
    by_cases h : j = i
    · subst h; simp only [Function.update_same, apply_force_to_point_pos]; exact hq
    · simp only [Function.update_noteq h]; exact hq

/-- The anchor after `update_physics` with the environment disabled: the cohesion force toward
the centroid of the boundary points, then the integration sub-step. -/
theorem update_physics_center (rand : ℕ → ℕ) (RAND_MAX : ℕ) (s : Sim) (dt : ℝ)
    (henv : s.env.enabled = false) :
    (update_physics rand RAND_MAX s dt).center =
      integrate_point s.width s.height dt (apply_force_to_point s.center
        (vec_scale (vec_sub (vec_scale ((List.finRange NUM_POINTS).foldl
          (fun a i => vec_add a (((List.finRange NUM_POINTS).foldl (internal_forces_step s.center)
            ((List.finRange NUM_POINTS).foldl (apply_slime_wobble_step dt) s.points)) i).pos)
          (vec_new 0 0)) (1 / (NUM_POINTS : ℝ))) s.center.pos) 0.1)) := by
  simp only [update_physics, apply_environmental_forces, apply_slime_wobble, henv,
    Bool.not_false, if_true, solve_constraints]

/-- With the anchor at `(40, 20)`, at rest and with zero accumulated acceleration, the 24
boundary points at equal angles on the circle of radius 12 around it, the environment disabled
and the anchor inside the margins of the stage, one `update_physics` step leaves the position of
the anchor unchanged: the centroid of the ring is the anchor, so the cohesion force vanishes. -/
theorem ring_anchor_fixed (rand : ℕ → ℕ) (RAND_MAX : ℕ) (s : Sim) (dt : ℝ)
    (hpos : ∀ j, (s.points j).pos
      = ⟨40 + 12 * Real.cos (ring_angle j), 20 + 12 * Real.sin (ring_angle j)⟩)
    (hc : s.center.pos = ⟨40, 20⟩) (hcv : s.center.vel = ⟨0, 0⟩) (hca : s.center.acc = ⟨0, 0⟩)
    (henv : s.env.enabled = false) (hw : 42 < s.width) (hh : 22 < s.height) :
    (update_physics rand RAND_MAX s dt).center.pos = s.center.pos := by
  rw [update_physics_center rand RAND_MAX s dt henv]
  have hsum : (List.finRange NUM_POINTS).foldl
      (fun a i => vec_add a (((List.finRange NUM_POINTS).foldl (internal_forces_step s.center)
        ((List.finRange NUM_POINTS).foldl (apply_slime_wobble_step dt) s.points)) i).pos)
      (vec_new 0 0) = ⟨960, 480⟩ := by
    simp only [forces_pos, hpos]
    rw [foldl_vec_add (fun i => (⟨40 + 12 * Real.cos (ring_angle i),
      20 + 12 * Real.sin (ring_angle i)⟩ : Vec2))]
    simp only [vec_new, ← Fin.sum_univ_def, Finset.sum_add_distrib, ← Finset.mul_sum,
      ring_cos_sum, ring_sin_sum]
    simp
    constructor <;> norm_num
  rw [hsum, hc]
  have hF : vec_scale (vec_sub (vec_scale (⟨960, 480⟩ : Vec2) (1 / (NUM_POINTS : ℝ))) ⟨40, 20⟩) 0.1
      = ⟨0, 0⟩ := by
    simp only [vec_scale, vec_sub]; ext <;> norm_num
  rw [hF]
  have hw' : (42 : ℝ) < (s.width : ℝ) := by exact_mod_cast hw
  have hh' : (22 : ℝ) < (s.height : ℝ) := by exact_mod_cast hh
  cases hp : s.center.pinned
  · have hq : (apply_force_to_point s.center ⟨0, 0⟩).pinned = false := by
      rw [apply_force_to_point_pinned]; exact hp
    have ha : (apply_force_to_point s.center ⟨0, 0⟩).acc = ⟨0, 0⟩ := by
      simp [apply_force_to_point, hp, hca, vec_add, vec_scale]
    have hv : (apply_force_to_point s.center ⟨0, 0⟩).vel = ⟨0, 0⟩ := by
      simp [apply_force_to_point, hp, hcv]
    have hpp : (apply_force_to_point s.center ⟨0, 0⟩).pos = ⟨40, 20⟩ := by
      rw [apply_force_to_point_pos, hc]
    have hz : vec_add (apply_force_to_point s.center ⟨0, 0⟩).vel
        (vec_scale (apply_force_to_point s.center ⟨0, 0⟩).acc dt) = ⟨0, 0⟩ := by
      rw [ha, hv]; simp [vec_add, vec_scale]
    have key := integrate_point_noclamp s.width s.height dt _ hq
    rw [hz, hpp] at key
    have e : vec_add (⟨40, 20⟩ : Vec2) (vec_scale (vec_scale ⟨0, 0⟩ FRICTION) dt) = ⟨40, 20⟩ := by
      simp [vec_add, vec_scale]
    rw [e] at key
    exact (key (by rw [vec_len_zero]; unfold MAX_VELOCITY; norm_num) (by norm_num)
      (by simp only; linarith) (by norm_num) (by simp only; linarith)).1
  · simp [integrate_point, apply_force_to_point, hp, hc]

/-- On `ring_sim`, one step with `dt = 1/2` raises some boundary point by at least 0.138. -/
theorem ring_step_rise :
    ∃ j, ((update_physics (fun _ => 0) 1 ring_sim (1 / 2)).points j).pos.y
      ≥ (ring_sim.points j).pos.y + 0.138 := by
  have hsum := ring_step_sum
  by_contra hcon
  push_neg at hcon
  have hlt : sum_pos_y (update_physics (fun _ => 0) 1 ring_sim (1 / 2)).points
      < ∑ j : Fin NUM_POINTS, ((ring_sim.points j).pos.y + 0.138) := by
    unfold sum_pos_y
    exact Finset.sum_lt_sum_of_nonempty Finset.univ_nonempty (fun j _ => hcon j)
  rw [Finset.sum_add_distrib] at hlt
  simp only [Finset.sum_const, Finset.card_univ, Fintype.card_fin, nsmul_eq_mul] at hlt
  rw [hsum] at hlt
  unfold sum_pos_y at hlt
  norm_num at hlt

/-- Claim C9, amended: with the anchor at `(40, 20)`, at rest and with zero accumulated
acceleration, the 24 boundary points at equal angles on the circle of radius 12 around it, the
environment disabled and the anchor inside the margins of the stage, one `update_physics` step
leaves the position of the anchor equal to its starting position, for every `dt` (the centroid
of the ring is the anchor, so the cohesion force vanishes). The boundary points are not all left
in place: on `ring_sim` (this scenario on the 80 x 40 stage, with masses 0.5 and noise phases -1)
one step with `dt = 1/2` raises the sum of the ordinates of the boundary points by 3.312, and
some boundary point ends at least 0.138 above its starting position. -/
theorem ring_anchor_steady (rand : ℕ → ℕ) (RAND_MAX : ℕ) (s : Sim) (dt : ℝ)
    (hpos : ∀ j, (s.points j).pos
      = ⟨40 + 12 * Real.cos (ring_angle j), 20 + 12 * Real.sin (ring_angle j)⟩)
    (hc : s.center.pos = ⟨40, 20⟩) (hcv : s.center.vel = ⟨0, 0⟩) (hca : s.center.acc = ⟨0, 0⟩)
    (henv : s.env.enabled = false) (hw : 42 < s.width) (hh : 22 < s.height) :
    (update_physics rand RAND_MAX s dt).center.pos = s.center.pos ∧
    sum_pos_y (update_physics (fun _ => 0) 1 ring_sim (1 / 2)).points
      = sum_pos_y ring_sim.points + 3.312 ∧
    ∃ j, ((update_physics (fun _ => 0) 1 ring_sim (1 / 2)).points j).pos.y
      ≥ (ring_sim.points j).pos.y + 0.138 :=
  ⟨ring_anchor_fixed rand RAND_MAX s dt hpos hc hcv hca henv hw hh, ring_step_sum,
    ring_step_rise⟩

/-- Witness of `ring_anchor_steady` on `ring_sim` with `dt = 1/2`. -/
theorem ring_anchor_steady_witness :
    (update_physics (fun _ => 0) 1 ring_sim (1 / 2)).center.pos = ring_sim.center.pos :=
  (ring_anchor_steady (fun _ => 0) 1 ring_sim (1 / 2) (fun _ => rfl) rfl rfl rfl rfl
    (by decide) (by decide)).1

/-- Claim C9 fails as written: on `ring_sim` (the scenario on the 80 x 40 stage, masses 0.5,
noise phases -1) one `update_physics` step with `dt = 1/2` raises the sum of the ordinates of the
boundary points by 3.312, so some boundary point ends at least 0.138 above its starting
position. -/
theorem ring_not_steady :
    (∀ j, (ring_sim.points j).pos
        = ⟨40 + 12 * Real.cos (ring_angle j), 20 + 12 * Real.sin (ring_angle j)⟩ ∧
      (ring_sim.points j).vel = ⟨0, 0⟩ ∧ (ring_sim.points j).acc = ⟨0, 0⟩) ∧
    ring_sim.center.pos = ⟨40, 20⟩ ∧ ring_sim.center.vel = ⟨0, 0⟩ ∧
    ring_sim.center.acc = ⟨0, 0⟩ ∧ ring_sim.env.enabled = false ∧ (0 : ℝ) ≤ 1 / 2 ∧
    sum_pos_y (update_physics (fun _ => 0) 1 ring_sim (1 / 2)).points
      = sum_pos_y ring_sim.points + 3.312 ∧
    (∃ j, ((update_physics (fun _ => 0) 1 ring_sim (1 / 2)).points j).pos.y
      ≥ (ring_sim.points j).pos.y + 0.138) ∧
    ¬ (∀ j, ((update_physics (fun _ => 0) 1 ring_sim (1 / 2)).points j).pos
      = (ring_sim.points j).pos) := by
  have hsum := ring_step_sum
  have hex : ∃ j, ((update_physics (fun _ => 0) 1 ring_sim (1 / 2)).points j).pos.y
      ≥ (ring_sim.points j).pos.y + 0.138 := by
    by_contra hcon
    push_neg at hcon
    have hlt : sum_pos_y (update_physics (fun _ => 0) 1 ring_sim (1 / 2)).points
        < ∑ j : Fin NUM_POINTS, ((ring_sim.points j).pos.y + 0.138) := by
      unfold sum_pos_y
      exact Finset.sum_lt_sum_of_nonempty Finset.univ_nonempty (fun j _ => hcon j)
    rw [Finset.sum_add_distrib] at hlt
    simp only [Finset.sum_const, Finset.card_univ, Fintype.card_fin, nsmul_eq_mul] at hlt
    rw [hsum] at hlt
    unfold sum_pos_y at hlt
    norm_num at hlt
  refine ⟨fun j => ⟨rfl, rfl, rfl⟩, rfl, rfl, rfl, rfl, by norm_num, hsum, hex, ?_⟩
  intro hall
  obtain ⟨j, hj⟩ := hex
  rw [hall j] at hj
  linarith

/-! ## C11: applying a force to one point -/

/-- Claim C11. `apply_force_to_point` leaves a pinned point entirely unchanged; for a point that
is not pinned it replaces `acc` by `acc + force * (1 / mass)` and leaves the position, the
previous position, the velocity, the mass, the rest angle, the noise phase and the pinned flag
unchanged. -/
theorem apply_force_to_point_spec (p : Point) (f : Vec2) :
    (p.pinned = true → apply_force_to_point p f = p) ∧
    (p.pinned = false →
      (apply_force_to_point p f).acc = vec_add p.acc (vec_scale f (1 / p.mass)) ∧
      (apply_force_to_point p f).pos = p.pos ∧
      (apply_force_to_point p f).old_pos = p.old_pos ∧
      (apply_force_to_point p f).vel = p.vel ∧
      (apply_force_to_point p f).mass = p.mass ∧
      (apply_force_to_point p f).rest_angle = p.rest_angle ∧
      (apply_force_to_point p f).noise_phase = p.noise_phase ∧
      (apply_force_to_point p f).pinned = p.pinned) := by
  constructor
  · intro h
    simp [apply_force_to_point, h]
  · intro h
    simp [apply_force_to_point, h]

/-- Witness of `apply_force_to_point_spec`: on the free point `sample_point` and on its pinned
copy. -/
theorem apply_force_to_point_spec_witness :
    apply_force_to_point { sample_point with pinned := true } ⟨1, 0⟩
      = { sample_point with pinned := true } ∧
    (apply_force_to_point sample_point ⟨1, 0⟩).acc
      = vec_add sample_point.acc (vec_scale ⟨1, 0⟩ (1 / sample_point.mass)) :=
  ⟨(apply_force_to_point_spec { sample_point with pinned := true } ⟨1, 0⟩).1 rfl,
   ((apply_force_to_point_spec sample_point ⟨1, 0⟩).2 rfl).1⟩

/-! ## C17: normalisation -/

theorem vec_len_pos_normalize (v : Vec2) (h : vec_len v > 0.01) :
    vec_len (vec_scale v (1 / vec_len v)) = 1 := by
  have hp : 0 < vec_len v := lt_trans (by norm_num) h
  rw [vec_len_scale, abs_of_pos (one_div_pos.mpr hp), one_div, inv_mul_cancel₀ hp.ne']

/-- Claim C17. If the length of `v` is at most 0.01, `vec_normalize v` is the zero vector;
otherwise it is `v * (1 / |v|)`, the divisor `|v|` is not zero, the result has length 1 and it is
`v` scaled by a positive factor (the same direction as `v`). -/
theorem vec_normalize_spec (v : Vec2) :
    (vec_len v ≤ 0.01 → vec_normalize v = vec_new 0 0) ∧
    (vec_len v > 0.01 →
      vec_len v ≠ 0 ∧
      vec_normalize v = vec_scale v (1 / vec_len v) ∧
      0 < 1 / vec_len v ∧
      vec_len (vec_normalize v) = 1) := by
  constructor
  · intro h
    simp [vec_normalize, not_lt.mpr h]
  · intro h
    have hp : 0 < vec_len v := lt_trans (by norm_num) h
    have hn : vec_normalize v = vec_scale v (1 / vec_len v) := by
      simp [vec_normalize, h]
    refine ⟨hp.ne', hn, one_div_pos.mpr hp, ?_⟩
    rw [hn]
    exact vec_len_pos_normalize v h

theorem vec_len_three_four : vec_len ⟨3, 4⟩ = 5 := by
  simp only [vec_len]
  rw [show ((3 : ℝ) * 3 + 4 * 4) = 5 ^ 2 by norm_num]
  exact Real.sqrt_sq (by norm_num)

/-- Witness of `vec_normalize_spec` on the vectors `(3, 4)` and `(0, 0)`. -/
theorem vec_normalize_spec_witness :
    vec_len (vec_normalize ⟨3, 4⟩) = 1 ∧ vec_normalize ⟨0, 0⟩ = vec_new 0 0 :=
  ⟨((vec_normalize_spec ⟨3, 4⟩).2 (by rw [vec_len_three_four]; norm_num)).2.2.2,
   (vec_normalize_spec ⟨0, 0⟩).1 (by rw [(vec_len_eq_zero _).mpr rfl]; norm_num)⟩

/-! ## C15: the soft tether -/

theorem vec_len_sub_scaled (a b : Vec2) (k : ℝ) :
    vec_len (vec_sub a (vec_add b (vec_scale (vec_sub a b) k))) = |1 - k| * vec_len (vec_sub a b) := by
  rw [← vec_len_scale]
  congr 1
  ext <;> simp [vec_sub, vec_add, vec_scale] <;> ring

/-- Claim C15. For a boundary point that is not pinned, at distance `d` from the anchor, the
soft tether of `solve_constraints` leaves the ring unchanged when `d ≤ 21.6`; when `d > 21.6` it
moves the point along the vector to the anchor by a fraction `k` of that vector with
`0 < k < 1`, so that the new distance is `0.85 * d + 2.16`, which is positive and strictly smaller
than `d`. In both cases the distance to the anchor does not increase. -/
theorem tether_correction_spec (c : Point) (pts : Fin NUM_POINTS → Point) (i : Fin NUM_POINTS)
    (hp : (pts i).pinned = false) :
    (anchor_dist c pts i ≤ 21.6 → tether_correction c pts i = pts) ∧
    (anchor_dist c pts i > 21.6 →
      ∃ k : ℝ, 0 < k ∧ k < 1 ∧
        (tether_correction c pts i i).pos
          = vec_add (pts i).pos (vec_scale (vec_sub c.pos (pts i).pos) k) ∧
        anchor_dist c (tether_correction c pts i) i = 0.85 * anchor_dist c pts i + 2.16 ∧
        0 < anchor_dist c (tether_correction c pts i) i ∧
        anchor_dist c (tether_correction c pts i) i < anchor_dist c pts i) ∧
    anchor_dist c (tether_correction c pts i) i ≤ anchor_dist c pts i := by
  have hlow : anchor_dist c pts i ≤ 21.6 → tether_correction c pts i = pts := by
    intro h
    unfold anchor_dist at h
    have hn : ¬ (vec_len (vec_sub c.pos (pts i).pos) > RADIUS * 1.2 * 1.5 ∧
        vec_len (vec_sub c.pos (pts i).pos) > 0.01) := by
      intro hh
      have := hh.1
      unfold RADIUS at this
      linarith
    simp only [tether_correction]
    rw [if_neg hn]
  have hhigh : anchor_dist c pts i > 21.6 →
      ∃ k : ℝ, 0 < k ∧ k < 1 ∧
        (tether_correction c pts i i).pos
          = vec_add (pts i).pos (vec_scale (vec_sub c.pos (pts i).pos) k) ∧
        anchor_dist c (tether_correction c pts i) i = 0.85 * anchor_dist c pts i + 2.16 ∧
        0 < anchor_dist c (tether_correction c pts i) i ∧
        anchor_dist c (tether_correction c pts i) i < anchor_dist c pts i := by
    intro h
    have hd : 0 < anchor_dist c pts i := lt_trans (by norm_num) h
    have hc : vec_len (vec_sub c.pos (pts i).pos) > RADIUS * 1.2 * 1.5 ∧
        vec_len (vec_sub c.pos (pts i).pos) > 0.01 := by
      unfold anchor_dist at h
      unfold RADIUS
      constructor <;> linarith
    have hk0 : 0 < (anchor_dist c pts i - RADIUS * 1.2) / anchor_dist c pts i * 0.15 := by
      apply mul_pos (div_pos _ hd) (by norm_num)
      unfold RADIUS; linarith
    have hk1 : (anchor_dist c pts i - RADIUS * 1.2) / anchor_dist c pts i * 0.15 < 1 := by
      have : (anchor_dist c pts i - RADIUS * 1.2) / anchor_dist c pts i < 1 := by
        rw [div_lt_one hd]
        unfold RADIUS; linarith
      linarith
    have hpos : (tether_correction c pts i i).pos
        = vec_add (pts i).pos (vec_scale (vec_sub c.pos (pts i).pos)
            ((anchor_dist c pts i - RADIUS * 1.2) / anchor_dist c pts i * 0.15)) := by
      simp only [tether_correction]
      rw [if_pos hc]
      simp [set_pos_unless_pinned, hp, anchor_dist]
    have hnew : anchor_dist c (tether_correction c pts i) i
        = 0.85 * anchor_dist c pts i + 2.16 := by
      conv_lhs => unfold anchor_dist
      rw [hpos, vec_len_sub_scaled, abs_of_pos (by linarith)]
      change _ * anchor_dist c pts i = _
      unfold RADIUS
      field_simp
      ring
    refine ⟨_, hk0, hk1, hpos, hnew, ?_, ?_⟩
    · rw [hnew]; linarith
    · rw [hnew]; linarith
  refine ⟨hlow, hhigh, ?_⟩
  by_cases h : anchor_dist c pts i ≤ 21.6
  · rw [hlow h]
  · obtain ⟨_, _, _, _, _, _, hlt⟩ := hhigh (not_le.mp h)
    exact hlt.le

theorem line_anchor_dist (c : ℝ) (x : Fin NUM_POINTS → ℝ) (i : Fin NUM_POINTS) :
    anchor_dist (line_point c) (line_cfg x) i = |c - x i| := vec_len_line _ _

/-- Witness of `tether_correction_spec`: the anchor at abscissa 40 and point 0 of `ladder_cfg`,
which is 40 away from it. -/
theorem tether_correction_spec_witness :
    anchor_dist (line_point 40) (tether_correction (line_point 40) ladder_cfg 0) 0
      = 0.85 * anchor_dist (line_point 40) ladder_cfg 0 + 2.16 := by
  obtain ⟨k, _, _, _, h, _⟩ := (tether_correction_spec (line_point 40) ladder_cfg 0 rfl).2.1
    (by unfold ladder_cfg; rw [line_anchor_dist]; norm_num)
  exact h

/-! ## C16: rotation force -/

theorem foldl_update_all (g : Fin NUM_POINTS → Point → Point) (pts : Fin NUM_POINTS → Point)
    (j : Fin NUM_POINTS) :
    ((List.finRange NUM_POINTS).foldl (fun pts i => Function.update pts i (g i (pts i))) pts) j
      = g j (pts j) := by
  rw [foldl_update_map g _ (List.nodup_finRange _)]
  simp

theorem vec_len_tangent (r : Vec2) : vec_len (vec_new (-r.y) r.x) = vec_len r := by
  unfold vec_len vec_new
  congr 1
  ring

/-- Claim C16. `apply_rotation_force` applies to boundary point `j` the force `rotation_force`.
When the offset `r` of the point from the anchor is longer than 0.01, that force has zero dot
product with `r` and magnitude `|w|`; for every offset the force for `-w` is the opposite of the
force for `w`; and when `|r| ≤ 0.01` the force is the zero vector. -/
theorem rotation_force_spec (s : Sim) (w : ℝ) (j : Fin NUM_POINTS) :
    (apply_rotation_force s w).points j
      = apply_force_to_point (s.points j) (rotation_force w s.center (s.points j)) ∧
    (vec_len (vec_sub (s.points j).pos s.center.pos) > 0.01 →
      vec_dot (rotation_force w s.center (s.points j)) (vec_sub (s.points j).pos s.center.pos) = 0 ∧
      vec_len (rotation_force w s.center (s.points j)) = |w|) ∧
    rotation_force (-w) s.center (s.points j)
      = vec_scale (rotation_force w s.center (s.points j)) (-1) ∧
    (vec_len (vec_sub (s.points j).pos s.center.pos) ≤ 0.01 →
      rotation_force w s.center (s.points j) = vec_new 0 0) := by
  refine ⟨?_, ?_, ?_, ?_⟩
  · unfold apply_rotation_force
    simp only
    exact foldl_update_all
      (fun _ p => apply_force_to_point p (rotation_force w s.center p)) s.points j
  · intro h
    have ht : vec_len (vec_new (-(vec_sub (s.points j).pos s.center.pos).y)
        (vec_sub (s.points j).pos s.center.pos).x) > 0.01 := by
      rw [vec_len_tangent]; exact h
    constructor
    · simp only [rotation_force, vec_normalize, if_pos ht]
      simp only [vec_dot, vec_scale, vec_new]
      ring
    · simp only [rotation_force, vec_normalize, if_pos ht]
      rw [vec_len_scale, vec_len_pos_normalize _ ht, mul_one]
  · simp only [rotation_force]
    ext <;> simp [vec_scale]
  · intro h
    have ht : ¬ vec_len (vec_new (-(vec_sub (s.points j).pos s.center.pos).y)
        (vec_sub (s.points j).pos s.center.pos).x) > 0.01 := by
      rw [vec_len_tangent]; exact not_lt.mpr h
    simp only [rotation_force, vec_normalize, if_neg ht]
    simp [vec_scale, vec_new]

theorem poke_sim_offset : vec_len (vec_sub (poke_sim.points 0).pos poke_sim.center.pos) = 10 := by
  rw [vec_len_sub_comm]; exact poke_sim_dist

/-- Witness of `rotation_force_spec` on `poke_sim` with angular velocity 0.8. -/
theorem rotation_force_spec_witness :
    vec_len (rotation_force 0.8 poke_sim.center (poke_sim.points 0)) = |0.8| :=
  ((rotation_force_spec poke_sim 0.8 0).2.1 (by rw [poke_sim_offset]; norm_num)).2

/-! ## C13: radial force -/

/-- Claim C13, as stated, fails: in `poke_sim` boundary point 0 is at distance 10 from the
anchor, and for `strength = 4` the radial force on it has magnitude 4, not `4 / 10`. -/
theorem radial_force_magnitude_not_divided :
    vec_len (vec_sub (poke_sim.points 0).pos poke_sim.center.pos) = 10 ∧
    vec_len (radial_force 4 poke_sim.center (poke_sim.points 0)) = 4 ∧
    vec_len (radial_force 4 poke_sim.center (poke_sim.points 0))
      ≠ |4| / vec_len (vec_sub (poke_sim.points 0).pos poke_sim.center.pos) := by
  have hd : vec_len (vec_sub (poke_sim.points 0).pos poke_sim.center.pos) = 10 := by
    simp only [poke_sim, poke_target, vec_sub, vec_len]
    rw [show ((110:ℝ) - 100) * (110 - 100) + (50 - 50) * (50 - 50) = 10 ^ 2 by norm_num]
    exact Real.sqrt_sq (by norm_num)
  have hf : vec_len (radial_force 4 poke_sim.center (poke_sim.points 0)) = 4 := by
    simp only [radial_force]
    rw [vec_len_scale, hd, abs_of_pos (by norm_num)]
    norm_num
  refine ⟨hd, hf, ?_⟩
  rw [hf, hd]
  norm_num

/-- Claim C13, amended. `apply_radial_force` applies to a boundary point at distance `d > 0.1`
from the anchor the force `(point - anchor) * (strength / d)`: the factor is positive for positive
strength (outward) and negative for negative strength (inward), and the magnitude of the force is
`|strength|`, whatever the distance. A point at distance `d ≤ 0.1` is left unchanged. -/
theorem radial_force_spec (s : Sim) (strength : ℝ) (j : Fin NUM_POINTS) :
    (vec_len (vec_sub (s.points j).pos s.center.pos) > 0.1 →
      (apply_radial_force s strength).points j
        = apply_force_to_point (s.points j) (radial_force strength s.center (s.points j)) ∧
      radial_force strength s.center (s.points j)
        = vec_scale (vec_sub (s.points j).pos s.center.pos)
            (strength / vec_len (vec_sub (s.points j).pos s.center.pos)) ∧
      (0 < strength → 0 < strength / vec_len (vec_sub (s.points j).pos s.center.pos)) ∧
      (strength < 0 → strength / vec_len (vec_sub (s.points j).pos s.center.pos) < 0) ∧
      vec_len (radial_force strength s.center (s.points j)) = |strength|) ∧
    (vec_len (vec_sub (s.points j).pos s.center.pos) ≤ 0.1 →
      (apply_radial_force s strength).points j = s.points j) := by
  have hloop : (apply_radial_force s strength).points j
      = radial_force_point strength s.center (s.points j) := by
    unfold apply_radial_force
    simp only
    exact foldl_update_all (fun _ p => radial_force_point strength s.center p) s.points j
  constructor
  · intro h
    have hd : 0 < vec_len (vec_sub (s.points j).pos s.center.pos) := lt_trans (by norm_num) h
    refine ⟨?_, rfl, fun hs => div_pos hs hd, fun hs => div_neg_of_neg_of_pos hs hd, ?_⟩
    · rw [hloop]
      simp only [radial_force_point, if_pos h]
    · simp only [radial_force]
      rw [vec_len_scale, abs_div, abs_of_pos hd, div_mul_cancel₀ _ hd.ne']
  · intro h
    rw [hloop]
    simp only [radial_force_point, if_neg (not_lt.mpr h)]

/-- Witness of `radial_force_spec` on `poke_sim` with strength 4. -/
theorem radial_force_spec_witness :
    vec_len (radial_force 4 poke_sim.center (poke_sim.points 0)) = |4| :=
  ((radial_force_spec poke_sim 4 0).1 (by rw [poke_sim_offset]; norm_num)).2.2.2.2

/-! ## C14: the neighbour correction -/

theorem neighbour_correction_free (pts : Fin NUM_POINTS → Point) (i : Fin NUM_POINTS)
    (hi : (pts i).pinned = false) (hpv : (pts (prevIdx i)).pinned = false)
    (hd : pair_dist pts i > 0.01) :
    (neighbour_correction pts i i).pos
      = vec_add (pts i).pos (vec_scale (vec_sub (pts (prevIdx i)).pos (pts i).pos)
          ((pair_dist pts i - rest_len) / pair_dist pts i * 0.2)) ∧
    (neighbour_correction pts i (prevIdx i)).pos
      = vec_sub (pts (prevIdx i)).pos (vec_scale (vec_sub (pts (prevIdx i)).pos (pts i).pos)
          ((pair_dist pts i - rest_len) / pair_dist pts i * 0.2)) := by
  have hne := prevIdx_ne i
  unfold pair_dist at hd ⊢
  simp only [neighbour_correction, if_pos hd]
  constructor
  · simp [set_pos_unless_pinned, hi, hpv, Function.update_noteq hne, Function.update_noteq hne.symm]
  · simp [set_pos_unless_pinned, hi, hpv, Function.update_noteq hne, Function.update_noteq hne.symm]

theorem correction_len (δ : Vec2) (r : ℝ) (hd : 0 < vec_len δ) :
    vec_len (vec_scale δ ((vec_len δ - r) / vec_len δ * 0.2)) = 0.2 * |vec_len δ - r| := by
  rw [vec_len_scale, abs_mul, abs_div, abs_of_pos hd, abs_of_pos (by norm_num : (0:ℝ) < 0.2)]
  field_simp
  ring

theorem neighbour_correction_sep (pts : Fin NUM_POINTS → Point) (i : Fin NUM_POINTS)
    (hi : (pts i).pinned = false) (hpv : (pts (prevIdx i)).pinned = false)
    (hd : pair_dist pts i > 0.01) :
    pair_dist (neighbour_correction pts i) i
      = pair_dist pts i - 0.4 * (pair_dist pts i - rest_len) := by
  obtain ⟨h1, h2⟩ := neighbour_correction_free pts i hi hpv hd
  have hr := rest_len_bounds
  have hp : 0 < pair_dist pts i := lt_trans (by norm_num) hd
  conv_lhs => unfold pair_dist
  rw [h1, h2]
  have e : vec_sub (vec_sub (pts (prevIdx i)).pos
        (vec_scale (vec_sub (pts (prevIdx i)).pos (pts i).pos)
          ((pair_dist pts i - rest_len) / pair_dist pts i * 0.2)))
      (vec_add (pts i).pos (vec_scale (vec_sub (pts (prevIdx i)).pos (pts i).pos)
          ((pair_dist pts i - rest_len) / pair_dist pts i * 0.2)))
      = vec_scale (vec_sub (pts (prevIdx i)).pos (pts i).pos)
          (1 - 0.4 * ((pair_dist pts i - rest_len) / pair_dist pts i)) := by
    ext <;> simp [vec_sub, vec_add, vec_scale] <;> ring
  rw [e, vec_len_scale]
  change _ * pair_dist pts i = _
  have hk : 0 < 1 - 0.4 * ((pair_dist pts i - rest_len) / pair_dist pts i) := by
    have : (pair_dist pts i - rest_len) / pair_dist pts i < 1 := by
      rw [div_lt_one hp]; linarith
    linarith
  rw [abs_of_pos hk]
  field_simp

/-- Claim C14, as stated, fails: in `ladder_cfg` points 1 and 0 are free and 1 apart; the
correction displaces point 1 by `0.2 * |1 - rest_len|`, not by `0.1 * |1 - rest_len|`, and the
separation after the correction is `1 - 0.4 * (1 - rest_len)`, not `1 - 0.2 * (1 - rest_len)`. -/
theorem neighbour_correction_not_half :
    (ladder_cfg 1).pinned = false ∧ (ladder_cfg (prevIdx 1)).pinned = false ∧
    pair_dist ladder_cfg 1 = 1 ∧
    vec_len (vec_sub (neighbour_correction ladder_cfg 1 1).pos (ladder_cfg 1).pos)
      ≠ 0.1 * |1 - rest_len| ∧
    pair_dist (neighbour_correction ladder_cfg 1) 1 ≠ 1 - 0.2 * (1 - rest_len) := by
  have hr := rest_len_bounds
  obtain ⟨_, hd⟩ := ladder_pair
  have hgt : pair_dist ladder_cfg 1 > 0.01 := by rw [hd]; norm_num
  refine ⟨rfl, rfl, hd, ?_, ?_⟩
  · rw [(neighbour_correction_free ladder_cfg 1 rfl rfl hgt).1]
    have e : ∀ a c : Vec2, vec_sub (vec_add a c) a = c := by
      intro a c; ext <;> simp [vec_sub, vec_add]
    rw [e]
    have hl := correction_len (vec_sub (ladder_cfg (prevIdx 1)).pos (ladder_cfg 1).pos) rest_len
      (by change 0 < pair_dist ladder_cfg 1; rw [hd]; norm_num)
    change vec_len (vec_scale _ ((pair_dist ladder_cfg 1 - rest_len) / pair_dist ladder_cfg 1 * 0.2))
      = 0.2 * |pair_dist ladder_cfg 1 - rest_len| at hl
    rw [hl, hd, abs_of_neg (by linarith)]
    intro h
    linarith
  · rw [neighbour_correction_sep ladder_cfg 1 rfl rfl hgt, hd]
    intro h
    linarith

/-- Claim C14, amended. In one neighbour-spacing correction between point `i` and its
previous-index neighbour, at separation `d > 0.01` with both points not pinned, point `i` moves by
`delta * ((d - rest_len) / d * 0.2)` and the neighbour by the opposite vector, where `delta` is
the vector from point `i` to the neighbour: each point is displaced along the line joining them
by `0.2 * |d - rest_len|`, and the separation after the correction is
`d - 0.4 * (d - rest_len)`. -/
theorem neighbour_correction_spec (pts : Fin NUM_POINTS → Point) (i : Fin NUM_POINTS)
    (hi : (pts i).pinned = false) (hpv : (pts (prevIdx i)).pinned = false)
    (hd : pair_dist pts i > 0.01) :
    (neighbour_correction pts i i).pos
      = vec_add (pts i).pos (vec_scale (vec_sub (pts (prevIdx i)).pos (pts i).pos)
          ((pair_dist pts i - rest_len) / pair_dist pts i * 0.2)) ∧
    (neighbour_correction pts i (prevIdx i)).pos
      = vec_sub (pts (prevIdx i)).pos (vec_scale (vec_sub (pts (prevIdx i)).pos (pts i).pos)
          ((pair_dist pts i - rest_len) / pair_dist pts i * 0.2)) ∧
    vec_len (vec_scale (vec_sub (pts (prevIdx i)).pos (pts i).pos)
        ((pair_dist pts i - rest_len) / pair_dist pts i * 0.2))
      = 0.2 * |pair_dist pts i - rest_len| ∧
    pair_dist (neighbour_correction pts i) i
      = pair_dist pts i - 0.4 * (pair_dist pts i - rest_len) :=
  ⟨(neighbour_correction_free pts i hi hpv hd).1, (neighbour_correction_free pts i hi hpv hd).2,
   correction_len _ rest_len (lt_trans (by norm_num) hd),
   neighbour_correction_sep pts i hi hpv hd⟩

/-- Witness of `neighbour_correction_spec` on points 1 and 0 of `ladder_cfg`. -/
theorem neighbour_correction_spec_witness :
    pair_dist (neighbour_correction ladder_cfg 1) 1
      = pair_dist ladder_cfg 1 - 0.4 * (pair_dist ladder_cfg 1 - rest_len) :=
  (neighbour_correction_spec ladder_cfg 1 rfl rfl (by rw [ladder_pair.2]; norm_num)).2.2.2

/-! ## A pinned point in one physics step -/

theorem apply_force_to_point_of_pinned (p : Point) (F : Vec2) (hp : p.pinned = true) :
    apply_force_to_point p F = p := by
  simp [apply_force_to_point, hp]

theorem wobble_of_pinned (dt : ℝ) (pts : Fin NUM_POINTS → Point) (j : Fin NUM_POINTS)
    (hp : (pts j).pinned = true) :
    (List.finRange NUM_POINTS).foldl (apply_slime_wobble_step dt) pts j
      = { pts j with noise_phase := (pts j).noise_phase + dt * 2 } := by
  have h := foldl_update_all
    (fun _ p => apply_force_to_point { p with noise_phase := p.noise_phase + dt * 2 }
      (vec_new (Real.sin (p.noise_phase + dt * 2) * WOBBLE_STRENGTH)
        (Real.cos ((p.noise_phase + dt * 2) * 1.3) * WOBBLE_STRENGTH))) pts j
  simp only at h
  rw [apply_force_to_point_of_pinned _ _
    (show Point.pinned { pts j with noise_phase := (pts j).noise_phase + dt * 2 } = true from hp)] at h
  exact h

theorem internal_forces_point_of_pinned (c : Point) (a b : Vec2) (p : Point)
    (hp : p.pinned = true) :
    internal_forces_point c a b p = { p with acc := vec_add p.acc (vec_scale p.vel (-VISCOSITY)) } := by
  simp [internal_forces_point, apply_force_to_point, hp]

theorem internal_forces_of_pinned (c : Point) (pts : Fin NUM_POINTS → Point) (j : Fin NUM_POINTS)
    (hp : (pts j).pinned = true) :
    (List.finRange NUM_POINTS).foldl (internal_forces_step c) pts j
      = { pts j with acc := vec_add (pts j).acc (vec_scale (pts j).vel (-VISCOSITY)) } := by
  rw [internal_forces_fold c _ (List.nodup_finRange _), if_pos (List.mem_finRange j),
    internal_forces_point_of_pinned _ _ _ _ hp]

theorem apply_environmental_forces_of_pinned (rand : ℕ → ℕ) (RAND_MAX : ℕ) (s : Sim)
    (j : Fin NUM_POINTS) (hp : (s.points j).pinned = true) :
    (apply_environmental_forces rand RAND_MAX s).points j = s.points j := by
  unfold apply_environmental_forces
  split_ifs
  · rfl
  · simp only
    refine foldl_inv (fun q : Sim => q.points j = s.points j) _ ?_ _ _ rfl
    intro q i hq
    show (apply_environmental_forces_step rand RAND_MAX _ q i).points j = s.points j
    unfold apply_environmental_forces_step
    by_cases h : j = i
    · subst h
      split_ifs <;>
        simp only [Function.update_same] <;>
        rw [apply_force_to_point_of_pinned _ _ (by rw [hq]; exact hp)] <;> exact hq
    · split_ifs <;> simp only [Function.update_noteq h] <;> exact hq

theorem integrate_of_pinned (w h : ℤ) (dt : ℝ) (pts : Fin NUM_POINTS → Point)
    (j : Fin NUM_POINTS) (hp : (pts j).pinned = true) :
    (List.finRange NUM_POINTS).foldl (integrate_step w h dt) pts j = pts j := by
  have e := foldl_update_all (fun _ p => integrate_point w h dt p) pts j
  simp only at e
  rw [show (List.finRange NUM_POINTS).foldl (integrate_step w h dt) pts j
    = (List.finRange NUM_POINTS).foldl
        (fun pts i => Function.update pts i (integrate_point w h dt (pts i))) pts j from rfl, e]
  simp [integrate_point, hp]

theorem set_pos_unless_pinned_of_pinned (pts : Fin NUM_POINTS → Point) (k : Fin NUM_POINTS)
    (v : Vec2) (j : Fin NUM_POINTS) (hp : (pts j).pinned = true) :
    set_pos_unless_pinned pts k v j = pts j := by
  unfold set_pos_unless_pinned
  split_ifs with hk
  · by_cases h : j = k
    · subst h; simp [hp] at hk
    · rw [Function.update_noteq h]
  · rfl

theorem solve_constraints_step_of_pinned (c : Point) (pts : Fin NUM_POINTS → Point)
    (i j : Fin NUM_POINTS) (hp : (pts j).pinned = true) :
    solve_constraints_step c pts i j = pts j := by
  have h1 : neighbour_correction pts i j = pts j := by
    simp only [neighbour_correction]
    split_ifs
    · rw [set_pos_unless_pinned_of_pinned, set_pos_unless_pinned_of_pinned _ _ _ _ hp]
      rw [set_pos_unless_pinned_of_pinned _ _ _ _ hp]; exact hp
    · rfl
  have h2 : ∀ q : Fin NUM_POINTS → Point, (q j).pinned = true →
      tether_correction c q i j = q j := by
    intro q hq
    simp only [tether_correction]
    split_ifs
    · rw [set_pos_unless_pinned_of_pinned _ _ _ _ hq]
    · rfl
  unfold solve_constraints_step
  rw [h2 _ (by rw [h1]; exact hp), h1]

theorem solve_constraints_of_pinned (s : Sim) (j : Fin NUM_POINTS)
    (hp : (s.points j).pinned = true) :
    (solve_constraints s).points j = s.points j := by
  unfold solve_constraints
  simp only
  refine foldl_inv (fun pts : Fin NUM_POINTS → Point => pts j = s.points j) _ ?_ _ _ rfl
  intro pts _ hpts
  unfold solve_constraints_pass
  refine foldl_inv (fun q : Fin NUM_POINTS → Point => q j = s.points j) _ ?_ _ _ hpts
  intro q i hq
  show solve_constraints_step s.center q i j = s.points j
  rw [solve_constraints_step_of_pinned _ _ _ _ (by rw [hq]; exact hp), hq]

/-- A pinned boundary point after one `update_physics` step: only `noise_phase` and `acc` are
written, and `acc` receives the viscosity term `vel * (-VISCOSITY)` of line 315. -/
theorem update_physics_of_pinned (rand : ℕ → ℕ) (RAND_MAX : ℕ) (s : Sim) (dt : ℝ)
    (j : Fin NUM_POINTS) (hp : (s.points j).pinned = true) :
    (update_physics rand RAND_MAX s dt).points j
      = { s.points j with
          noise_phase := (s.points j).noise_phase + dt * 2,
          acc := vec_add (s.points j).acc (vec_scale (s.points j).vel (-VISCOSITY)) } := by
  have h1 := wobble_of_pinned dt s.points j hp
  have h2 := internal_forces_of_pinned s.center
    ((List.finRange NUM_POINTS).foldl (apply_slime_wobble_step dt) s.points) j (by rw [h1]; exact hp)
  rw [h1] at h2
  simp only [update_physics]
  rw [solve_constraints_of_pinned]
  · simp only
    rw [integrate_of_pinned]
    · rw [apply_environmental_forces_of_pinned]
      · simp only [apply_slime_wobble]
        exact h2
      · simp only [apply_slime_wobble]
        rw [h2]; exact hp
    · rw [apply_environmental_forces_of_pinned]
      · simp only [apply_slime_wobble]
        rw [h2]; exact hp
      · simp only [apply_slime_wobble]
        rw [h2]; exact hp
  · simp only
    rw [integrate_of_pinned]
    · rw [apply_environmental_forces_of_pinned]
      · simp only [apply_slime_wobble]
        rw [h2]; exact hp
      · simp only [apply_slime_wobble]
        rw [h2]; exact hp
    · rw [apply_environmental_forces_of_pinned]
      · simp only [apply_slime_wobble]
        rw [h2]; exact hp
      · simp only [apply_slime_wobble]
        rw [h2]; exact hp

/-- A pinned point that moves, a state no run of the program produces: in `pinned_sim` boundary
point 0 is pinned, has velocity `(1, 0)` and accumulated acceleration `(0, 0)`. One
`update_physics` step with `dt = 1` leaves its position and its velocity unchanged, and its
accumulated acceleration becomes `(-0.3, 0)`: the viscosity term of line 315 is written to `acc`
without the guard on `pinned`. -/
theorem update_physics_pinned_acc (rand : ℕ → ℕ) (RAND_MAX : ℕ) :
    (pinned_sim.points 0).pinned = true ∧
    (pinned_sim.points 0).acc = ⟨0, 0⟩ ∧
    ((update_physics rand RAND_MAX pinned_sim 1).points 0).pos = (pinned_sim.points 0).pos ∧
    ((update_physics rand RAND_MAX pinned_sim 1).points 0).vel = (pinned_sim.points 0).vel ∧
    ((update_physics rand RAND_MAX pinned_sim 1).points 0).acc = ⟨-0.3, 0⟩ ∧
    ((update_physics rand RAND_MAX pinned_sim 1).points 0).acc ≠ (pinned_sim.points 0).acc := by
  have h := update_physics_of_pinned rand RAND_MAX pinned_sim 1 0 rfl
  have ha : ((update_physics rand RAND_MAX pinned_sim 1).points 0).acc = ⟨-0.3, 0⟩ := by
    rw [h]
    simp only [pinned_sim, sample_point, vec_add, vec_scale, VISCOSITY]
    ext <;> norm_num
  refine ⟨rfl, rfl, by rw [h], by rw [h], ha, ?_⟩
  rw [ha]
  intro hc
  have := congrArg Vec2.x hc
  simp only [pinned_sim, sample_point] at this
  norm_num at this

/-! ## C18: the glyph index -/

theorem float_to_int_nonneg (x : ℝ) (h0 : 0 ≤ x) (h1 : x < 2147483648) :
    float_to_int x = some ⌊x⌋ := by
  unfold float_to_int
  rw [if_pos ⟨by linarith, h1⟩, if_pos h0]

theorem float_to_int_int (z : ℤ) (h0 : -2147483648 ≤ z) (h1 : z ≤ 2147483647) :
    float_to_int (z : ℝ) = some z := by
  have h0r : (-2147483648 : ℝ) ≤ (z : ℝ) := by exact_mod_cast h0
  have h1r : (z : ℝ) ≤ 2147483647 := by exact_mod_cast h1
  unfold float_to_int
  rw [if_pos ⟨by linarith, by linarith⟩]
  simp

theorem num_chars_val : num_chars = 11 := by
  simp [num_chars, slime_chars]

theorem clamp_int (k : ℤ) (h0 : 0 ≤ k) : clamp (k : ℝ) 0 ((10 : ℤ) : ℝ) = ((min 10 k : ℤ) : ℝ) := by
  have hk : ¬ (k : ℝ) < 0 := not_lt.mpr (by exact_mod_cast h0)
  unfold clamp
  rw [if_neg hk]
  split_ifs with h
  · have : (10 : ℤ) < k := by exact_mod_cast h
    rw [min_eq_left this.le]
  · have : k ≤ (10 : ℤ) := by exact_mod_cast not_lt.mp h
    rw [min_eq_right this]

theorem char_idx_eq (d : ℝ) (h0 : 0 ≤ d) (hfit : 0.55 * d < 2147483648) :
    char_idx d = some (min 10 ⌊0.55 * d⌋) := by
  have hx : 0 ≤ d * 0.55 := by positivity
  have hk : 0 ≤ ⌊d * 0.55⌋ := Int.floor_nonneg.mpr hx
  have hm : 0 ≤ min 10 ⌊d * 0.55⌋ := le_min (by norm_num) hk
  have hm' : min 10 ⌊d * 0.55⌋ ≤ 10 := min_le_left _ _
  unfold char_idx
  rw [float_to_int_nonneg _ hx (by linarith), num_chars_val]
  simp only [Option.bind_eq_bind, Option.some_bind]
  rw [show int_of (11 - 1) = some 10 from by simp [int_of]]
  simp only [Option.some_bind]
  rw [clamp_int _ hk, float_to_int_int _ (by linarith) (by linarith), mul_comm]

theorem foldl_add_le (t : Fin NUM_POINTS → ℝ) (B : ℝ) (ht : ∀ i, t i ≤ B)
    (l : List (Fin NUM_POINTS)) (d : ℝ) :
    l.foldl (fun density i => density + t i) d ≤ d + l.length * B := by
  induction l generalizing d with
  | nil => simp
  | cons i r ih =>
    rw [List.foldl_cons]
    refine le_trans (ih _) ?_
    rw [List.length_cons]
    push_cast
    linarith [ht i]

theorem foldl_add_const (t : Fin NUM_POINTS → ℝ) (c : ℝ) (ht : ∀ i, t i = c)
    (l : List (Fin NUM_POINTS)) (d : ℝ) :
    l.foldl (fun density i => density + t i) d = d + l.length * c := by
  induction l generalizing d with
  | nil => simp
  | cons i r ih =>
    rw [List.foldl_cons, ih, List.length_cons, ht i]
    push_cast
    ring

/-- Bounds of the density of a cell: every term of the sum has a floored divisor, and the shimmer
factor is between 0.85 and 1.15. -/
theorem cell_density_bounds (s : Sim) (x y : ℤ) :
    0 ≤ cell_density s x y ∧ cell_density s x y ≤ 6107 := by
  have hsum : 0 ≤ density_sum s x y ∧ density_sum s x y ≤ 5310 := by
    simp only [density_sum, zero_add]
    have ha0 : (0 : ℝ) ≤ 30 / (if ((x : ℝ) - s.center.pos.x) * ((x : ℝ) - s.center.pos.x)
              + (((y : ℝ) - s.center.pos.y) * 2) * (((y : ℝ) - s.center.pos.y) * 2) < 1 then 1
          else ((x : ℝ) - s.center.pos.x) * ((x : ℝ) - s.center.pos.x)
              + (((y : ℝ) - s.center.pos.y) * 2) * (((y : ℝ) - s.center.pos.y) * 2)) := by
      split_ifs with h
      · norm_num
      · exact div_nonneg (by norm_num) (by linarith [not_lt.mp h])
    have ha1 : 30 / (if ((x : ℝ) - s.center.pos.x) * ((x : ℝ) - s.center.pos.x)
              + (((y : ℝ) - s.center.pos.y) * 2) * (((y : ℝ) - s.center.pos.y) * 2) < 1 then 1
          else ((x : ℝ) - s.center.pos.x) * ((x : ℝ) - s.center.pos.x)
              + (((y : ℝ) - s.center.pos.y) * 2) * (((y : ℝ) - s.center.pos.y) * 2)) ≤ (30 : ℝ) := by
      split_ifs with h
      · norm_num
      · rw [div_le_iff₀ (by linarith [not_lt.mp h])]
        linarith [not_lt.mp h]
    have ht0 : ∀ i : Fin NUM_POINTS, (0 : ℝ) ≤ 22 /
        (if ((x : ℝ) - (s.points i).pos.x) * ((x : ℝ) - (s.points i).pos.x)
              + (((y : ℝ) - (s.points i).pos.y) * 2) * (((y : ℝ) - (s.points i).pos.y) * 2) < 0.1
          then 0.1
          else ((x : ℝ) - (s.points i).pos.x) * ((x : ℝ) - (s.points i).pos.x)
              + (((y : ℝ) - (s.points i).pos.y) * 2) * (((y : ℝ) - (s.points i).pos.y) * 2)) := by
      intro i
      split_ifs with h
      · norm_num
      · exact div_nonneg (by norm_num) (by linarith [not_lt.mp h])
    have ht1 : ∀ i : Fin NUM_POINTS, 22 /
        (if ((x : ℝ) - (s.points i).pos.x) * ((x : ℝ) - (s.points i).pos.x)
              + (((y : ℝ) - (s.points i).pos.y) * 2) * (((y : ℝ) - (s.points i).pos.y) * 2) < 0.1
          then 0.1
          else ((x : ℝ) - (s.points i).pos.x) * ((x : ℝ) - (s.points i).pos.x)
              + (((y : ℝ) - (s.points i).pos.y) * 2) * (((y : ℝ) - (s.points i).pos.y) * 2))
        ≤ (220 : ℝ) := by
      intro i
      split_ifs with h
      · norm_num
      · rw [div_le_iff₀ (by linarith [not_lt.mp h])]
        linarith [not_lt.mp h]
    constructor
    · exact le_trans ha0 (foldl_add_ge _ ht0 _ _)
    · refine le_trans (foldl_add_le _ 220 ht1 _ _) ?_
      rw [List.length_finRange]
      push_cast
      linarith
  have h1 := Real.neg_one_le_sin (s.pulse_phase + (x : ℝ) * 0.1)
  have h2 := Real.sin_le_one (s.pulse_phase + (x : ℝ) * 0.1)
  unfold cell_density
  constructor
  · exact mul_nonneg hsum.1 (by linarith)
  · nlinarith [hsum.1, hsum.2]

/-- Outside the range of `int` the conversion of line 466 is undefined: for `d = 10 ^ 10` the
product `d * 0.55` does not fit `int`. No density the renderer computes is that large
(`cell_density_bounds`). -/
theorem char_idx_undefined :
    (0 : ℝ) ≤ 10 ^ 10 ∧ char_idx (10 ^ 10) = none ∧ min 10 ⌊(0.55 : ℝ) * 10 ^ 10⌋ = 10 := by
  refine ⟨by norm_num, ?_, ?_⟩
  · unfold char_idx float_to_int
    rw [if_neg (by norm_num)]
    rfl
  · apply min_eq_left
    rw [Int.le_floor]
    norm_num

/-- The glyph index for a density `d ≥ 0` whose product with 0.55 fits `int`. -/
theorem char_idx_range (d : ℝ) (h0 : 0 ≤ d) (hfit : 0.55 * d < 2147483648) :
    char_idx d = some (min 10 ⌊0.55 * d⌋) ∧
    0 ≤ min 10 ⌊0.55 * d⌋ ∧ min 10 ⌊0.55 * d⌋ ≤ 10 ∧
    ∃ c, slime_chars.get? (min 10 ⌊0.55 * d⌋).toNat = some c := by
  have hk : 0 ≤ ⌊0.55 * d⌋ := Int.floor_nonneg.mpr (by positivity)
  have hm : 0 ≤ min 10 ⌊0.55 * d⌋ := le_min (by norm_num) hk
  have hm' : min 10 ⌊0.55 * d⌋ ≤ 10 := min_le_left _ _
  refine ⟨char_idx_eq d h0 hfit, hm, hm', ?_⟩
  have hlt : (min 10 ⌊0.55 * d⌋).toNat < slime_chars.length := by
    have : slime_chars.length = 11 := by simp [slime_chars]
    rw [this]
    omega
  exact ⟨slime_chars.get ⟨_, hlt⟩, List.get?_eq_get hlt⟩

theorem char_idx_mono (d d' : ℝ) (h : d ≤ d') :
    min 10 ⌊0.55 * d⌋ ≤ min 10 ⌊0.55 * d'⌋ :=
  min_le_min (le_refl _) (Int.floor_le_floor (by linarith))

/-- Claim C18. The density `d` that reaches line 466 is the value `cell_density s x y` that lines
442-457 compute for a grid cell; it lies between 0 and 6107. For every such density the glyph
index `clamp((int)(d * 0.55), 0, 10)` is `min(10, floor(0.55 * d))`; it lies in `0..10`, a valid
position of the 11-character ramp, and it is non-decreasing in `d`. The same holds for every real
`d ≥ 0` with `0.55 * d < 2 ^ 31`, the range on which the conversion `(int)(d * 0.55)` is
defined. -/
theorem char_idx_spec (s s' : Sim) (x y x' y' : ℤ) :
    (0 ≤ cell_density s x y ∧ cell_density s x y ≤ 6107 ∧
      char_idx (cell_density s x y) = some (min 10 ⌊0.55 * cell_density s x y⌋) ∧
      0 ≤ min 10 ⌊0.55 * cell_density s x y⌋ ∧ min 10 ⌊0.55 * cell_density s x y⌋ ≤ 10 ∧
      slime_chars.length = 11 ∧
      (∃ c, slime_chars.get? (min 10 ⌊0.55 * cell_density s x y⌋).toNat = some c) ∧
      (cell_density s x y ≤ cell_density s' x' y' →
        ∃ k k' : ℤ, char_idx (cell_density s x y) = some k ∧
          char_idx (cell_density s' x' y') = some k' ∧ k ≤ k')) ∧
    (∀ d d' : ℝ, 0 ≤ d → d ≤ d' → 0.55 * d' < 2147483648 →
      char_idx d = some (min 10 ⌊0.55 * d⌋) ∧
      0 ≤ min 10 ⌊0.55 * d⌋ ∧ min 10 ⌊0.55 * d⌋ ≤ 10 ∧
      (∃ c, slime_chars.get? (min 10 ⌊0.55 * d⌋).toNat = some c) ∧
      ∃ k k' : ℤ, char_idx d = some k ∧ char_idx d' = some k' ∧ k ≤ k') := by
  obtain ⟨hb0, hb1⟩ := cell_density_bounds s x y
  obtain ⟨hb0', hb1'⟩ := cell_density_bounds s' x' y'
  obtain ⟨h1, h2, h3, h4⟩ := char_idx_range (cell_density s x y) hb0 (by linarith)
  refine ⟨⟨hb0, hb1, h1, h2, h3, by simp [slime_chars], h4, fun hle =>
    ⟨_, _, h1, (char_idx_range (cell_density s' x' y') hb0' (by linarith)).1,
      char_idx_mono _ _ hle⟩⟩, ?_⟩
  intro d d' h0 hle hfit
  obtain ⟨g1, g2, g3, g4⟩ := char_idx_range d h0 (by linarith)
  exact ⟨g1, g2, g3, g4, _, _, g1, (char_idx_range d' (le_trans h0 hle) hfit).1,
    char_idx_mono _ _ hle⟩

/-- Witness of `char_idx_spec`: the cell `(0, 50)` of `gap_sim`, and the densities 4 and 5. -/
theorem char_idx_spec_witness :
    char_idx (cell_density gap_sim 0 50) = some (min 10 ⌊0.55 * cell_density gap_sim 0 50⌋) ∧
    char_idx 4 = some (min 10 ⌊(0.55 : ℝ) * 4⌋) :=
  ⟨(char_idx_spec gap_sim gap_sim 0 50 0 50).1.2.2.1,
   ((char_idx_spec gap_sim gap_sim 0 50 0 50).2 4 5 (by norm_num) (by norm_num)
     (by norm_num)).1⟩

/-! ## C19: the density threshold and the glyph written -/

theorem slime_chars_get (k : ℤ) (h0 : 0 ≤ k) (h1 : k ≤ 10) :
    ∃ c, slime_chars.get? k.toNat = some c ∧ (c ≠ ' ' ↔ 1 ≤ k) := by
  have hk : k = 0 ∨ k = 1 ∨ k = 2 ∨ k = 3 ∨ k = 4 ∨ k = 5 ∨ k = 6 ∨ k = 7 ∨ k = 8 ∨ k = 9
      ∨ k = 10 := by omega
  rcases hk with h | h | h | h | h | h | h | h | h | h | h <;> subst h <;>
    exact ⟨_, rfl, by decide⟩

theorem render_cell_eq (s : Sim) (x y : ℤ) (old : Char) (hx : x < 300) (hy : y < 200)
    (hd : cell_density s x y > METABALL_THRESHOLD) :
    render_cell s x y old = slime_chars.get? (min 10 ⌊0.55 * cell_density s x y⌋).toNat := by
  obtain ⟨hb0, hb1⟩ := cell_density_bounds s x y
  have hk : 0 ≤ ⌊0.55 * cell_density s x y⌋ := Int.floor_nonneg.mpr (by positivity)
  have hm : 0 ≤ min 10 ⌊0.55 * cell_density s x y⌋ := le_min (by norm_num) hk
  simp only [render_cell]
  rw [if_pos hd, char_idx_eq _ hb0 (by linarith)]
  simp only [Option.bind_eq_bind, Option.some_bind]
  rw [if_pos ⟨hy, hx⟩, if_pos hm]

theorem gap_sim_density : cell_density gap_sim 0 50 = 30 / 17.3889 + 24 * (22 / 6500) := by
  have ht : ∀ i : Fin NUM_POINTS,
      (22 : ℝ) / (if (((0 : ℤ) : ℝ) - (gap_sim.points i).pos.x) * (((0 : ℤ) : ℝ) - (gap_sim.points i).pos.x)
            + ((((50 : ℤ) : ℝ) - (gap_sim.points i).pos.y) * 2)
              * ((((50 : ℤ) : ℝ) - (gap_sim.points i).pos.y) * 2) < 0.1
        then 0.1
        else (((0 : ℤ) : ℝ) - (gap_sim.points i).pos.x) * (((0 : ℤ) : ℝ) - (gap_sim.points i).pos.x)
            + ((((50 : ℤ) : ℝ) - (gap_sim.points i).pos.y) * 2)
              * ((((50 : ℤ) : ℝ) - (gap_sim.points i).pos.y) * 2)) = 22 / 6500 := by
    intro i
    simp only [gap_sim]
    by_cases h : i = 0
    · simp only [h, if_true]
      norm_num
    · simp only [h, if_false]
      norm_num
  have hs : density_sum gap_sim 0 50 = 30 / 17.3889 + 24 * (22 / 6500) := by
    simp only [density_sum, zero_add]
    rw [foldl_add_const _ _ ht, List.length_finRange]
    simp only [gap_sim, poke_target]
    norm_num
  unfold cell_density
  rw [hs]
  have : gap_sim.pulse_phase + ((0 : ℤ) : ℝ) * 0.1 = 0 := by
    simp [gap_sim, sample_sim]
  rw [this, Real.sin_zero]
  ring

theorem foldl_fixed {α β : Type} (f : α → β → α) (a : α) (l : List β)
    (h : ∀ b ∈ l, f a b = a) : l.foldl f a = a := by
  induction l with
  | nil => rfl
  | cons b t ih =>
    rw [List.foldl_cons, h b (List.mem_cons_self _ _)]
    exact ih (fun c hc => h c (List.mem_cons_of_mem _ hc))

theorem float_to_int_ten : float_to_int 10 = some 10 := by
  have := float_to_int_int 10 (by norm_num) (by norm_num)
  simpa using this

theorem float_to_int_ninety : float_to_int 90 = some 90 := by
  have := float_to_int_int 90 (by norm_num) (by norm_num)
  simpa using this

theorem gap_sim_window : render_window gap_sim = some ⟨0, 20, 5, 95⟩ := by
  have hl : List.finRange NUM_POINTS = 0 :: 1 :: (List.finRange NUM_POINTS).tail.tail := by
    decide
  have hrest : ∀ i ∈ (List.finRange NUM_POINTS).tail.tail, i ≠ (0 : Fin NUM_POINTS) := by
    decide
  have h0 : window_step gap_sim.points (some ⟨100, 0, 100, 0⟩) 0 = some ⟨10, 10, 90, 90⟩ := by
    norm_num [window_step, gap_sim, float_to_int_ten, float_to_int_ninety]
  have h1 : window_step gap_sim.points (some ⟨10, 10, 90, 90⟩) 1 = some ⟨10, 10, 10, 90⟩ := by
    norm_num [window_step, gap_sim, float_to_int_ten, float_to_int_ninety]
  have h2 : ∀ i ∈ (List.finRange NUM_POINTS).tail.tail,
      window_step gap_sim.points (some ⟨10, 10, 10, 90⟩) i = some ⟨10, 10, 10, 90⟩ := by
    intro i hi
    have hne := hrest i hi
    norm_num [window_step, gap_sim, hne]
  have hfold : (List.finRange NUM_POINTS).foldl (window_step gap_sim.points)
      (some ⟨gap_sim.width, 0, gap_sim.height, 0⟩) = some ⟨10, 10, 10, 90⟩ := by
    rw [hl, List.foldl_cons, List.foldl_cons]
    rw [show gap_sim.width = 100 from rfl, show gap_sim.height = 100 from rfl, h0, h1]
    exact foldl_fixed _ _ _ h2
  have c1 : float_to_int (clamp (((0 : ℤ)) : ℝ) 0 ((99 : ℤ) : ℝ)) = some 0 := by
    have e : clamp (((0 : ℤ)) : ℝ) 0 ((99 : ℤ) : ℝ) = ((0 : ℤ) : ℝ) := by norm_num [clamp]
    rw [e]
    exact float_to_int_int 0 (by norm_num) (by norm_num)
  have c2 : float_to_int (clamp (((20 : ℤ)) : ℝ) 0 ((99 : ℤ) : ℝ)) = some 20 := by
    have e : clamp (((20 : ℤ)) : ℝ) 0 ((99 : ℤ) : ℝ) = ((20 : ℤ) : ℝ) := by norm_num [clamp]
    rw [e]
    exact float_to_int_int 20 (by norm_num) (by norm_num)
  have c3 : float_to_int (clamp (((5 : ℤ)) : ℝ) 0 ((99 : ℤ) : ℝ)) = some 5 := by
    have e : clamp (((5 : ℤ)) : ℝ) 0 ((99 : ℤ) : ℝ) = ((5 : ℤ) : ℝ) := by norm_num [clamp]
    rw [e]
    exact float_to_int_int 5 (by norm_num) (by norm_num)
  have c4 : float_to_int (clamp (((95 : ℤ)) : ℝ) 0 ((99 : ℤ) : ℝ)) = some 95 := by
    have e : clamp (((95 : ℤ)) : ℝ) 0 ((99 : ℤ) : ℝ) = ((95 : ℤ) : ℝ) := by norm_num [clamp]
    rw [e]
    exact float_to_int_int 95 (by norm_num) (by norm_num)
  unfold render_window
  rw [hfold]
  simp only [Option.bind_eq_bind, Option.some_bind]
  rw [show int_of (10 - 10) = some 0 from by simp [int_of],
    show int_of (10 + 10) = some 20 from by simp [int_of],
    show int_of (10 - 5) = some 5 from by simp [int_of],
    show int_of (90 + 5) = some 95 from by simp [int_of],
    show int_of (gap_sim.width - 1) = some 99 from by simp [int_of, gap_sim],
    show int_of (gap_sim.height - 1) = some 99 from by simp [int_of, gap_sim]]
  simp only [Option.some_bind]
  rw [c1, c2, c3, c4]
  rfl

/-- Claim C19, as stated, fails: in `gap_sim` the cell `(0, 50)` is in the sampling window and
its density, about 1.806, is above the threshold 1.8, but `0.55 * density < 1`, so the glyph
written is the ramp character of index 0, the space. -/
theorem render_cell_blank_above_threshold :
    in_window gap_sim 0 50 ∧
    cell_density gap_sim 0 50 > METABALL_THRESHOLD ∧
    render_cell gap_sim 0 50 '@' = some ' ' := by
  have hd := gap_sim_density
  have hgt : cell_density gap_sim 0 50 > METABALL_THRESHOLD := by
    rw [hd]; unfold METABALL_THRESHOLD; norm_num
  refine ⟨⟨_, gap_sim_window, ?_, ?_, ?_, ?_⟩, hgt, ?_⟩
  · norm_num
  · norm_num
  · norm_num
  · norm_num
  · rw [render_cell_eq gap_sim 0 50 '@' (by norm_num) (by norm_num) hgt]
    have hf : ⌊0.55 * cell_density gap_sim 0 50⌋ = 0 := by
      rw [Int.floor_eq_zero_iff, hd]
      constructor <;> norm_num
    rw [hf]
    rfl

/-- Claim C19, amended. For every grid cell `(x, y)` with `x < 300` and `y < 200` (the size of the
glyph grid): when the density is above `METABALL_THRESHOLD = 1.8` the renderer writes the ramp
character of index `min(10, floor(0.55 * density))`, which is non-blank exactly when
`0.55 * density ≥ 1` (for a density between 1.8 and `1 / 0.55`, about 1.818, it writes the space of
ramp index 0); when the density is at or below the threshold the cell is not written and keeps its
content, the blank of lines 413-418. -/
theorem render_cell_spec (s : Sim) (x y : ℤ) (old : Char) (hx : x < 300) (hy : y < 200) :
    (cell_density s x y > METABALL_THRESHOLD →
      ∃ c, render_cell s x y old = some c ∧
        slime_chars.get? (min 10 ⌊0.55 * cell_density s x y⌋).toNat = some c ∧
        (c ≠ ' ' ↔ 1 ≤ 0.55 * cell_density s x y)) ∧
    (cell_density s x y ≤ METABALL_THRESHOLD → render_cell s x y old = some old) := by
  constructor
  · intro hd
    obtain ⟨hb0, _⟩ := cell_density_bounds s x y
    have hk : 0 ≤ ⌊0.55 * cell_density s x y⌋ := Int.floor_nonneg.mpr (by positivity)
    obtain ⟨c, hc, hne⟩ := slime_chars_get (min 10 ⌊0.55 * cell_density s x y⌋)
      (le_min (by norm_num) hk) (min_le_left _ _)
    refine ⟨c, by rw [render_cell_eq s x y old hx hy hd, hc], hc, ?_⟩
    rw [hne, le_min_iff]
    constructor
    · intro h
      have := Int.le_floor.mp h.2
      exact_mod_cast this
    · intro h
      exact ⟨by norm_num, Int.le_floor.mpr (by exact_mod_cast h)⟩
  · intro hd
    simp only [render_cell]
    rw [if_neg (not_lt.mpr hd)]

/-- Witness of `render_cell_spec` on the cell `(0, 50)` of `gap_sim`. -/
theorem render_cell_spec_witness :
    ∃ c, render_cell gap_sim 0 50 ' ' = some c ∧
      slime_chars.get? (min 10 ⌊0.55 * cell_density gap_sim 0 50⌋).toNat = some c ∧
      (c ≠ ' ' ↔ 1 ≤ 0.55 * cell_density gap_sim 0 50) :=
  (render_cell_spec gap_sim 0 50 ' ' (by norm_num) (by norm_num)).1
    (by rw [gap_sim_density]; unfold METABALL_THRESHOLD; norm_num)

/-! ## C20: the rainbow hue index and the pulse phase -/

theorem rainbow_hue_eq (pulse density : ℝ) (h0 : 0 ≤ pulse * 50 + density * 20)
    (hfit : pulse * 50 + density * 20 < 2147483648) :
    rainbow_hue pulse density = some (Int.tmod ⌊pulse * 50 + density * 20⌋ 6) ∧
    0 ≤ Int.tmod ⌊pulse * 50 + density * 20⌋ 6 ∧
    Int.tmod ⌊pulse * 50 + density * 20⌋ 6 ≤ 5 := by
  have hk : 0 ≤ ⌊pulse * 50 + density * 20⌋ := Int.floor_nonneg.mpr h0
  refine ⟨?_, ?_, ?_⟩
  · unfold rainbow_hue
    rw [float_to_int_nonneg _ h0 hfit]
    rfl
  · exact Int.tmod_nonneg _ hk
  · have := Int.tmod_lt_of_pos ⌊pulse * 50 + density * 20⌋ (by norm_num : (0 : ℤ) < 6)
    omega

theorem rainbow_colors_get (h : ℤ) (h0 : 0 ≤ h) (h1 : h ≤ 5) :
    ∃ c, rainbow_colors.get? h.toNat = some c := by
  have hlt : h.toNat < rainbow_colors.length := by
    have : rainbow_colors.length = 6 := rfl
    rw [this]
    omega
  exact ⟨rainbow_colors.get ⟨_, hlt⟩, List.get?_eq_get hlt⟩

theorem get_slime_color_rainbow (s : Sim) (density highlight glow : ℝ)
    (hth : s.color_theme = 3) (hp : 0 ≤ s.pulse_phase) (hd : density > 1.8)
    (hfit : s.pulse_phase * 50 + density * 20 < 2147483648) :
    ∃ c, get_slime_color s density highlight glow = some c := by
  obtain ⟨he, h0, h1⟩ := rainbow_hue_eq s.pulse_phase density (by nlinarith) hfit
  obtain ⟨c, hc⟩ := rainbow_colors_get _ h0 h1
  have t0 : ¬ s.color_theme = 0 := by rw [hth]; decide
  have t1 : ¬ s.color_theme = 1 := by rw [hth]; decide
  have t2 : ¬ s.color_theme = 2 := by rw [hth]; decide
  have g0 : ¬ (s.show_glow = true ∧ density < 3.5 ∧ density > METABALL_THRESHOLD
      ∧ s.color_theme = 0) := fun h => t0 h.2.2.2
  have g1 : ¬ (s.show_glow = true ∧ density < 3.5 ∧ density > METABALL_THRESHOLD
      ∧ s.color_theme = 1) := fun h => t1 h.2.2.2
  have g2 : ¬ (s.show_glow = true ∧ density < 3.5 ∧ density > METABALL_THRESHOLD
      ∧ s.color_theme = 2) := fun h => t2 h.2.2.2
  unfold get_slime_color
  by_cases c1 : s.use_color = false
  · rw [if_pos c1]
    exact ⟨_, rfl⟩
  · rw [if_neg c1]
    by_cases c2 : highlight > 0.8 ∧ s.show_highlights = true
    · rw [if_pos c2]
      exact ⟨_, rfl⟩
    · rw [if_neg c2, if_neg g0, if_neg g1, if_neg g2, if_neg t0, if_neg t1, if_neg t2, if_pos hth,
        he]
      simp only [Option.some_bind]
      rw [if_pos h0]
      exact ⟨c, hc⟩

theorem apply_environmental_forces_pulse (rand : ℕ → ℕ) (RAND_MAX : ℕ) (s : Sim) :
    (apply_environmental_forces rand RAND_MAX s).pulse_phase = s.pulse_phase := by
  unfold apply_environmental_forces
  split_ifs
  · rfl
  · simp only
    refine foldl_inv (fun q : Sim => q.pulse_phase = s.pulse_phase) _ ?_ _ _ rfl
    intro q i hq
    show (apply_environmental_forces_step rand RAND_MAX _ q i).pulse_phase = s.pulse_phase
    unfold apply_environmental_forces_step
    split_ifs <;> exact hq

theorem update_physics_pulse (rand : ℕ → ℕ) (RAND_MAX : ℕ) (s : Sim) (dt : ℝ) :
    (update_physics rand RAND_MAX s dt).pulse_phase = s.pulse_phase + dt * 3 := by
  simp only [update_physics, solve_constraints]
  rw [apply_environmental_forces_pulse]
  rfl

theorem run_frames_pulse (rand : ℕ → ℕ) (RAND_MAX : ℕ) (fs : List ((Sim → Sim) × ℝ))
    (hfs : ∀ f ∈ fs, 0 ≤ f.2 ∧ ∀ t : Sim, (f.1 t).pulse_phase = t.pulse_phase) (s : Sim) :
    s.pulse_phase ≤ (run_frames rand RAND_MAX s fs).pulse_phase := by
  unfold run_frames
  induction fs generalizing s with
  | nil => exact le_refl _
  | cons f t ih =>
    rw [List.foldl_cons]
    have hf := hfs f (List.mem_cons_self _ _)
    refine le_trans ?_ (ih (fun g hg => hfs g (List.mem_cons_of_mem _ hg)) _)
    rw [update_physics_pulse, hf.2]
    linarith [hf.1]

/-- Claim C20. In the rainbow theme, for a pulse phase `≥ 0` and a density `> 1.8` such that
`pulse_phase * 50 + density * 20` is below `2 ^ 31` (it fits `int`), the hue index of line 402 is
defined and lies in `0..5`, the read of the 6-entry table `colors` is in bounds and
`get_slime_color` returns a colour. One `update_physics` step adds `3 * dt` to `pulse_phase`; so,
starting from the initial value 0, it stays `≥ 0` over any number of frames of the main loop in
which every `dt` is `≥ 0` (the key handling between two steps does not write `pulse_phase`). -/
theorem rainbow_hue_spec (rand : ℕ → ℕ) (RAND_MAX : ℕ) (s : Sim) (density highlight glow dt : ℝ)
    (fs : List ((Sim → Sim) × ℝ)) :
    (0 ≤ s.pulse_phase → density > 1.8 → s.pulse_phase * 50 + density * 20 < 2147483648 →
      (∃ hue, rainbow_hue s.pulse_phase density = some hue ∧ 0 ≤ hue ∧ hue ≤ 5 ∧
        ∃ c, rainbow_colors.get? hue.toNat = some c) ∧
      (s.color_theme = 3 → ∃ c, get_slime_color s density highlight glow = some c)) ∧
    (update_physics rand RAND_MAX s dt).pulse_phase = s.pulse_phase + dt * 3 ∧
    (s.pulse_phase = pulse_phase_init →
      (∀ f ∈ fs, 0 ≤ f.2 ∧ ∀ t : Sim, (f.1 t).pulse_phase = t.pulse_phase) →
      0 ≤ (run_frames rand RAND_MAX s fs).pulse_phase) := by
  refine ⟨?_, update_physics_pulse rand RAND_MAX s dt, ?_⟩
  · intro hp hd hfit
    obtain ⟨he, h0, h1⟩ := rainbow_hue_eq s.pulse_phase density (by nlinarith) hfit
    exact ⟨⟨_, he, h0, h1, rainbow_colors_get _ h0 h1⟩,
      fun hth => get_slime_color_rainbow s density highlight glow hth hp hd hfit⟩
  · intro h0 hfs
    have := run_frames_pulse rand RAND_MAX fs hfs s
    rw [h0] at this
    unfold pulse_phase_init at this
    exact this

/-- Witness of `rainbow_hue_spec`: the state `sample_sim` in the rainbow theme at density 2, and
two frames of the main loop, the first with a rotation command and `dt = 1`. -/
theorem rainbow_hue_spec_witness :
    (∃ c, get_slime_color { sample_sim with color_theme := 3 } 2 0 1 = some c) ∧
    0 ≤ (run_frames (fun _ => 0) 1 { sample_sim with color_theme := 3 }
      [(fun s => apply_rotation_force s 0.8, 1), (id, 0.5)]).pulse_phase :=
  ⟨((rainbow_hue_spec (fun _ => 0) 1 { sample_sim with color_theme := 3 } 2 0 1 1
      [(fun s => apply_rotation_force s 0.8, 1), (id, 0.5)]).1
      (le_refl _) (by norm_num) (by norm_num [sample_sim])).2 rfl,
   (rainbow_hue_spec (fun _ => 0) 1 { sample_sim with color_theme := 3 } 2 0 1 1
      [(fun s => apply_rotation_force s 0.8, 1), (id, 0.5)]).2.2 rfl
      (by
        intro f hf
        simp only [List.mem_cons, List.mem_singleton, List.not_mem_nil, or_false] at hf
        rcases hf with h | h <;> subst h
        · exact ⟨by norm_num, fun _ => rfl⟩
        · exact ⟨by norm_num, fun _ => rfl⟩)⟩

/-! ## C21: initialisation and the masses -/

theorem same_mass_refl (s : Sim) : same_mass s s := ⟨rfl, fun _ => rfl⟩

theorem same_mass_trans (s t u : Sim) (h1 : same_mass s t) (h2 : same_mass t u) :
    same_mass s u :=
  ⟨h2.1.trans h1.1, fun j => (h2.2 j).trans (h1.2 j)⟩

theorem foldl_same_mass {β : Type} (f : Sim → β → Sim) (hf : ∀ q b, same_mass q (f q b))
    (l : List β) (s : Sim) : same_mass s (l.foldl f s) := by
  induction l generalizing s with
  | nil => exact same_mass_refl s
  | cons b t ih =>
    rw [List.foldl_cons]
    exact same_mass_trans _ _ _ (hf s b) (ih _)

theorem apply_force_to_point_mass (p : Point) (F : Vec2) :
    (apply_force_to_point p F).mass = p.mass := by
  unfold apply_force_to_point; split_ifs <;> rfl

theorem update_mass (pts : Fin NUM_POINTS → Point) (i j : Fin NUM_POINTS) (p : Point)
    (hp : p.mass = (pts i).mass) : (Function.update pts i p j).mass = (pts j).mass := by
  by_cases h : j = i
  · subst h; rw [Function.update_same]; exact hp
  · rw [Function.update_noteq h]

theorem foldl_points_mass (step : (Fin NUM_POINTS → Point) → Fin NUM_POINTS → Fin NUM_POINTS → Point)
    (hstep : ∀ q i j, (step q i j).mass = (q j).mass) (l : List (Fin NUM_POINTS))
    (pts : Fin NUM_POINTS → Point) (j : Fin NUM_POINTS) :
    (l.foldl step pts j).mass = (pts j).mass := by
  induction l generalizing pts with
  | nil => rfl
  | cons i t ih => rw [List.foldl_cons, ih, hstep]

/-- A loop over the boundary points that applies one force to each point keeps the masses. -/
theorem force_loop_mass (s t : Sim) (F : Fin NUM_POINTS → Point → Vec2)
    (hc : t.center = s.center)
    (hp : t.points = (List.finRange NUM_POINTS).foldl
      (fun pts i => Function.update pts i (apply_force_to_point (pts i) (F i (pts i)))) s.points) :
    same_mass s t := by
  refine ⟨by rw [hc], fun j => ?_⟩
  rw [hp]
  exact foldl_points_mass _
    (fun q i k => update_mass q i k _ (apply_force_to_point_mass _ _)) _ _ j

theorem apply_radial_force_mass (s : Sim) (strength : ℝ) :
    same_mass s (apply_radial_force s strength) := by
  refine ⟨rfl, fun j => ?_⟩
  unfold apply_radial_force
  refine foldl_points_mass _ (fun q i k => update_mass q i k _ ?_) _ _ j
  simp only [radial_force_point]
  split_ifs
  · exact apply_force_to_point_mass _ _
  · rfl

theorem apply_rotation_force_mass (s : Sim) (w : ℝ) :
    same_mass s (apply_rotation_force s w) :=
  force_loop_mass s _ (fun _ p => rotation_force w s.center p) rfl rfl

theorem apply_squeeze_mass (s : Sim) (axis : ℤ) : same_mass s (apply_squeeze s axis) :=
  force_loop_mass s _ (fun _ p => squeeze_force axis s.center p) rfl rfl

theorem apply_stretch_mass (s : Sim) (axis : ℤ) : same_mass s (apply_stretch s axis) :=
  force_loop_mass s _ (fun _ p => stretch_force axis s.center p) rfl rfl

theorem apply_directional_stretch_mass (s : Sim) (angle strength : ℝ) :
    same_mass s (apply_directional_stretch s angle strength) :=
  force_loop_mass s _ (fun _ p => directional_stretch_force angle strength s.center p) rfl rfl

theorem apply_wave_mass (s : Sim) (phase : ℝ) : same_mass s (apply_wave s phase) :=
  force_loop_mass s _ (fun i _ => wave_force phase i) rfl rfl

theorem apply_vibration_mass (rand : ℕ → ℕ) (RAND_MAX : ℕ) (s : Sim) (intensity : ℝ) :
    same_mass s (apply_vibration rand RAND_MAX s intensity) := by
  unfold apply_vibration
  exact foldl_same_mass (apply_vibration_step rand RAND_MAX intensity)
    (fun q i => ⟨rfl, fun j => update_mass q.points i j _ (apply_force_to_point_mass _ _)⟩) _ s

theorem apply_force_global_mass (rand : ℕ → ℕ) (RAND_MAX : ℕ) (s : Sim) (force : Vec2) :
    same_mass s (apply_force_global rand RAND_MAX s force) := by
  unfold apply_force_global
  have h := foldl_same_mass
    (apply_force_global_step rand RAND_MAX (vec_scale force (force_mult s.force_mode)))
    (fun q i => ⟨rfl, fun j => update_mass q.points i j _ (apply_force_to_point_mass _ _)⟩)
    (List.finRange NUM_POINTS) s
  exact ⟨(apply_force_to_point_mass _ _).trans h.1, h.2⟩

theorem poke_random_mass (rand : ℕ → ℕ) (s : Sim) : same_mass s (poke_random rand s) := by
  unfold poke_random poke_point
  exact ⟨rfl, fun j => update_mass _ _ j _ (apply_force_to_point_mass _ _)⟩

theorem apply_slime_wobble_mass (s : Sim) (dt : ℝ) : same_mass s (apply_slime_wobble s dt) := by
  refine ⟨rfl, fun j => ?_⟩
  unfold apply_slime_wobble
  refine foldl_points_mass _ (fun q i k => ?_) _ _ j
  unfold apply_slime_wobble_step
  exact update_mass q i k _ (apply_force_to_point_mass _ _)

theorem apply_environmental_forces_mass (rand : ℕ → ℕ) (RAND_MAX : ℕ) (s : Sim) :
    same_mass s (apply_environmental_forces rand RAND_MAX s) := by
  unfold apply_environmental_forces
  split_ifs
  · exact same_mass_refl s
  · have h := foldl_same_mass
      (apply_environmental_forces_step rand RAND_MAX
        (vec_new s.env.wind_x (s.env.gravity + s.env.wind_y)))
      (fun q i => by
        unfold apply_environmental_forces_step
        split_ifs
        · exact ⟨rfl, fun j => update_mass q.points i j _ (apply_force_to_point_mass _ _)⟩
        · exact ⟨rfl, fun j => update_mass q.points i j _ (apply_force_to_point_mass _ _)⟩)
      (List.finRange NUM_POINTS) s
    exact ⟨(apply_force_to_point_mass _ _).trans h.1, h.2⟩

theorem solve_constraints_mass (s : Sim) : same_mass s (solve_constraints s) :=
  ⟨rfl, fun j => solve_constraints_frame Point.mass (fun _ _ => rfl) s j⟩

theorem internal_forces_point_mass (c : Point) (a b : Vec2) (p : Point) :
    (internal_forces_point c a b p).mass = p.mass := by
  simp only [internal_forces_point]
  split_ifs <;> simp [apply_force_to_point_mass]

theorem apply_boundary_constraints_mass (w h : ℤ) (p : Point) :
    (apply_boundary_constraints w h p).mass = p.mass := by
  simp only [apply_boundary_constraints]
  split_ifs <;> rfl

theorem integrate_point_mass (w h : ℤ) (dt : ℝ) (p : Point) :
    (integrate_point w h dt p).mass = p.mass := by
  unfold integrate_point
  split_ifs
  · rfl
  · rw [apply_boundary_constraints_mass]

theorem update_physics_mass (rand : ℕ → ℕ) (RAND_MAX : ℕ) (s : Sim) (dt : ℝ) :
    same_mass s (update_physics rand RAND_MAX s dt) := by
  have h1 := apply_slime_wobble_mass s dt
  have hint : ∀ (c : Point) (pts : Fin NUM_POINTS → Point) (j : Fin NUM_POINTS),
      ((List.finRange NUM_POINTS).foldl (internal_forces_step c) pts j).mass = (pts j).mass :=
    fun c pts j => foldl_points_mass _
      (fun q i k => update_mass q i k _ (internal_forces_point_mass _ _ _ _)) _ _ j
  have hintg : ∀ (w h : ℤ) (pts : Fin NUM_POINTS → Point) (j : Fin NUM_POINTS),
      ((List.finRange NUM_POINTS).foldl (integrate_step w h dt) pts j).mass = (pts j).mass :=
    fun w h pts j => foldl_points_mass _
      (fun q i k => update_mass q i k _ (integrate_point_mass _ _ _ _)) _ _ j
  simp only [update_physics]
  constructor
  · show (integrate_point _ _ dt (apply_environmental_forces rand RAND_MAX _).center).mass = _
    rw [integrate_point_mass, (apply_environmental_forces_mass rand RAND_MAX _).1]
    exact apply_force_to_point_mass _ _
  · intro j
    show ((solve_constraints _).points j).mass = _
    rw [(solve_constraints_mass _).2 j]
    simp only
    rw [hintg, (apply_environmental_forces_mass rand RAND_MAX _).2 j]
    simp only
    rw [hint, h1.2 j]

theorem init_blob_step_frame (rand : ℕ → ℕ) (RAND_MAX : ℕ) (s : Sim) (i : Fin NUM_POINTS) :
    (init_blob_step rand RAND_MAX s i).center = s.center ∧
    (∀ j, j ≠ i → (init_blob_step rand RAND_MAX s i).points j = s.points j) ∧
    (init_blob_step rand RAND_MAX s i).points i
      = ⟨⟨s.center.pos.x + Real.cos (((i : ℕ) : ℝ) / (NUM_POINTS : ℝ) * 2 * Real.pi
              + randf rand RAND_MAX (s.rand_calls + 1) * 0.3)
            * (RADIUS + randf rand RAND_MAX s.rand_calls * IRREGULARITY) * 2,
          s.center.pos.y + Real.sin (((i : ℕ) : ℝ) / (NUM_POINTS : ℝ) * 2 * Real.pi
              + randf rand RAND_MAX (s.rand_calls + 1) * 0.3)
            * (RADIUS + randf rand RAND_MAX s.rand_calls * IRREGULARITY)⟩,
         ⟨s.center.pos.x + Real.cos (((i : ℕ) : ℝ) / (NUM_POINTS : ℝ) * 2 * Real.pi
              + randf rand RAND_MAX (s.rand_calls + 1) * 0.3)
            * (RADIUS + randf rand RAND_MAX s.rand_calls * IRREGULARITY) * 2,
          s.center.pos.y + Real.sin (((i : ℕ) : ℝ) / (NUM_POINTS : ℝ) * 2 * Real.pi
              + randf rand RAND_MAX (s.rand_calls + 1) * 0.3)
            * (RADIUS + randf rand RAND_MAX s.rand_calls * IRREGULARITY)⟩,
         vec_new 0 0, vec_new 0 0,
         POINT_MASS + randf rand RAND_MAX (s.rand_calls + 2) * 0.2,
         ((i : ℕ) : ℝ) / (NUM_POINTS : ℝ) * 2 * Real.pi
           + randf rand RAND_MAX (s.rand_calls + 1) * 0.3,
         randf rand RAND_MAX (s.rand_calls + 3) * Real.pi * 2, false⟩ := by
  refine ⟨rfl, fun j hj => ?_, ?_⟩
  · simp only [init_blob_step, Function.update_noteq hj]
  · simp only [init_blob_step, Function.update_same]

theorem init_blob_loop (rand : ℕ → ℕ) (RAND_MAX : ℕ) (hR : 0 < RAND_MAX)
    (hr : ∀ k, rand k ≤ RAND_MAX) (l : List (Fin NUM_POINTS)) (s : Sim) :
    (l.foldl (init_blob_step rand RAND_MAX) s).center = s.center ∧
    ∀ j, (j ∈ l → fresh_point ((l.foldl (init_blob_step rand RAND_MAX) s).points j)) ∧
      (j ∉ l → (l.foldl (init_blob_step rand RAND_MAX) s).points j = s.points j) := by
  induction l using List.reverseRecOn with
  | nil => exact ⟨rfl, fun j => ⟨fun h => absurd h (List.not_mem_nil _), fun _ => rfl⟩⟩
  | append_singleton t i ih =>
    rw [List.foldl_append, List.foldl_cons, List.foldl_nil]
    obtain ⟨hc, hp, hi⟩ := init_blob_step_frame rand RAND_MAX
      (t.foldl (init_blob_step rand RAND_MAX) s) i
    refine ⟨hc.trans ih.1, fun j => ?_⟩
    by_cases hji : j = i
    · subst hji
      refine ⟨fun _ => ?_, fun h => absurd (List.mem_append_right _ (List.mem_singleton_self _)) h⟩
      rw [hi]
      have hk := abs_le.mp (randf_range rand RAND_MAX hR hr
        ((t.foldl (init_blob_step rand RAND_MAX) s).rand_calls + 2))
      refine ⟨?_, ?_, rfl, rfl, rfl⟩
      · show (0.3 : ℝ) ≤ POINT_MASS + _ * 0.2
        unfold POINT_MASS; linarith [hk.1]
      · show POINT_MASS + _ * 0.2 ≤ (0.7 : ℝ)
        unfold POINT_MASS; linarith [hk.2]
    · rw [hp j hji]
      constructor
      · intro h
        rcases List.mem_append.mp h with h | h
        · exact (ih.2 j).1 h
        · exact absurd (List.mem_singleton.mp h) hji
      · intro h
        exact (ih.2 j).2 (fun h' => h (List.mem_append_left _ h'))

theorem init_blob_fresh (rand : ℕ → ℕ) (RAND_MAX : ℕ) (hR : 0 < RAND_MAX)
    (hr : ∀ k, rand k ≤ RAND_MAX) (s : Sim) :
    (init_blob rand RAND_MAX s).center.mass = 0.5 ∧
    (init_blob rand RAND_MAX s).center.pinned = false ∧
    (init_blob rand RAND_MAX s).center.vel = vec_new 0 0 ∧
    (init_blob rand RAND_MAX s).center.acc = vec_new 0 0 ∧
    ∀ j, fresh_point ((init_blob rand RAND_MAX s).points j) := by
  unfold init_blob
  simp only
  obtain ⟨hc, hp⟩ := init_blob_loop rand RAND_MAX hR hr (List.finRange NUM_POINTS)
    { s with center :=
      { s.center with pos := vec_new ((s.width : ℝ) / 2) ((s.height : ℝ) / 2),
                      old_pos := vec_new ((s.width : ℝ) / 2) ((s.height : ℝ) / 2),
                      vel := vec_new 0 0, acc := vec_new 0 0, mass := POINT_MASS,
                      pinned := false } }
  refine ⟨?_, ?_, ?_, ?_, fun j => (hp j).1 (List.mem_finRange j)⟩
  · rw [hc]; show POINT_MASS = 0.5; unfold POINT_MASS; norm_num
  · rw [hc]
  · rw [hc]
  · rw [hc]

theorem init_blob_masses_ok (rand : ℕ → ℕ) (RAND_MAX : ℕ) (hR : 0 < RAND_MAX)
    (hr : ∀ k, rand k ≤ RAND_MAX) (s : Sim) : masses_ok (init_blob rand RAND_MAX s) := by
  obtain ⟨hc, _, _, _, hp⟩ := init_blob_fresh rand RAND_MAX hR hr s
  exact ⟨hc, fun j => ⟨(hp j).1, (hp j).2.1⟩⟩

theorem masses_ok_of_same_mass (s t : Sim) (h : same_mass s t) (hs : masses_ok s) :
    masses_ok t :=
  ⟨h.1.trans hs.1, fun j => by rw [h.2 j]; exact hs.2 j⟩

theorem poke_many_mass (rand : ℕ → ℕ) (s : Sim) (n : ℕ) :
    same_mass s ((List.range n).foldl (fun s _ => poke_random rand s) s) :=
  foldl_same_mass (fun s _ => poke_random rand s) (fun q _ => poke_random_mass rand q) _ s

theorem ite_outcome (P : Option Sim → Prop) {c : Prop} [Decidable c] {a b : Option Sim}
    (ha : c → P a) (hb : ¬ c → P b) : P (if c then a else b) := by
  split_ifs with h
  · exact ha h
  · exact hb h

theorem handle_input_cases (rand : ℕ → ℕ) (RAND_MAX : ℕ) (s : Sim) (c : Char) :
    key_outcome rand RAND_MAX s c (handle_input rand RAND_MAX s c) := by
  have key_same : ∀ t : Sim, c ≠ '0' → same_mass s t →
      key_outcome rand RAND_MAX s c (some t) :=
    fun t hc h => Or.inr (Or.inr ⟨hc, t, rfl, h⟩)
  unfold handle_input
  -- key `q`
  refine ite_outcome (key_outcome rand RAND_MAX s c) (fun _ => Or.inl rfl) (fun _ => ?_)
  -- key `w`
  refine ite_outcome (key_outcome rand RAND_MAX s c)
    (fun h => key_same _ (by rw [h]; decide) (apply_force_global_mass _ _ _ _)) (fun _ => ?_)
  -- key `s`
  refine ite_outcome (key_outcome rand RAND_MAX s c)
    (fun h => key_same _ (by rw [h]; decide) (apply_force_global_mass _ _ _ _)) (fun _ => ?_)
  -- key `a`
  refine ite_outcome (key_outcome rand RAND_MAX s c)
    (fun h => key_same _ (by rw [h]; decide) (apply_force_global_mass _ _ _ _)) (fun _ => ?_)
  -- key `d`
  refine ite_outcome (key_outcome rand RAND_MAX s c)
    (fun h => key_same _ (by rw [h]; decide) (apply_force_global_mass _ _ _ _)) (fun _ => ?_)
  -- key `W`
  refine ite_outcome (key_outcome rand RAND_MAX s c)
    (fun h => key_same _ (by rw [h]; decide) (apply_force_global_mass _ _ _ _)) (fun _ => ?_)
  -- key `E`
  refine ite_outcome (key_outcome rand RAND_MAX s c)
    (fun h => key_same _ (by rw [h]; decide) (apply_force_global_mass _ _ _ _)) (fun _ => ?_)
  -- key `X`
  refine ite_outcome (key_outcome rand RAND_MAX s c)
    (fun h => key_same _ (by rw [h]; decide) (apply_force_global_mass _ _ _ _)) (fun _ => ?_)
  -- key `C`
  refine ite_outcome (key_outcome rand RAND_MAX s c)
    (fun h => key_same _ (by rw [h]; decide) (apply_force_global_mass _ _ _ _)) (fun _ => ?_)
  -- key `p`
  refine ite_outcome (key_outcome rand RAND_MAX s c)
    (fun h => key_same _ (by rw [h]; decide) (apply_radial_force_mass _ _)) (fun _ => ?_)
  -- key `i`
  refine ite_outcome (key_outcome rand RAND_MAX s c)
    (fun h => key_same _ (by rw [h]; decide) (apply_radial_force_mass _ _)) (fun _ => ?_)
  -- key `o`
  refine ite_outcome (key_outcome rand RAND_MAX s c)
    (fun h => key_same _ (by rw [h]; decide) (apply_radial_force_mass _ _)) (fun _ => ?_)
  -- key `l`
  refine ite_outcome (key_outcome rand RAND_MAX s c)
    (fun h => key_same _ (by rw [h]; decide) (apply_rotation_force_mass _ _)) (fun _ => ?_)
  -- key `j`
  refine ite_outcome (key_outcome rand RAND_MAX s c)
    (fun h => key_same _ (by rw [h]; decide) (apply_rotation_force_mass _ _)) (fun _ => ?_)
  -- key `k`
  refine ite_outcome (key_outcome rand RAND_MAX s c)
    (fun h => key_same _ (by rw [h]; decide) (apply_rotation_force_mass _ _)) (fun _ => ?_)
  -- key `h`
  refine ite_outcome (key_outcome rand RAND_MAX s c)
    (fun h => key_same _ (by rw [h]; decide) (apply_squeeze_mass _ _)) (fun _ => ?_)
  -- key `v`
  refine ite_outcome (key_outcome rand RAND_MAX s c)
    (fun h => key_same _ (by rw [h]; decide) (apply_squeeze_mass _ _)) (fun _ => ?_)
  -- key `H`
  refine ite_outcome (key_outcome rand RAND_MAX s c)
    (fun h => key_same _ (by rw [h]; decide) (apply_stretch_mass _ _)) (fun _ => ?_)
  -- key `V`
  refine ite_outcome (key_outcome rand RAND_MAX s c)
    (fun h => key_same _ (by rw [h]; decide) (apply_stretch_mass _ _)) (fun _ => ?_)
  -- key `b`
  refine ite_outcome (key_outcome rand RAND_MAX s c)
    (fun h => key_same _ (by rw [h]; decide) (apply_vibration_mass _ _ _ _)) (fun _ => ?_)
  -- key `B`
  refine ite_outcome (key_outcome rand RAND_MAX s c)
    (fun h => key_same _ (by rw [h]; decide) (apply_vibration_mass _ _ _ _)) (fun _ => ?_)
  -- key `n`
  refine ite_outcome (key_outcome rand RAND_MAX s c)
    (fun h => key_same _ (by rw [h]; decide) (apply_wave_mass _ _)) (fun _ => ?_)
  -- key `u`
  refine ite_outcome (key_outcome rand RAND_MAX s c)
    (fun h => key_same _ (by rw [h]; decide) (apply_directional_stretch_mass _ _ _)) (fun _ => ?_)
  -- key `y`
  refine ite_outcome (key_outcome rand RAND_MAX s c)
    (fun h => key_same _ (by rw [h]; decide) (apply_directional_stretch_mass _ _ _)) (fun _ => ?_)
  -- key `t`
  refine ite_outcome (key_outcome rand RAND_MAX s c)
    (fun h => key_same _ (by rw [h]; decide) (apply_directional_stretch_mass _ _ _)) (fun _ => ?_)
  -- key `r`
  refine ite_outcome (key_outcome rand RAND_MAX s c)
    (fun h => key_same _ (by rw [h]; decide) (apply_directional_stretch_mass _ _ _)) (fun _ => ?_)
  -- key ` `
  refine ite_outcome (key_outcome rand RAND_MAX s c)
    (fun h => key_same _ (by rw [h]; decide) (poke_random_mass _ _)) (fun _ => ?_)
  -- key `m`
  refine ite_outcome (key_outcome rand RAND_MAX s c)
    (fun h => key_same _ (by rw [h]; decide) (poke_many_mass _ _ _)) (fun _ => ?_)
  -- key `1`
  refine ite_outcome (key_outcome rand RAND_MAX s c)
    (fun h => key_same _ (by rw [h]; decide) (⟨rfl, fun _ => rfl⟩)) (fun _ => ?_)
  -- key `2`
  refine ite_outcome (key_outcome rand RAND_MAX s c)
    (fun h => key_same _ (by rw [h]; decide) (⟨rfl, fun _ => rfl⟩)) (fun _ => ?_)
  -- key `3`
  refine ite_outcome (key_outcome rand RAND_MAX s c)
    (fun h => key_same _ (by rw [h]; decide) (⟨rfl, fun _ => rfl⟩)) (fun _ => ?_)
  -- key `4`
  refine ite_outcome (key_outcome rand RAND_MAX s c)
    (fun h => key_same _ (by rw [h]; decide) (⟨rfl, fun _ => rfl⟩)) (fun _ => ?_)
  -- key `g`
  refine ite_outcome (key_outcome rand RAND_MAX s c)
    (fun h => key_same _ (by rw [h]; decide) (⟨rfl, fun _ => rfl⟩)) (fun _ => ?_)
  -- key `f`
  refine ite_outcome (key_outcome rand RAND_MAX s c)
    (fun h => key_same _ (by rw [h]; decide) (⟨rfl, fun _ => rfl⟩)) (fun _ => ?_)
  -- key `F`
  refine ite_outcome (key_outcome rand RAND_MAX s c)
    (fun h => key_same _ (by rw [h]; decide) (⟨rfl, fun _ => rfl⟩)) (fun _ => ?_)
  -- key `T`
  refine ite_outcome (key_outcome rand RAND_MAX s c)
    (fun h => key_same _ (by rw [h]; decide) (⟨rfl, fun _ => rfl⟩)) (fun _ => ?_)
  -- key `c`
  refine ite_outcome (key_outcome rand RAND_MAX s c)
    (fun h => key_same _ (by rw [h]; decide) (⟨rfl, fun _ => rfl⟩)) (fun _ => ?_)
  -- key `z`
  refine ite_outcome (key_outcome rand RAND_MAX s c)
    (fun h => key_same _ (by rw [h]; decide) (⟨rfl, fun _ => rfl⟩)) (fun _ => ?_)
  -- key `x`
  refine ite_outcome (key_outcome rand RAND_MAX s c)
    (fun h => key_same _ (by rw [h]; decide) (⟨rfl, fun _ => rfl⟩)) (fun _ => ?_)
  -- key `Z`
  refine ite_outcome (key_outcome rand RAND_MAX s c)
    (fun h => key_same _ (by rw [h]; decide) (⟨rfl, fun _ => rfl⟩)) (fun _ => ?_)
  -- key `0`, and the keys that are no `case`
  refine ite_outcome (key_outcome rand RAND_MAX s c) (fun h => Or.inr (Or.inl ⟨h, rfl⟩))
    (fun h => ?_)
  exact key_same s h (same_mass_refl s)

theorem handle_input_masses_ok (rand : ℕ → ℕ) (RAND_MAX : ℕ) (hR : 0 < RAND_MAX)
    (hr : ∀ k, rand k ≤ RAND_MAX) (s t : Sim) (c : Char) (hs : masses_ok s)
    (h : handle_input rand RAND_MAX s c = some t) : masses_ok t := by
  rcases handle_input_cases rand RAND_MAX s c with h0 | ⟨_, h0⟩ | ⟨_, u, h0, hu⟩
  · rw [h0] at h; cases h
  · rw [h0] at h; cases h
    exact init_blob_masses_ok rand RAND_MAX hR hr s
  · rw [h0] at h; cases h
    exact masses_ok_of_same_mass s _ hu hs

theorem main_frame_masses_ok (rand : ℕ → ℕ) (RAND_MAX : ℕ) (hR : 0 < RAND_MAX)
    (hr : ∀ k, rand k ≤ RAND_MAX) (o : Option Sim) (f : Option Char × ℝ)
    (ho : ∀ s, o = some s → masses_ok s) :
    ∀ t, main_frame rand RAND_MAX o f = some t → masses_ok t := by
  intro t ht
  cases o with
  | none => simp [main_frame] at ht
  | some s =>
    have hs := ho s rfl
    obtain ⟨key, dt⟩ := f
    cases key with
    | none =>
      simp only [main_frame, Option.some_bind, Option.map_some', Option.some.injEq] at ht
      subst ht
      exact masses_ok_of_same_mass s _ (update_physics_mass rand RAND_MAX s dt) hs
    | some c =>
      simp only [main_frame, Option.some_bind] at ht
      cases hk : handle_input rand RAND_MAX s c with
      | none => rw [hk] at ht; simp at ht
      | some u =>
        rw [hk] at ht
        simp only [Option.map_some', Option.some.injEq] at ht
        subst ht
        exact masses_ok_of_same_mass u _ (update_physics_mass rand RAND_MAX u dt)
          (handle_input_masses_ok rand RAND_MAX hR hr s u c hs hk)

theorem main_loop_masses_ok (rand : ℕ → ℕ) (RAND_MAX : ℕ) (hR : 0 < RAND_MAX)
    (hr : ∀ k, rand k ≤ RAND_MAX) (s : Sim) (fs : List (Option Char × ℝ)) :
    ∀ t, main_loop rand RAND_MAX s fs = some t → masses_ok t := by
  unfold main_loop
  refine foldl_inv (fun o : Option Sim => ∀ t, o = some t → masses_ok t) _ ?_ _ _ ?_
  · intro o f ho
    exact main_frame_masses_ok rand RAND_MAX hR hr o f ho
  · intro t ht
    cases ht
    exact init_blob_masses_ok rand RAND_MAX hR hr s

/-- Claim C21. For every outcome of the random draws (`rand()` returns values in
`0 .. RAND_MAX`, so every `randf()` is in `[-1, 1]`), after `init_blob` the anchor has mass 0.5
and every boundary point has a mass in `[0.3, 0.7]`; the anchor and every boundary point are not
pinned and have zero velocity and zero acceleration. The force generators, `update_physics`,
`solve_constraints` and `handle_input` for every key other than the reset key `0` leave every mass
unchanged. Hence in every state the main loop reaches, whatever the keys and time steps, the
masses by which `apply_force_to_point` divides are strictly positive. -/
theorem init_blob_spec (rand : ℕ → ℕ) (RAND_MAX : ℕ) (hR : 0 < RAND_MAX)
    (hr : ∀ k, rand k ≤ RAND_MAX) (s : Sim) :
    ((init_blob rand RAND_MAX s).center.mass = 0.5 ∧
      (init_blob rand RAND_MAX s).center.pinned = false ∧
      (init_blob rand RAND_MAX s).center.vel = vec_new 0 0 ∧
      (init_blob rand RAND_MAX s).center.acc = vec_new 0 0 ∧
      ∀ j, 0.3 ≤ ((init_blob rand RAND_MAX s).points j).mass ∧
        ((init_blob rand RAND_MAX s).points j).mass ≤ 0.7 ∧
        ((init_blob rand RAND_MAX s).points j).pinned = false ∧
        ((init_blob rand RAND_MAX s).points j).vel = vec_new 0 0 ∧
        ((init_blob rand RAND_MAX s).points j).acc = vec_new 0 0) ∧
    (∀ (u : Sim) (dt a b : ℝ) (F : Vec2) (axis : ℤ),
      same_mass u (update_physics rand RAND_MAX u dt) ∧
      same_mass u (solve_constraints u) ∧
      same_mass u (apply_slime_wobble u dt) ∧
      same_mass u (apply_environmental_forces rand RAND_MAX u) ∧
      same_mass u (apply_force_global rand RAND_MAX u F) ∧
      same_mass u (apply_radial_force u a) ∧
      same_mass u (apply_rotation_force u a) ∧
      same_mass u (apply_squeeze u axis) ∧
      same_mass u (apply_stretch u axis) ∧
      same_mass u (apply_vibration rand RAND_MAX u a) ∧
      same_mass u (poke_random rand u) ∧
      same_mass u (apply_directional_stretch u a b) ∧
      same_mass u (apply_wave u a)) ∧
    (∀ (u v : Sim) (c : Char), c ≠ '0' → handle_input rand RAND_MAX u c = some v →
      same_mass u v) ∧
    (∀ (fs : List (Option Char × ℝ)) (t : Sim), main_loop rand RAND_MAX s fs = some t →
      0 < t.center.mass ∧ ∀ j, 0 < (t.points j).mass) := by
  refine ⟨?_, ?_, ?_, ?_⟩
  · obtain ⟨h1, h2, h3, h4, h5⟩ := init_blob_fresh rand RAND_MAX hR hr s
    exact ⟨h1, h2, h3, h4, h5⟩
  · intro u dt a b F axis
    exact ⟨update_physics_mass rand RAND_MAX u dt, solve_constraints_mass u,
      apply_slime_wobble_mass u dt, apply_environmental_forces_mass rand RAND_MAX u,
      apply_force_global_mass rand RAND_MAX u F, apply_radial_force_mass u a,
      apply_rotation_force_mass u a, apply_squeeze_mass u axis, apply_stretch_mass u axis,
      apply_vibration_mass rand RAND_MAX u a, poke_random_mass rand u,
      apply_directional_stretch_mass u a b, apply_wave_mass u a⟩
  · intro u v c hc h
    rcases handle_input_cases rand RAND_MAX u c with h0 | ⟨h0, _⟩ | ⟨_, w, h0, hw⟩
    · rw [h0] at h; cases h
    · exact absurd h0 hc
    · rw [h0] at h; cases h
      exact hw
  · intro fs t ht
    obtain ⟨hc, hp⟩ := main_loop_masses_ok rand RAND_MAX hR hr s fs t ht
    refine ⟨by rw [hc]; norm_num, fun j => ?_⟩
    linarith [(hp j).1]

/-- Witness of `init_blob_spec`: `rand()` always returns 0 with `RAND_MAX = 1`, from the state
`sample_sim`. -/
theorem init_blob_spec_witness :
    (init_blob (fun _ => 0) 1 sample_sim).center.mass = 0.5 ∧
    ∀ (fs : List (Option Char × ℝ)) (t : Sim),
      main_loop (fun _ => 0) 1 sample_sim fs = some t →
      0 < t.center.mass ∧ ∀ j, 0 < (t.points j).mass :=
  ⟨(init_blob_spec (fun _ => 0) 1 (by decide) (fun _ => Nat.zero_le 1) sample_sim).1.1,
   (init_blob_spec (fun _ => 0) 1 (by decide) (fun _ => Nat.zero_le 1) sample_sim).2.2.2⟩

/-! ## C12: a pinned point at rest in one physics step -/

end SlimeBlob

end
